import Mathlib

/-!
# tiktok-live-logger: ingestion pipeline, event store and display model

A shallow embedding of the Go sources

* `pkg/tiktok/client.go`   (the event loop of `Client.TrackUser`),
* `cmd/log.go`             (the `onEvent` handler of the `log` command),
* `pkg/database/database.go` (the event store and its exports),
* `pkg/ui/ui.go`           (the display model),
* `cmd/clean.go`           (age-based deletion),

followed by theorems about them.

Conventions.  Go `int`/`int64` values are `Int`; no property below depends on
wrap-around.  Go `error` values are carried as their message (`Option Error`,
`none` being `nil`).  Closures that mutate captured variables become functions
on an explicit state.  Calls into the storage driver can fail for reasons that
are outside the program (I/O); every such call takes the outcome the driver
gives it as an argument (`none`: the statement was executed).

A `time.Time` carries its location.  The rules of the zone of the process
(`time.Local`) are a parameter `tz` of everything that reads a wall clock.  The
store keeps a timestamp as the text the driver go-sqlite3 writes for it; SQL
comparisons and `ORDER BY` act on that text, and `Scan` parses it back.  A Go
`string` that reaches the store or a file need not be valid UTF-8 (`GoString`).
-/

namespace TiktokLiveLogger

/-- A Go `error` value, identified with its message. -/
abbrev Error := String

deriving instance DecidableEq for Except

/-! ## Go strings -/

/-- One element of a Go string read as UTF-8, the way `range` and
`encoding/json` read it: a decoded character, or a byte that is not part of
any valid encoding (a `byte` never stands for bytes that decode to a
character). -/
inductive GoChar where
  | rune (c : Char)
  | byte (b : Nat)
deriving DecidableEq, Repr

/-- A Go `string` as it is stored, compared and written to files by the
database package: it need not be valid UTF-8. -/
abbrev GoString := List GoChar

/-- The Go string of a text that is valid UTF-8. -/
def GoString.ofString (s : String) : GoString := s.data.map GoChar.rune

instance : Coe String GoString := ⟨GoString.ofString⟩

/-- The characters of a Go string, when it is valid UTF-8. -/
def GoString.chars : GoString → Option (List Char)
  | [] => some []
  | .rune c :: rest =>
      match GoString.chars rest with
      | some cs => some (c :: cs)
      | none => none
  | .byte _ :: _ => none

/-! ## Reading text -/

namespace reader

/-- The input after the literal `lit`, if the input starts with it. -/
def expect : List Char → List Char → Option (List Char)
  | [], cs => some cs
  | _ :: _, [] => none
  | l :: lit, c :: cs => if l = c then expect lit cs else none

/-- The number a run of decimal digits denotes. -/
def digitsValue (ds : List Char) : Nat :=
  ds.foldl (fun a c => 10 * a + (c.toNat - 48)) 0

/-- A number of exactly `w` digits. -/
def readFixed (w : Nat) (cs : List Char) : Option (Nat × List Char) :=
  if (cs.take w).length = w ∧ (cs.take w).all Char.isDigit = true then
    some (digitsValue (cs.take w), cs.drop w)
  else none

/-- A literal and then a number of exactly `w` digits. -/
def readField (lit : List Char) (w : Nat) (cs : List Char) : Option (Nat × List Char) :=
  match expect lit cs with
  | none => none
  | some cs1 => readFixed w cs1

/-- Go `getnum` of package `time`: a number of two digits, or of one digit when
the field is not of fixed width and no second digit follows. -/
def getnum (fixed : Bool) : List Char → Option (Nat × List Char)
  | [] => none
  | a :: rest =>
      if a.isDigit then
        match rest with
        | [] => if fixed then none else some (a.toNat - 48, [])
        | b :: rest2 =>
            if b.isDigit then some ((a.toNat - 48) * 10 + (b.toNat - 48), rest2)
            else if fixed then none
            else some (a.toNat - 48, b :: rest2)
      else none

/-- Go `skip` of package `time` for a space of the layout: the input must not
start with another character, and all the spaces it starts with are passed. -/
def skipSpace : List Char → Option (List Char)
  | [] => some []
  | c :: rest => if c = ' ' then some (rest.dropWhile (fun x => x = ' ')) else none

/-- An optional fraction of a second, as Go's `time.Parse` reads it: a period or
a comma followed by at least one digit; the value is in nanoseconds and digits
after the ninth do not count. -/
def readNano : List Char → Nat × List Char
  | [] => (0, [])
  | c :: rest =>
      if (c = '.' ∨ c = ',') ∧ rest.takeWhile Char.isDigit ≠ [] then
        (digitsValue ((rest.takeWhile Char.isDigit).take 9 ++
            List.replicate (9 - ((rest.takeWhile Char.isDigit).take 9).length) '0'),
          rest.dropWhile Char.isDigit)
      else (0, c :: rest)

/-- A zone offset written `+hh:mm` or `-hh:mm`, in seconds east of UTC, as Go's
`time.Parse` reads the layout element `-07:00`: the hour may be up to 24 and
the minute up to 60. -/
def readZone : List Char → Option (Int × List Char)
  | [] => none
  | c :: rest =>
      if c = '+' ∨ c = '-' then
        match readFixed 2 rest with
        | none => none
        | some (hh, cs1) =>
        match readField [':'] 2 cs1 with
        | none => none
        | some (mm, cs2) =>
            if 24 < hh ∨ 60 < mm then none
            else if c = '-' then some (-(((hh * 60 + mm) * 60 : Nat) : Int), cs2)
            else some ((((hh * 60 + mm) * 60 : Nat) : Int), cs2)
      else none

end reader

/-! ## `time.Time` -/

/-- The location a `time.Time` carries: UTC, the zone of the process
(`time.Local`), or a zone of fixed offset in seconds east of UTC (what the
parsers build for a written offset). -/
inductive Location where
  | UTC
  | Local
  | fixed (offset : Int)
deriving DecidableEq, Repr

/-- The rules of the zone of the process: the offset of `time.Local`, in seconds
east of UTC, at each Unix second. -/
abbrev Zone := Int → Int

/-- A Go `time.Time`: the instant (whole seconds since the Unix epoch and the
nanosecond inside that second) and the location it carries.  `time.Unix` and
`time.Now` give values in `time.Local`. -/
structure Time where
  sec : Int
  nsec : Nat
  loc : Location := Location.Local
deriving DecidableEq, Repr

namespace Time

/-- Go `time.Unix(sec, nsec)`: nanoseconds outside `[0, 1e9)` are carried into the
seconds. -/
def Unix (sec nsec : Int) : Time :=
  { sec := sec + nsec / 1000000000, nsec := (nsec % 1000000000).toNat }

/-- The zero value `time.Time{}`: January 1 of year 1, 00:00:00 UTC. -/
def zero : Time := { sec := -62135596800, nsec := 0, loc := Location.UTC }

/-- Nanoseconds since the epoch; instants are compared through it. -/
def unixNano (t : Time) : Int := t.sec * 1000000000 + t.nsec

/-- Go `t.Before(u)`: the instant of `t` is earlier than that of `u`. -/
def Before (t u : Time) : Prop := t.unixNano < u.unixNano

instance (t u : Time) : Decidable (t.Before u) := by
  unfold Before; infer_instance

/-- The offset of the value's zone at its instant, in seconds east of UTC. -/
def offset (tz : Zone) (t : Time) : Int :=
  match t.loc with
  | .UTC => 0
  | .Local => tz t.sec
  | .fixed o => o

/-- The wall clock of the value: seconds since 1970-01-01 00:00:00 on the clock
of its zone. -/
def wall (tz : Zone) (t : Time) : Int := t.sec + t.offset tz

/-- The proleptic Gregorian date (year, month, day) of the day that lies `days`
days after 1970-01-01, as `t.Date()` computes it. -/
def civil (days : Int) : Int × Int × Int :=
  let z := days + 719468
  let era := z / 146097
  let doe := z - era * 146097
  let yoe := (doe - doe / 1460 + doe / 36524 - doe / 146096) / 365
  let doy := doe - (365 * yoe + yoe / 4 - yoe / 100)
  let mp := (5 * doy + 2) / 153
  let d := doy - (153 * mp + 2) / 5 + 1
  let m := if mp < 10 then mp + 3 else mp - 9
  let y := yoe + era * 400
  (if m ≤ 2 then y + 1 else y, m, d)

/-- Go `t.Year()`: the year of the wall clock of the value. -/
def year (tz : Zone) (t : Time) : Int := (civil (t.wall tz / 86400)).1

/-- The number of days from 1970-01-01 to the day `d` of month `m` (1 to 12) of
year `y`, days outside the month running on into the neighbouring months, as
`time.Date` counts them. -/
def daysFromCivil (y m d : Int) : Int :=
  let y1 := if m ≤ 2 then y - 1 else y
  let era := y1 / 400
  let yoe := y1 - era * 400
  let mp := if m > 2 then m - 3 else m + 9
  let doy := (153 * mp + 2) / 5 + d - 1
  let doe := yoe * 365 + yoe / 4 - yoe / 100 + doy
  era * 146097 + doe - 719468

/-- Go `isLeap`. -/
def isLeap (year : Int) : Bool :=
  decide (year % 4 = 0 ∧ (year % 100 ≠ 0 ∨ year % 400 = 0))

/-- Go `daysIn`: the number of days of a month. -/
def daysIn (month year : Int) : Int :=
  if month = 2 then (if isLeap year then 29 else 28)
  else if month = 4 ∨ month = 6 ∨ month = 9 ∨ month = 11 then 30
  else 31

/-- Go `appendInt` of package `time`: the decimal digits of `x`, zero-padded on
the left to `width` digits, after a `-` when `x` is negative. -/
def appendInt (x : Int) (width : Nat) : List Char :=
  (if x < 0 then ['-'] else []) ++
    (List.replicate (width - (Nat.toDigits 10 x.natAbs).length) '0' ++ Nat.toDigits 10 x.natAbs)

/-- Go `appendNano` for the layout `.999999999`: nothing for zero nanoseconds,
otherwise a dot and the nine digits without their trailing zeros. -/
def appendNano (nsec : Nat) : List Char :=
  if nsec = 0 then []
  else '.' :: (appendInt nsec 9).rdropWhile (fun c => c = '0')

/-- The layout `2006-01-02 15:04:05` (with `sep` between date and clock) of the
wall clock `w`. -/
def appendDateTime (sep : Char) (w : Int) : List Char :=
  appendInt (civil (w / 86400)).1 4 ++
    ('-' :: (appendInt (civil (w / 86400)).2.1 2 ++
    ('-' :: (appendInt (civil (w / 86400)).2.2 2 ++
    (sep :: (appendInt (w % 86400 / 3600) 2 ++
    (':' :: (appendInt (w % 86400 % 3600 / 60) 2 ++
    (':' :: appendInt (w % 86400 % 60) 2)))))))))

/-- The layout element `-07:00` for an offset in seconds: Go divides the offset
by 60 towards zero, writes the sign of the quotient and its hours and minutes. -/
def appendZone (offset : Int) : List Char :=
  (if offset ≤ -60 then '-' else '+') ::
    (appendInt (((offset.natAbs / 60 : Nat) : Int) / 60) 2 ++
      (':' :: appendInt (((offset.natAbs / 60 : Nat) : Int) % 60) 2))

/-- Go `t.Format("2006-01-02 15:04:05")`: the wall clock of the value's zone. -/
def FormatDateTime (tz : Zone) (t : Time) : String :=
  String.mk (appendDateTime ' ' (t.wall tz))

/-- The text under which the driver go-sqlite3 binds a `time.Time`:
`t.Format("2006-01-02 15:04:05.999999999-07:00")`. -/
def sqliteText (tz : Zone) (t : Time) : List Char :=
  appendDateTime ' ' (t.wall tz) ++ (appendNano t.nsec ++ appendZone (t.offset tz))

/-- The instant of a date and a clock read as UTC. -/
def unixOfCivil (y m d hh mm ss : Nat) : Int :=
  daysFromCivil (y : Int) (m : Int) (d : Int) * 86400 +
    ((hh : Int) * 3600 + (mm : Int) * 60 + (ss : Int))

/-- Go `time.ParseInLocation("2006-01-02 15:04:05.999999999-07:00", s, time.UTC)`:
the fields must be in range, the day must exist in its month, and nothing may
follow the zone.  A written offset of zero gives UTC, another one a zone of that
fixed offset. -/
def parseSQLite (cs0 : List Char) : Option Time :=
  match reader.readFixed 4 cs0 with
  | none => none
  | some (y, cs1) =>
  match reader.readField ['-'] 2 cs1 with
  | none => none
  | some (m, cs2) =>
  match reader.readField ['-'] 2 cs2 with
  | none => none
  | some (d, cs3) =>
  match reader.skipSpace cs3 with
  | none => none
  | some cs3a =>
  match reader.getnum false cs3a with
  | none => none
  | some (hh, cs4) =>
  match reader.readField [':'] 2 cs4 with
  | none => none
  | some (mm, cs5) =>
  match reader.readField [':'] 2 cs5 with
  | none => none
  | some (ss, cs6) =>
  match reader.readZone (reader.readNano cs6).2 with
  | none => none
  | some (off, cs8) =>
      if cs8 ≠ [] ∨ m < 1 ∨ 12 < m ∨ 24 ≤ hh ∨ 60 ≤ mm ∨ 60 ≤ ss ∨ d < 1 ∨
          daysIn (m : Int) (y : Int) < (d : Int) then none
      else
        some
          { sec := unixOfCivil y m d hh mm ss - off
            nsec := (reader.readNano cs6).1
            loc := if off = 0 then Location.UTC else Location.fixed off }

/-- Go `strings.TrimSuffix(s, "Z")`. -/
def trimSuffixZ (cs : List Char) : List Char :=
  if cs.getLast? = some 'Z' then cs.dropLast else cs

/-- What `rows.Scan` puts into a `time.Time` for a `DATETIME` column holding the
text `cs`, with no `_loc` parameter on the connection: the driver cuts a final
`Z`, tries its layouts in turn and gives the zero time when none fits.  Only
the first layout is tried here.  The others cannot fit a text written by
`sqliteText`: they all start with the date, so they fail where the first one
fails up to there, and after the date they ask for a `T` or end before the
zone, which such a text always has. -/
def scanText (cs : List Char) : Time :=
  match parseSQLite (trimSuffixZ cs) with
  | some t => t
  | none => zero

/-- Go `time.Date(year, month, day, hour, min, sec, nsec, loc)` for the date and
the second of the day `sod` read on the clock of the zone `loc`: the month is
normalized into the year, the days run on, and the offset is looked up as
`time.Date` does it (first at the clock reading taken as UTC, then at the
instant that offset gives). -/
def Date (tz : Zone) (year month day sod : Int) (nsec : Nat) (loc : Location) : Time :=
  let u := daysFromCivil (year + (month - 1) / 12) ((month - 1) % 12 + 1) day * 86400 + sod
  { sec :=
      match loc with
      | .UTC => u
      | .fixed o => u - o
      | .Local => if tz u ≠ 0 then u - tz (u - tz u) else u
    nsec := nsec
    loc := loc }

/-- Go `t.AddDate(years, months, days)`: the same clock reading on the date moved
by the given amounts, in the zone of `t`. -/
def AddDate (tz : Zone) (t : Time) (years months days : Int) : Time :=
  Date tz ((civil (t.wall tz / 86400)).1 + years) ((civil (t.wall tz / 86400)).2.1 + months)
    ((civil (t.wall tz / 86400)).2.2 + days) (t.wall tz % 86400) t.nsec t.loc

/-- The order in which SQLite compares two texts (collation BINARY: byte by byte,
a proper prefix first); on valid UTF-8 that is the order of the characters'
codes. -/
def textLT : List Char → List Char → Bool
  | _, [] => false
  | [], _ :: _ => true
  | a :: as, b :: bs =>
      if a.toNat < b.toNat then true
      else if b.toNat < a.toNat then false
      else textLT as bs

/-- Not after, in the order of `textLT`. -/
def textLE (a b : List Char) : Bool := !textLT b a

end Time

/-- Go `fmt.Sprintf("%d", n)` for an integer `n`: its decimal numeral, with a
leading `-` when negative. -/
def decimal (n : Int) : String := toString n

/-! ## The source collaborator (`gotiktoklive`)

The library is not part of the repository.  Its event types are given here by
the fields `client.go` reads from them (section 6 of the specification lists
the same fields).  `User` is a non-nil record. -/

namespace gotiktoklive

structure User where
  Nickname : String
deriving DecidableEq, Repr

/-- The kinds of user action; `client.go` names `USER_FOLLOW` and `USER_SHARE`. -/
inductive userEventType where
  | USER_JOIN
  | USER_SHARE
  | USER_FOLLOW
deriving DecidableEq, Repr

structure ChatEvent where
  Comment : String
  User : User
  Timestamp : Int
deriving DecidableEq, Repr

structure GiftEvent where
  Name : String
  RepeatCount : Int
  Timestamp : Int
  User : User
deriving DecidableEq, Repr

structure LikeEvent where
  Likes : Int
  User : User
deriving DecidableEq, Repr

structure UserEvent where
  Event : userEventType
  User : User
deriving DecidableEq, Repr

structure ViewersEvent where
  Viewers : Int
deriving DecidableEq, Repr

/-- A value received from the channel `live.Events` (Go: `interface{}` with a
dynamic type).  `other` stands for every dynamic type the type switch of
`TrackUser` has no case for (room, question, control, battle ... events). -/
inductive Event where
  | chat (e : ChatEvent)
  | gift (e : GiftEvent)
  | like (e : LikeEvent)
  | user (e : UserEvent)
  | viewers (e : ViewersEvent)
  | other (typeName : String)
deriving DecidableEq, Repr

end gotiktoklive

/-! ## `pkg/tiktok/client.go` -/

namespace tiktok

/-- Go struct `tiktok.Event`, the canonical event. -/
structure Event where
  /-- Go field `Type` (a reserved word here). -/
  Type_ : String
  Content : String
  Timestamp : Time
deriving DecidableEq, Repr

/-- One iteration of `for event := range live.Events` in `TrackUser`: the type
switch.  `onEvent` is the handler (a closure in Go, here a function on the
state `σ` it acts on) and `now` is what `time.Now()` returns during this
iteration.  The logger calls write to the log file and the console only and
are left out. -/
def trackEvent {σ : Type} (onEvent : Event → σ → σ) (now : Time)
    (event : gotiktoklive.Event) (s : σ) : σ :=
  match event with
  | .chat e =>
      onEvent
        { Type_ := "chat"
          Content := e.User.Nickname ++ ": " ++ e.Comment
          Timestamp := Time.Unix e.Timestamp 0 } s
  | .gift e =>
      onEvent
        { Type_ := "gift"
          Content := e.User.Nickname ++ " sent " ++ e.Name ++ " (x" ++ decimal e.RepeatCount ++ ")"
          Timestamp := Time.Unix e.Timestamp 0 } s
  | .like e =>
      onEvent
        { Type_ := "like"
          Content := e.User.Nickname ++ " sent " ++ decimal e.Likes ++ " likes"
          Timestamp := now } s
  | .user e =>
      match e.Event with
      | .USER_FOLLOW =>
          onEvent
            { Type_ := "follow"
              Content := e.User.Nickname ++ " followed the streamer"
              Timestamp := now } s
      | .USER_SHARE =>
          onEvent
            { Type_ := "share"
              Content := e.User.Nickname ++ " shared the stream"
              Timestamp := now } s
      | _ => s
  | .viewers e =>
      onEvent
        { Type_ := "stats"
          Content := "Viewer count: " ++ decimal e.Viewers
          Timestamp := now } s
  | .other _ => s

/-- The goroutine of `TrackUser` run over the values the channel delivers, each
paired with the clock reading of its iteration. -/
def TrackUser {σ : Type} (onEvent : Event → σ → σ) :
    List (Time × gotiktoklive.Event) → σ → σ
  | [], s => s
  | (now, event) :: rest, s => TrackUser onEvent rest (trackEvent onEvent now event s)

/-- The handler that only records the events it is called with, oldest first. -/
def record (e : Event) (calls : List Event) : List Event := calls ++ [e]

end tiktok

/-! ## `pkg/database/database.go` -/

namespace database

/-- Go struct `database.Event`, one row of the table `events`.  For a row of the
table, `Timestamp` is the `time.Time` that was bound to the INSERT; the column
itself holds `Event.stored` of it. -/
structure Event where
  ID : Int
  Username : GoString
  /-- Go field `Type` (a reserved word here). -/
  Type_ : GoString
  Content : GoString
  Timestamp : Time
deriving DecidableEq, Repr

/-- The content of the column `timestamp` of a row: the text the driver wrote
for the bound `time.Time`. -/
def Event.stored (tz : Zone) (e : Event) : List Char := Time.sqliteText tz e.Timestamp

/-- The order of `ORDER BY timestamp DESC` on rows: the stored texts are
compared. -/
def Event.storedDesc (tz : Zone) (a b : Event) : Prop :=
  Time.textLE (b.stored tz) (a.stored tz) = true

instance (tz : Zone) : DecidableRel (Event.storedDesc tz) := fun a b => by
  unfold Event.storedDesc; infer_instance

/-- What `rows.Scan` gives for a row: the integer and text columns as they are,
the column `timestamp` parsed back from its text. -/
def Event.scan (tz : Zone) (e : Event) : Event :=
  { e with Timestamp := Time.scanText (e.stored tz) }

/-- The database behind a `*DB`: the table `events` (rows in insertion order)
and the AUTOINCREMENT counter of its `id` column (the largest id handed out so
far). -/
structure DB where
  rows : List Event
  seq : Int
deriving DecidableEq, Repr

/-- The store right after `createTables` on a new file. -/
def DB.empty : DB := { rows := [], seq := 0 }

/-- Go method `(*DB).SaveEvent`: one `INSERT INTO events`.  `driver` is the outcome of
`d.db.Exec`; a failed statement inserts nothing. -/
def DB.SaveEvent (d : DB) (driver : Option Error) (eventType content : GoString)
    (timestamp : Time) (username : GoString) : Option Error × DB :=
  match driver with
  | some err => (some err, d)
  | none =>
      (none,
        { rows := d.rows ++
            [{ ID := d.seq + 1, Username := username, Type_ := eventType,
               Content := content, Timestamp := timestamp }]
          seq := d.seq + 1 })

/-- Go method `(*DB).GetEventsByUsername`:
`SELECT ... FROM events WHERE username = ? ORDER BY timestamp DESC`, each row
scanned into an `Event`.  `driver` is the outcome of running the query and
iterating its rows; `tz` is the zone of the process that wrote the rows. -/
def DB.GetEventsByUsername (d : DB) (tz : Zone) (driver : Option Error) (username : GoString) :
    Except Error (List Event) :=
  match driver with
  | some err => .error err
  | none =>
      .ok (((d.rows.filter (fun e => e.Username = username)).insertionSort
        (Event.storedDesc tz)).map (Event.scan tz))

/-- Go method `(*DB).DeleteOldEvents`: `DELETE FROM events WHERE timestamp < ?` with
the cutoff `time.Now().AddDate(0, 0, -days)`, bound as its text like every
`time.Time`; the result is `RowsAffected`.  `now` is what `time.Now()` returns,
`driver` is the outcome of `d.db.Exec`, and `tz` is the zone of the process,
which also wrote the rows. -/
def DB.DeleteOldEvents (d : DB) (tz : Zone) (driver : Option Error) (now : Time) (days : Int) :
    (Int × Option Error) × DB :=
  let cutoff := Time.AddDate tz now 0 0 (-days)
  match driver with
  | some err => ((0, some err), d)
  | none =>
      (((d.rows.filter
          (fun e => Time.textLT (e.stored tz) (Time.sqliteText tz cutoff))).length, none),
        { d with
          rows := d.rows.filter
            (fun e => !(Time.textLT (e.stored tz) (Time.sqliteText tz cutoff))) })

/-- The files on disk: the content stored under each path, if any. -/
abbrev Files := String → Option GoString

/-- Go `os.WriteFile(name, data, 0644)`: on success the file holds exactly `data`.
`outcome` is what the operating system answers; a failed write is taken to
leave the files as they were. -/
def WriteFile (fs : Files) (outcome : Option Error) (name : String) (data : GoString) :
    Option Error × Files :=
  match outcome with
  | some err => (some err, fs)
  | none => (none, fun p => if p = name then some data else fs p)

/-- The text `ExportToTXT` adds for one record:
`fmt.Sprintf("[%s] %s: %s\n", timestamp, type, content)`. -/
def txtLine (tz : Zone) (event : Event) : GoString :=
  GoString.ofString "[" ++ GoString.ofString (event.Timestamp.FormatDateTime tz) ++
    GoString.ofString "] " ++ event.Type_ ++ GoString.ofString ": " ++ event.Content ++
    GoString.ofString "\n"

/-- Go method `(*DB).ExportToTXT`.  `query` is the outcome of the listing query and
`write` that of `os.WriteFile`. -/
def DB.ExportToTXT (d : DB) (tz : Zone) (query write : Option Error) (username : GoString)
    (outputPath : String) (fs : Files) : Option Error × Files :=
  match d.GetEventsByUsername tz query username with
  | .error err => (some err, fs)
  | .ok events =>
      let content := events.foldl (fun content event => content ++ txtLine tz event) []
      WriteFile fs write outputPath content

/-- The number of newline characters of a text: the number of its lines, each
line ending in a newline. -/
def lineCount (s : GoString) : Nat := s.count (GoChar.rune '\n')

end database

/-! ## `pkg/ui/ui.go` -/

namespace ui

/-- The bubbles `viewport.Model`, by what `ui.go` does to it: its size, the text
last given to `SetContent`, and whether `GotoBottom` was the last scroll. -/
structure Viewport where
  Width : Int
  Height : Int
  content : String
  atBottom : Bool
deriving DecidableEq, Repr

def Viewport.SetContent (v : Viewport) (s : String) : Viewport := { v with content := s }

def Viewport.GotoBottom (v : Viewport) : Viewport := { v with atBottom := true }

/-- The bubbles `table.Model`: its rows (`SetRows`). -/
structure Table where
  rows : List (List String)
deriving DecidableEq, Repr

/-- The bubbles `list.Model`: its items (by title) and size. -/
structure ListModel where
  items : List String
  width : Int
  height : Int
deriving DecidableEq, Repr

/-- A Go `map[string]int64`: the keys that are present, with their values. -/
abbrev Stats := List (String × Int)

/-- Go map read `m[key]`: the value, or zero when the key is absent. -/
def Stats.get (m : Stats) (key : String) : Int := (m.lookup key).getD 0

/-- The bubbles `textinput.Model`: its placeholder and whether it has the focus. -/
structure TextInput where
  Placeholder : String
  focused : Bool
deriving DecidableEq, Repr

/-- The bubbles `spinner.Model`: the animation chosen. -/
structure SpinnerModel where
  Spinner : String
deriving DecidableEq, Repr

/-- Go struct `ui.model`. -/
structure model where
  spinner : SpinnerModel
  list : ListModel
  viewport : Viewport
  textinput : TextInput
  table : Table
  events : List String
  username : String
  stats : Stats
  err : Option Error
  loading : Bool
  showList : Bool
  showViewer : Bool
deriving DecidableEq, Repr

/-- Go function `ui.NewModel`. -/
def NewModel (username : String) : model :=
  { spinner := { Spinner := "Dot" }
    list := { items := [], width := 0, height := 0 }
    viewport := { Width := 80, Height := 24, content := "", atBottom := false }
    textinput := { Placeholder := "Enter username...", focused := true }
    table := { rows := [] }
    events := []
    username := username
    stats := []
    err := none
    loading := false
    showList := false
    showViewer := true }

/-- Go method `(*model).updateStats`: the four table rows. -/
def model.updateStats (m : model) : model :=
  { m with
    table :=
      { rows :=
          [ ["Viewers", decimal (Stats.get m.stats "viewers")],
            ["Likes", decimal (Stats.get m.stats "likes")],
            ["Shares", decimal (Stats.get m.stats "shares")],
            ["Comments", decimal (Stats.get m.stats "comments")] ] } }

/-- Go method `(*model).formatEvents`: `s += fmt.Sprintf("%s\n", event)` over the
entries. -/
def model.formatEvents (m : model) : String :=
  m.events.foldl (fun s event => s ++ (event ++ "\n")) ""

/-- Go method `(*model).AddEvent`. -/
def model.AddEvent (m : model) (event : String) : model :=
  let m1 := { m with events := m.events ++ [event] }
  { m1 with viewport := (m1.viewport.SetContent m1.formatEvents).GotoBottom }

/-- Go method `(*model).UpdateStats`. -/
def model.UpdateStats (m : model) (stats : Stats) : model :=
  ({ m with stats := stats }).updateStats

/-- Go method `(*model).SetError`; `err` may be `nil`. -/
def model.SetError (m : model) (err : Option Error) : model :=
  { m with err := err, loading := false }

/-- Go method `(*model).SetListItems`. -/
def model.SetListItems (m : model) (items : List String) : model :=
  { m with list := { m.list with items := items } }

/-- Go method `(*model).SetViewMode`. -/
def model.SetViewMode (m : model) (showList : Bool) : model :=
  { m with showList := showList }

/-- The type of a key press (`tea.KeyMsg.Type`); `Update` names two of them. -/
inductive KeyType where
  | KeyCtrlC
  | KeyEsc
  | other (code : Int)
deriving DecidableEq, Repr

/-- A message given to `Update` (Go: `tea.Msg`, an `interface{}` with a dynamic
type).  `error` stands for every message that matches `case errorMsg`, that is
every non-nil value with an `Error()` method, by its text; `other` stands for
every dynamic type the switch has no case for (ticks, mouse events ...). -/
inductive Msg where
  | key (type : KeyType)
  | windowSize (Width Height : Int)
  | event (s : String)
  | stats (stats : Stats)
  | error (err : Error)
  | other (typeName : String)
deriving DecidableEq, Repr

/-- What `ui.go` uses of the libraries bubbletea, bubbles and lipgloss, which
are not part of the repository: the commands `tea.Quit` and `tea.Batch`, the
`Update` and `View` methods of the widgets, the `Render` method of the three
styles, and the frame size `lipgloss.NewStyle().Margin(1, 2).GetFrameSize()`.
They are parameters of `Update` and `View`. -/
structure Toolkit (Cmd : Type) where
  Quit : Cmd
  Batch : List Cmd → Cmd
  frameSize : Int × Int
  viewportUpdate : Viewport → Msg → Viewport × Cmd
  listUpdate : ListModel → Msg → ListModel × Cmd
  textinputUpdate : TextInput → Msg → TextInput × Cmd
  titleStyleRender : String → String
  infoStyleRender : String → String
  errorStyleRender : String → String
  tableView : Table → String
  viewportView : Viewport → String
  listView : ListModel → String
  textinputView : TextInput → String

/-- The `switch msg := msg.(type)` of `Update`, without the arm of the quitting
keys (which returns at once): the model after the switch. -/
def model.handle {Cmd : Type} (tk : Toolkit Cmd) (m : model) (msg : Msg) : model :=
  match msg with
  | .windowSize Width Height =>
      { m with
        viewport :=
          { m.viewport with Width := Width - tk.frameSize.1, Height := Height - tk.frameSize.2 }
        list :=
          { m.list with width := Width - tk.frameSize.1, height := Height - tk.frameSize.2 } }
  | .event s =>
      let m1 := { m with events := m.events ++ [s] }
      { m1 with viewport := (m1.viewport.SetContent m1.formatEvents).GotoBottom }
  | .stats stats => ({ m with stats := stats }).updateStats
  | .error err => { m with err := some err }
  | _ => m

/-- Go method `(model).Update`: the model and the command it returns. -/
def model.Update {Cmd : Type} (tk : Toolkit Cmd) (m : model) (msg : Msg) : model × Cmd :=
  match msg with
  | .key .KeyCtrlC => (m, tk.Quit)
  | .key .KeyEsc => (m, tk.Quit)
  | _ =>
      let m1 := m.handle tk msg
      if m1.showViewer then
        ({ m1 with viewport := (tk.viewportUpdate m1.viewport msg).1 },
          tk.Batch [(tk.viewportUpdate m1.viewport msg).2])
      else if m1.showList then
        ({ m1 with list := (tk.listUpdate m1.list msg).1 },
          tk.Batch [(tk.listUpdate m1.list msg).2])
      else
        ({ m1 with textinput := (tk.textinputUpdate m1.textinput msg).1 },
          tk.Batch [(tk.textinputUpdate m1.textinput msg).2])

/-- The model after a sequence of messages, each `Update` acting on the model
the previous one returned (as the bubbletea program runs it). -/
def model.Updates {Cmd : Type} (tk : Toolkit Cmd) : model → List Msg → model
  | m, [] => m
  | m, msg :: rest => model.Updates tk (m.Update tk msg).1 rest

/-- Go method `(model).View`; `%v` of an error is its text. -/
def model.View {Cmd : Type} (tk : Toolkit Cmd) (m : model) : String :=
  match m.err with
  | some err => tk.errorStyleRender ("Error: " ++ err)
  | none =>
      if m.showViewer then
        tk.titleStyleRender ("Live Stream: @" ++ m.username) ++ "\n\n" ++
          tk.tableView m.table ++ "\n\n" ++ tk.viewportView m.viewport
      else if m.showList then tk.listView m.list
      else
        tk.titleStyleRender "TikTok Live Logger" ++ "\n\n" ++
          tk.infoStyleRender "Enter a TikTok username to start tracking their live stream:" ++
          "\n\n" ++ tk.textinputView m.textinput

/-- A toolkit for examples: inert widgets, styles that add nothing, widgets
shown by their content. -/
def plainToolkit : Toolkit (List String) :=
  { Quit := ["quit"]
    Batch := fun cmds => cmds.flatten
    frameSize := (4, 2)
    viewportUpdate := fun v _ => (v, [])
    listUpdate := fun l _ => (l, [])
    textinputUpdate := fun t _ => (t, [])
    titleStyleRender := fun s => s
    infoStyleRender := fun s => s
    errorStyleRender := fun s => s
    tableView := fun t => String.join (t.rows.map (fun r => String.intercalate " " r ++ "\n"))
    viewportView := fun v => v.content
    listView := fun l => String.join (l.items.map (fun i => i ++ "\n"))
    textinputView := fun t => t.Placeholder }

end ui

/-! ## `cmd/log.go` -/

namespace cmd

/-- A call made by the handler to one of its sinks, with its arguments. -/
inductive SinkCall where
  | AddEvent (event : String)
  | SaveEvent (eventType content : String) (timestamp : Time) (username : String)
  | SetError (err : Error)
deriving DecidableEq, Repr

/-- What the closure `onEvent` of `logCmd.RunE` acts on: the variables it
captures (`username`, `model`, `db`), the environment of the store (`driver n`
is the outcome the storage driver gives to the `n`-th INSERT, `saves` counts the
INSERTs issued so far), and a record of the sink calls made so far, oldest
first (kept by the three calls below; nothing reads it). -/
structure Session where
  username : String
  model : ui.model
  db : database.DB
  driver : Nat → Option Error
  saves : Nat
  calls : List SinkCall

/-- The state `RunE` builds before tracking starts. -/
def Session.start (username : String) (db : database.DB) (driver : Nat → Option Error) :
    Session :=
  { username := username, model := ui.NewModel username, db := db, driver := driver,
    saves := 0, calls := [] }

/-- The call `model.AddEvent(content)` on the captured model, entered in the
record of calls. -/
def Session.AddEvent (s : Session) (event : String) : Session :=
  { s with model := s.model.AddEvent event, calls := s.calls ++ [.AddEvent event] }

/-- The call `db.SaveEvent(...)` on the captured store, entered in the record of
calls; its outcome is the one the driver gives to this INSERT. -/
def Session.SaveEvent (s : Session) (eventType content : String) (timestamp : Time)
    (username : String) : Option Error × Session :=
  let saved := s.db.SaveEvent (s.driver s.saves) eventType content timestamp username
  (saved.1,
    { s with
      db := saved.2
      saves := s.saves + 1
      calls := s.calls ++ [.SaveEvent eventType content timestamp username] })

/-- The call `model.SetError(err)` on the captured model, with a non-nil error,
entered in the record of calls. -/
def Session.SetError (s : Session) (err : Error) : Session :=
  { s with model := s.model.SetError (some err), calls := s.calls ++ [.SetError err] }

/-- The closure `onEvent` of `logCmd.RunE`. -/
def onEvent (event : tiktok.Event) (s : Session) : Session :=
  -- Update UI with new event
  let s1 := s.AddEvent event.Content
  -- Save event to database
  let saved := s1.SaveEvent event.Type_ event.Content event.Timestamp s1.username
  match saved.1 with
  | some err => saved.2.SetError ("failed to save event: " ++ err)
  | none => saved.2

/-- A sink call that is a delivery of an event (to the display or to the
store), as opposed to a failure report. -/
def SinkCall.isDelivery : SinkCall → Bool
  | .SetError _ => false
  | _ => true

/-- The canonical event `TrackUser` passes on for a raw event, if any: the
events recorded by the recording handler. -/
def canonical (now : Time) (event : gotiktoklive.Event) : List tiktok.Event :=
  tiktok.trackEvent tiktok.record now event []

/-- The handler applied to a sequence of canonical events, in order. -/
def onEvents : List tiktok.Event → Session → Session
  | [], s => s
  | e :: rest, s => onEvents rest (onEvent e s)

/-- The canonical events `TrackUser` passes on for a sequence of raw events. -/
def dispatched (evs : List (Time × gotiktoklive.Event)) : List tiktok.Event :=
  tiktok.TrackUser tiktok.record evs []

/-- The arguments of the `SaveEvent` calls in a record of sink calls. -/
def saveCalls : List SinkCall → List (String × String × Time × String)
  | [] => []
  | .SaveEvent t c ts u :: rest => (t, c, ts, u) :: saveCalls rest
  | _ :: rest => saveCalls rest

/-- The arguments of the `AddEvent` calls in a record of sink calls. -/
def addCalls : List SinkCall → List String
  | [] => []
  | .AddEvent c :: rest => c :: addCalls rest
  | _ :: rest => addCalls rest

/-- The two deliveries the handler makes for one canonical event. -/
def deliveries (username : String) (e : tiktok.Event) : List SinkCall :=
  [.AddEvent e.Content, .SaveEvent e.Type_ e.Content e.Timestamp username]

end cmd

/-- The recognized variants of section 4.1 of the specification: chat, gift,
like, a user action of kind follow or share, and a viewer-count update. -/
def recognized : gotiktoklive.Event → Bool
  | .chat _ => true
  | .gift _ => true
  | .like _ => true
  | .user e => decide (e.Event = .USER_FOLLOW) || decide (e.Event = .USER_SHARE)
  | .viewers _ => true
  | .other _ => false

/-! ## `encoding/json` and `time.Time.MarshalJSON`, as `ExportToJSON` uses them -/

namespace json

/-- The escape Go `appendString` (HTML escaping on, as `Marshal` sets it) writes
for one character of a string.  (Before Go 1.22 backspace and form feed were
written `\\u0008` and `\\u000c`; the reader below accepts both forms.) -/
def escapeChar (c : Char) : List Char :=
  if c = '"' then ['\\', '"']
  else if c = '\\' then ['\\', '\\']
  else if c = '\x08' then ['\\', 'b']
  else if c = '\x0c' then ['\\', 'f']
  else if c = '\n' then ['\\', 'n']
  else if c = '\r' then ['\\', 'r']
  else if c = '\t' then ['\\', 't']
  else if c.toNat < 32 ∨ c = '<' ∨ c = '>' ∨ c = '&' ∨ c = '\u2028' ∨ c = '\u2029' then
    ['\\', 'u', Nat.digitChar (c.toNat / 4096), Nat.digitChar (c.toNat / 256 % 16),
      Nat.digitChar (c.toNat / 16 % 16), Nat.digitChar (c.toNat % 16)]
  else [c]

/-- What Go `appendString` writes for one element of a string: the escape of a
character, and `\\ufffd` for a byte that is not valid UTF-8. -/
def escapeGoChar : GoChar → List Char
  | .rune c => escapeChar c
  | .byte _ => ['\\', 'u', 'f', 'f', 'f', 'd']

/-- Go `appendString`: a string as a JSON string literal. -/
def appendString (s : GoString) : List Char :=
  '"' :: (s.flatMap escapeGoChar ++ ['"'])

/-- Go `Time.MarshalJSON`: the value in the layout RFC3339Nano between quotes (the
wall clock of its zone, then `Z` for the offset zero and the offset as
`+hh:mm` or `-hh:mm` otherwise), or an error when the year does not have four
digits or the hours of the offset do not have two digits below 24. -/
def MarshalTime (tz : Zone) (t : Time) : Except Error (List Char) :=
  if (Time.civil (t.wall tz / 86400)).1 < 0 ∨ 10000 ≤ (Time.civil (t.wall tz / 86400)).1 then
    .error "Time.MarshalJSON: year outside of range [0,9999]"
  else if t.offset tz ≠ 0 ∧ 24 ≤ (((t.offset tz).natAbs / 60 : Nat) : Int) / 60 then
    .error "Time.MarshalJSON: timezone hour outside of range [0,23]"
  else
    .ok ('"' :: (Time.appendDateTime 'T' (t.wall tz) ++ (Time.appendNano t.nsec ++
      ((if t.offset tz = 0 then ['Z'] else Time.appendZone (t.offset tz)) ++ ['"']))))

/-- The text that opens an object of the array and introduces its first field. -/
def keyID : List Char := "\x7b\n    \"ID\": ".data

/-- The texts that end a field and introduce the next one. -/
def keyUsername : List Char := ",\n    \"Username\": ".data

def keyType : List Char := ",\n    \"Type\": ".data

def keyContent : List Char := ",\n    \"Content\": ".data

def keyTimestamp : List Char := ",\n    \"Timestamp\": ".data

/-- The text that closes an object of the array. -/
def closeObject : List Char := "\n  \x7d".data

/-- The text that opens a non-empty array, up to its first object. -/
def openArray : List Char := "[\n  ".data

/-- The text between two objects of the array. -/
def separator : List Char := ",\n  ".data

/-- The text that closes a non-empty array. -/
def closeArray : List Char := "\n]".data

/-- One element of the array as `MarshalIndent(events, "", "  ")` lays it out:
the object of a `database.Event`, its fields in declaration order. -/
def marshalEvent (tz : Zone) (e : database.Event) : Except Error (List Char) :=
  match MarshalTime tz e.Timestamp with
  | .error err => .error ("json: error calling MarshalJSON for type time.Time: " ++ err)
  | .ok ts =>
      .ok (keyID ++ ((decimal e.ID).data ++
        (keyUsername ++ (appendString e.Username ++
        (keyType ++ (appendString e.Type_ ++
        (keyContent ++ (appendString e.Content ++
        (keyTimestamp ++ (ts ++ closeObject))))))))))

/-- The elements of the array after the first, each after a separator. -/
def marshalMore (tz : Zone) : List database.Event → Except Error (List Char)
  | [] => .ok []
  | e :: rest =>
      match marshalEvent tz e with
      | .error err => .error err
      | .ok a =>
          match marshalMore tz rest with
          | .error err => .error err
          | .ok b => .ok (separator ++ (a ++ b))

/-- Go `json.MarshalIndent(events, "", "  ")` for a `[]database.Event`; a nil slice
is written `null`. -/
def MarshalIndent (tz : Zone) (events : List database.Event) : Except Error String :=
  match events with
  | [] => .ok "null"
  | e :: rest =>
      match marshalEvent tz e with
      | .error err => .error err
      | .ok a =>
          match marshalMore tz rest with
          | .error err => .error err
          | .ok b => .ok (String.mk (openArray ++ (a ++ (b ++ closeArray))))

/-! ### Reading the exported file back -/

/-- A non-empty run of digits. -/
def readNat (cs : List Char) : Option (Nat × List Char) :=
  if cs.takeWhile Char.isDigit = [] then none
  else some (reader.digitsValue (cs.takeWhile Char.isDigit), cs.dropWhile Char.isDigit)

/-- A JSON integer. -/
def readInt : List Char → Option (Int × List Char)
  | [] => none
  | c :: rest =>
      if c = '-' then
        match readNat rest with
        | some (n, r) => some (-(n : Int), r)
        | none => none
      else
        match readNat (c :: rest) with
        | some (n, r) => some ((n : Int), r)
        | none => none

/-- The value of a hexadecimal digit. -/
def hexValue (c : Char) : Option Nat :=
  if c.isDigit then some (c.toNat - 48)
  else if 'a' ≤ c ∧ c ≤ 'f' then some (c.toNat - 87)
  else if 'A' ≤ c ∧ c ≤ 'F' then some (c.toNat - 55)
  else none

/-- The character a one-letter escape stands for. -/
def unescape (c : Char) : Option Char :=
  if c = '"' then some '"'
  else if c = '\\' then some '\\'
  else if c = '/' then some '/'
  else if c = 'b' then some '\x08'
  else if c = 'f' then some '\x0c'
  else if c = 'n' then some '\n'
  else if c = 'r' then some '\r'
  else if c = 't' then some '\t'
  else none

/-- A decoded character put in front of the decoded rest. -/
def consChar (x : Option Char) (rest : Option (List Char × List Char)) :
    Option (List Char × List Char) :=
  match x with
  | none => none
  | some c =>
      match rest with
      | none => none
      | some (s, r) => some (c :: s, r)

/-- Where the reader of a string literal stands: between characters, after a
backslash, or inside a `\\u` escape with `more + 1` hexadecimal digits to come
and the digits read so far worth `acc`. -/
inductive StringState where
  | plain
  | escape
  | hex (more acc : Nat)

/-- The rest of a JSON string literal, read from a given state: the string it
denotes and the input after the closing quote.  (An escape in the range of the
surrogates is not written by `appendString` and is not read as Go reads it.) -/
def readStringFrom : StringState → List Char → Option (List Char × List Char)
  | _, [] => none
  | .plain, c :: rest =>
      if c = '"' then some ([], rest)
      else if c = '\\' then readStringFrom .escape rest
      else if c.toNat < 32 then none
      else consChar (some c) (readStringFrom .plain rest)
  | .escape, c :: rest =>
      if c = 'u' then readStringFrom (.hex 3 0) rest
      else consChar (unescape c) (readStringFrom .plain rest)
  | .hex more acc, c :: rest =>
      match hexValue c with
      | none => none
      | some v =>
          match more with
          | 0 => consChar (some (Char.ofNat (16 * acc + v))) (readStringFrom .plain rest)
          | more + 1 => readStringFrom (.hex more (16 * acc + v)) rest

/-- The rest of a JSON string literal after its opening quote. -/
def readStringBody (cs : List Char) : Option (List Char × List Char) :=
  readStringFrom .plain cs

/-- A JSON string literal, read into a Go string. -/
def readString : List Char → Option (GoString × List Char)
  | [] => none
  | c :: rest =>
      if c = '"' then
        match readStringBody rest with
        | some (s, r) => some (s.map GoChar.rune, r)
        | none => none
      else none

/-- The fraction of a second of RFC 3339: a dot and at least one digit (digits
after the ninth do not count), or nothing. -/
def readNano : List Char → Nat × List Char
  | [] => (0, [])
  | c :: rest =>
      if c = '.' ∧ rest.takeWhile Char.isDigit ≠ [] then
        (reader.digitsValue ((rest.takeWhile Char.isDigit).take 9 ++
            List.replicate (9 - ((rest.takeWhile Char.isDigit).take 9).length) '0'),
          rest.dropWhile Char.isDigit)
      else (0, c :: rest)

/-- The zone of an RFC 3339 time and the closing quote: `Z`, or a sign, two
digits of hours below 24, a colon and two digits of minutes below 60.  The
result is the offset in seconds, `none` standing for `Z`. -/
def readOffset : List Char → Option (Option Int × List Char)
  | [] => none
  | c :: rest =>
      if c = 'Z' then
        match reader.expect ['"'] rest with
        | none => none
        | some cs => some (none, cs)
      else if c = '+' ∨ c = '-' then
        match reader.readFixed 2 rest with
        | none => none
        | some (hh, cs1) =>
        match reader.readField [':'] 2 cs1 with
        | none => none
        | some (mm, cs2) =>
        match reader.expect ['"'] cs2 with
        | none => none
        | some cs3 =>
            if 24 ≤ hh ∨ 60 ≤ mm then none
            else if c = '-' then some (some (-(((hh * 60 + mm) * 60 : Nat) : Int)), cs3)
            else some (some ((((hh * 60 + mm) * 60 : Nat) : Int)), cs3)
      else none

/-- Go `Time.UnmarshalJSON`: a quoted RFC 3339 time.  A time written with `Z` is
in UTC; one written with an offset is in `time.Local` when that is the offset
of the zone of the process at that instant, and in a zone of that fixed offset
otherwise. -/
def readTime (tz : Zone) (cs0 : List Char) : Option (Time × List Char) :=
  match reader.readField ['"'] 4 cs0 with
  | none => none
  | some (y, cs1) =>
  match reader.readField ['-'] 2 cs1 with
  | none => none
  | some (m, cs2) =>
  match reader.readField ['-'] 2 cs2 with
  | none => none
  | some (d, cs3) =>
  match reader.readField ['T'] 2 cs3 with
  | none => none
  | some (hh, cs4) =>
  match reader.readField [':'] 2 cs4 with
  | none => none
  | some (mm, cs5) =>
  match reader.readField [':'] 2 cs5 with
  | none => none
  | some (ss, cs6) =>
  match readOffset (readNano cs6).2 with
  | none => none
  | some (off, cs8) =>
      if m < 1 ∨ 12 < m ∨ 24 ≤ hh ∨ 60 ≤ mm ∨ 60 ≤ ss ∨ d < 1 ∨
          Time.daysIn (m : Int) (y : Int) < (d : Int) then none
      else
        match off with
        | none =>
            some ({ sec := Time.unixOfCivil y m d hh mm ss, nsec := (readNano cs6).1,
                    loc := Location.UTC }, cs8)
        | some o =>
            some ({ sec := Time.unixOfCivil y m d hh mm ss - o, nsec := (readNano cs6).1,
                    loc := if tz (Time.unixOfCivil y m d hh mm ss - o) = o then Location.Local
                           else Location.fixed o }, cs8)

/-- A literal and then a JSON string. -/
def readStringField (lit : List Char) (cs : List Char) : Option (GoString × List Char) :=
  match reader.expect lit cs with
  | none => none
  | some cs1 => readString cs1

/-- One object of the array. -/
def readEvent (tz : Zone) (cs0 : List Char) : Option (database.Event × List Char) :=
  match reader.expect keyID cs0 with
  | none => none
  | some cs1 =>
  match readInt cs1 with
  | none => none
  | some (id, cs2) =>
  match readStringField keyUsername cs2 with
  | none => none
  | some (username, cs3) =>
  match readStringField keyType cs3 with
  | none => none
  | some (type, cs4) =>
  match readStringField keyContent cs4 with
  | none => none
  | some (content, cs5) =>
  match reader.expect keyTimestamp cs5 with
  | none => none
  | some cs6 =>
  match readTime tz cs6 with
  | none => none
  | some (timestamp, cs7) =>
  match reader.expect closeObject cs7 with
  | none => none
  | some cs8 =>
      some ({ ID := id, Username := username, Type_ := type, Content := content,
              Timestamp := timestamp }, cs8)

/-- The objects of the array up to its closing bracket, which ends the input;
`fuel` bounds the number of objects. -/
def readEvents (tz : Zone) : Nat → List Char → Option (List database.Event)
  | 0, _ => none
  | fuel + 1, cs =>
      match readEvent tz cs with
      | none => none
      | some (e, cs1) =>
          match reader.expect separator cs1 with
          | some cs2 =>
              match readEvents tz fuel cs2 with
              | some es => some (e :: es)
              | none => none
          | none =>
              match reader.expect closeArray cs1 with
              | some [] => some [e]
              | _ => none

/-- Go `json.Unmarshal(data, &events)` for a `[]database.Event`, on the layout
`MarshalIndent` writes. -/
def Unmarshal (tz : Zone) (data : String) : Option (List database.Event) :=
  if data = "null" then some []
  else
    match reader.expect openArray data.data with
    | some cs => readEvents tz data.length cs
    | none => none

/-- What reading back gives for a string that was written: every byte that is
not valid UTF-8 has become the character U+FFFD. -/
def replaceInvalid (s : GoString) : GoString :=
  s.map (fun c => match c with
    | .rune c => GoChar.rune c
    | .byte _ => GoChar.rune '\ufffd')

/-- What reading back gives for a time that was written: the same instant, in
UTC when its offset is zero, in `time.Local` when its offset is that of the zone
of the process, and in a zone of that fixed offset otherwise. -/
def reread (tz : Zone) (t : Time) : Time :=
  { sec := t.sec
    nsec := t.nsec
    loc := if t.offset tz = 0 then Location.UTC
           else if tz t.sec = t.offset tz then Location.Local
           else Location.fixed (t.offset tz) }

/-- What reading back gives for a record that was written. -/
def rereadEvent (tz : Zone) (e : database.Event) : database.Event :=
  { ID := e.ID, Username := replaceInvalid e.Username, Type_ := replaceInvalid e.Type_,
    Content := replaceInvalid e.Content, Timestamp := reread tz e.Timestamp }

end json


namespace database

/-- Go method `(*DB).ExportToJSON`.  `query` is the outcome of the listing query and
`write` that of `os.WriteFile`. -/
def DB.ExportToJSON (d : DB) (tz : Zone) (query write : Option Error) (username : GoString)
    (outputPath : String) (fs : Files) : Option Error × Files :=
  match d.GetEventsByUsername tz query username with
  | .error err => (some err, fs)
  | .ok events =>
      match json.MarshalIndent tz events with
      | .error err => (some err, fs)
      | .ok data => WriteFile fs write outputPath (GoString.ofString data)

/-- Reading an exported file back: `os.ReadFile` and then `json.Unmarshal` into a
`[]Event`. -/
def ReadJSON (tz : Zone) (fs : Files) (name : String) : Option (List Event) :=
  match fs name with
  | none => none
  | some data =>
      match data.chars with
      | none => none
      | some cs => json.Unmarshal tz (String.mk cs)

end database

/-! ## Zones and stores of the examples -/

namespace sample

/-- UTC as the zone of the process. -/
def utc : Zone := fun _ => 0

/-- The zone of Tokyo: nine hours east of UTC. -/
def tokyo : Zone := fun _ => 32400

/-- The zone of New York around the end of daylight saving time on 2023-11-05
(at 06:00 UTC): four hours west of UTC before it, five hours after. -/
def newYork : Zone := fun unix => if unix < 1699164000 then -14400 else -18000

/-- A store with one chat record of the subject `host`, saved with the given
content and timestamp. -/
def one (content : GoString) (timestamp : Time) : database.DB :=
  (database.DB.empty.SaveEvent none "chat" content timestamp "host").2

/-- A store with two records of the subject `host`, saved in this order with the
given timestamps, and a record of another subject. -/
def two (t1 t2 : Time) : database.DB :=
  (((database.DB.empty.SaveEvent none "chat" "a: <x>" t1 "host").2.SaveEvent none "gift"
    "b sent rose (x3)" t2 "host").2.SaveEvent none "chat" "c: z" t2 "other").2

end sample

end TiktokLiveLogger

namespace TiktokLiveLogger
open gotiktoklive

/-! ## Theorems -/

section Lemmas

theorem trackEvent_eq_foldl {σ : Type} (h : tiktok.Event → σ → σ) (now : Time)
    (raw : gotiktoklive.Event) (s : σ) :
    tiktok.trackEvent h now raw s = (cmd.canonical now raw).foldl (fun s e => h e s) s := by
  cases raw with
  | user e =>
      obtain ⟨k, u⟩ := e
      cases k <;> simp [tiktok.trackEvent, cmd.canonical, tiktok.record]
  | _ => simp [tiktok.trackEvent, cmd.canonical, tiktok.record]

theorem TrackUser_record_append (evs : List (Time × gotiktoklive.Event))
    (acc : List tiktok.Event) :
    tiktok.TrackUser tiktok.record evs acc = acc ++ cmd.dispatched evs := by
  induction evs generalizing acc with
  | nil => simp [tiktok.TrackUser, cmd.dispatched]
  | cons x rest ih =>
      obtain ⟨now, raw⟩ := x
      have h1 : ∀ acc : List tiktok.Event,
          tiktok.trackEvent tiktok.record now raw acc = acc ++ cmd.canonical now raw := by
        intro acc
        rw [trackEvent_eq_foldl]
        generalize cmd.canonical now raw = l
        induction l generalizing acc with
        | nil => simp
        | cons e l ihl =>
            simp only [List.foldl]
            rw [ihl]
            simp [tiktok.record]
      simp only [tiktok.TrackUser, cmd.dispatched]
      rw [ih, ih (tiktok.trackEvent tiktok.record now raw []), h1, h1]
      simp

theorem dispatched_cons (x : Time × gotiktoklive.Event)
    (rest : List (Time × gotiktoklive.Event)) :
    cmd.dispatched (x :: rest) = cmd.canonical x.1 x.2 ++ cmd.dispatched rest := by
  obtain ⟨now, raw⟩ := x
  show tiktok.TrackUser tiktok.record rest (tiktok.trackEvent tiktok.record now raw []) = _
  rw [TrackUser_record_append]
  rfl

theorem onEvents_eq_foldl (l : List tiktok.Event) (s : cmd.Session) :
    cmd.onEvents l s = l.foldl (fun s e => cmd.onEvent e s) s := by
  induction l generalizing s with
  | nil => rfl
  | cons e l ih => simp [cmd.onEvents, ih]

theorem onEvents_append (l1 l2 : List tiktok.Event) (s : cmd.Session) :
    cmd.onEvents (l1 ++ l2) s = cmd.onEvents l2 (cmd.onEvents l1 s) := by
  simp [onEvents_eq_foldl]

theorem TrackUser_onEvent (evs : List (Time × gotiktoklive.Event)) (s : cmd.Session) :
    tiktok.TrackUser cmd.onEvent evs s = cmd.onEvents (cmd.dispatched evs) s := by
  induction evs generalizing s with
  | nil => rfl
  | cons x rest ih =>
      rw [dispatched_cons, onEvents_append]
      obtain ⟨now, raw⟩ := x
      simp only [tiktok.TrackUser]
      rw [ih, trackEvent_eq_foldl, onEvents_eq_foldl (cmd.canonical now raw)]

theorem saveCalls_append (l1 l2 : List cmd.SinkCall) :
    cmd.saveCalls (l1 ++ l2) = cmd.saveCalls l1 ++ cmd.saveCalls l2 := by
  induction l1 with
  | nil => rfl
  | cons c l1 ih => cases c <;> simp [cmd.saveCalls, ih]

theorem addCalls_append (l1 l2 : List cmd.SinkCall) :
    cmd.addCalls (l1 ++ l2) = cmd.addCalls l1 ++ cmd.addCalls l2 := by
  induction l1 with
  | nil => rfl
  | cons c l1 ih => cases c <;> simp [cmd.addCalls, ih]

theorem onEvent_fields (e : tiktok.Event) (s : cmd.Session) :
    (cmd.onEvent e s).username = s.username ∧
    (cmd.onEvent e s).driver = s.driver ∧
    (cmd.onEvent e s).saves = s.saves + 1 ∧
    (cmd.onEvent e s).model.events = s.model.events ++ [e.Content] ∧
    (cmd.onEvent e s).model.stats = s.model.stats ∧
    (cmd.onEvent e s).model.table = s.model.table ∧
    (cmd.onEvent e s).calls.filter cmd.SinkCall.isDelivery =
      s.calls.filter cmd.SinkCall.isDelivery ++ cmd.deliveries s.username e := by
  unfold cmd.onEvent
  cases h : s.driver s.saves <;>
    simp [cmd.Session.AddEvent, cmd.Session.SaveEvent, cmd.Session.SetError,
      database.DB.SaveEvent, ui.model.AddEvent, ui.model.SetError, cmd.deliveries,
      cmd.SinkCall.isDelivery, ui.Viewport.SetContent, ui.Viewport.GotoBottom, h]

theorem onEvent_err (e : tiktok.Event) (s : cmd.Session) :
    (cmd.onEvent e s).model.err =
      match s.driver s.saves with
      | some err => some ("failed to save event: " ++ err)
      | none => s.model.err := by
  unfold cmd.onEvent
  cases h : s.driver s.saves <;>
    simp [cmd.Session.AddEvent, cmd.Session.SaveEvent, cmd.Session.SetError,
      database.DB.SaveEvent, ui.model.AddEvent, ui.model.SetError,
      ui.Viewport.SetContent, ui.Viewport.GotoBottom, h]

theorem onEvents_fields (l : List tiktok.Event) (s : cmd.Session) :
    (cmd.onEvents l s).username = s.username ∧
    (cmd.onEvents l s).driver = s.driver ∧
    (cmd.onEvents l s).saves = s.saves + l.length ∧
    (cmd.onEvents l s).model.events = s.model.events ++ l.map (fun e => e.Content) ∧
    (cmd.onEvents l s).model.stats = s.model.stats ∧
    (cmd.onEvents l s).model.table = s.model.table ∧
    (cmd.onEvents l s).calls.filter cmd.SinkCall.isDelivery =
      s.calls.filter cmd.SinkCall.isDelivery ++ l.flatMap (cmd.deliveries s.username) := by
  induction l generalizing s with
  | nil => simp [cmd.onEvents]
  | cons e l ih =>
      obtain ⟨h1, h2, h3, h4, h5, h6, h7⟩ := onEvent_fields e s
      obtain ⟨i1, i2, i3, i4, i5, i6, i7⟩ := ih (cmd.onEvent e s)
      simp only [cmd.onEvents]
      refine ⟨by rw [i1, h1], by rw [i2, h2], ?_, ?_, by rw [i5, h5], by rw [i6, h6], ?_⟩
      · rw [i3, h3]; simp only [List.length_cons]; omega
      · rw [i4, h4]; simp
      · rw [i7, h7, h1]; simp

theorem canonical_length_of_recognized (now : Time) (raw : gotiktoklive.Event)
    (h : recognized raw = true) : (cmd.canonical now raw).length = 1 := by
  cases raw with
  | user e =>
      obtain ⟨k, u⟩ := e
      cases k <;> simp_all [recognized, tiktok.trackEvent, cmd.canonical, tiktok.record]
  | other t => simp [recognized] at h
  | _ => simp [tiktok.trackEvent, cmd.canonical, tiktok.record]

theorem dispatched_length_of_recognized (evs : List (Time × gotiktoklive.Event))
    (h : ∀ x ∈ evs, recognized x.2 = true) : (cmd.dispatched evs).length = evs.length := by
  induction evs with
  | nil => rfl
  | cons x rest ih =>
      rw [dispatched_cons, List.length_append,
        canonical_length_of_recognized x.1 x.2 (h x (List.mem_cons_self _ _)),
        ih (fun y hy => h y (List.mem_cons_of_mem _ hy))]
      simp only [List.length_cons]; omega

theorem saveCalls_filter (l : List cmd.SinkCall) :
    cmd.saveCalls (l.filter cmd.SinkCall.isDelivery) = cmd.saveCalls l := by
  induction l with
  | nil => rfl
  | cons c l ih => cases c <;> simp [cmd.saveCalls, cmd.SinkCall.isDelivery, List.filter, ih]

theorem addCalls_filter (l : List cmd.SinkCall) :
    cmd.addCalls (l.filter cmd.SinkCall.isDelivery) = cmd.addCalls l := by
  induction l with
  | nil => rfl
  | cons c l ih => cases c <;> simp [cmd.addCalls, cmd.SinkCall.isDelivery, List.filter, ih]

theorem saveCalls_deliveries (u : String) (l : List tiktok.Event) :
    cmd.saveCalls (l.flatMap (cmd.deliveries u)) =
      l.map (fun e => (e.Type_, e.Content, e.Timestamp, u)) := by
  induction l with
  | nil => rfl
  | cons e l ih =>
      rw [List.flatMap_cons, saveCalls_append, ih]
      simp [cmd.deliveries, cmd.saveCalls]

theorem addCalls_deliveries (u : String) (l : List tiktok.Event) :
    cmd.addCalls (l.flatMap (cmd.deliveries u)) = l.map (fun e => e.Content) := by
  induction l with
  | nil => rfl
  | cons e l ih =>
      rw [List.flatMap_cons, addCalls_append, ih]
      simp [cmd.deliveries, cmd.addCalls]

theorem onEvents_err_of_failing (l : List tiktok.Event) (s : cmd.Session)
    (hfail : ∀ n, (s.driver n).isSome = true) (h : s.model.err.isSome = true ∨ l ≠ []) :
    (cmd.onEvents l s).model.err.isSome = true := by
  induction l generalizing s with
  | nil => simpa [cmd.onEvents] using h
  | cons e l ih =>
      simp only [cmd.onEvents]
      apply ih
      · intro n
        rw [(onEvent_fields e s).2.1]
        exact hfail n
      · left
        rw [onEvent_err]
        have := hfail s.saves
        cases hd : s.driver s.saves with
        | none => simp [hd] at this
        | some err => simp

theorem unix_zero (sec : Int) : Time.Unix sec 0 = { sec := sec, nsec := 0 } := by
  simp [Time.Unix]

theorem filter_not_filter_length {α : Type} (p : α → Bool) (l : List α) :
    (l.filter p).length + (l.filter (fun a => !p a)).length = l.length := by
  induction l with
  | nil => rfl
  | cons a l ih =>
      cases h : p a <;> simp [List.filter, h] <;> omega

theorem foldl_append_eq_join {α : Type} (f : α → String) (l : List α) (acc : String) :
    l.foldl (fun content a => content ++ f a) acc = acc ++ String.join (l.map f) := by
  induction l generalizing acc with
  | nil => simp [String.join]
  | cons a l ih =>
      simp only [List.foldl, List.map]
      rw [ih]
      have hj : ∀ (ss : List String) (x : String), String.join (x :: ss) = x ++ String.join ss := by
        intro ss x
        simp only [String.join, List.foldl]
        have gen : ∀ (ss : List String) (a b : String),
            List.foldl (fun r s => r ++ s) (a ++ b) ss = a ++ List.foldl (fun r s => r ++ s) b ss := by
          intro ss
          induction ss with
          | nil => intro a b; rfl
          | cons y ss ihs =>
              intro a b
              simp only [List.foldl]
              rw [String.append_assoc, ihs]
        have := gen ss x ""
        simpa using this
      rw [hj, String.append_assoc]

theorem join_cons (x : String) (ss : List String) :
    String.join (x :: ss) = x ++ String.join ss := by
  have := foldl_append_eq_join (fun s : String => s) ss x
  simpa [String.join] using this

section JsonLemmas
open json reader


theorem expect_append (lit rest : List Char) : expect lit (lit ++ rest) = some rest := by
  induction lit with
  | nil => cases rest <;> rfl
  | cons c lit ih => simp [expect, ih]

theorem digitChar_isDigit (k : Nat) (h : k < 10) :
    (Nat.digitChar k).isDigit = true ∧ (Nat.digitChar k).toNat - 48 = k := by
  interval_cases k <;> decide

theorem toDigitsCore_append (fuel n : Nat) (ds : List Char) :
    Nat.toDigitsCore 10 fuel n ds = Nat.toDigitsCore 10 fuel n [] ++ ds := by
  induction fuel generalizing n ds with
  | zero => simp [Nat.toDigitsCore]
  | succ fuel ih =>
      simp only [Nat.toDigitsCore]
      split
      · simp
      · rw [ih, ih (n / 10) [Nat.digitChar (n % 10)]]
        simp

theorem toDigitsCore_succ (fuel n : Nat) :
    Nat.toDigitsCore 10 (fuel + 1) n [] =
      if n / 10 = 0 then [Nat.digitChar (n % 10)]
      else Nat.toDigitsCore 10 fuel (n / 10) [] ++ [Nat.digitChar (n % 10)] := by
  simp only [Nat.toDigitsCore]
  split
  · rfl
  · rw [toDigitsCore_append]

theorem toDigitsCore_all_digit (fuel n : Nat) :
    ∀ c ∈ Nat.toDigitsCore 10 fuel n [], c.isDigit = true := by
  induction fuel generalizing n with
  | zero => simp [Nat.toDigitsCore]
  | succ fuel ih =>
      rw [toDigitsCore_succ]
      have hd := (digitChar_isDigit (n % 10) (Nat.mod_lt _ (by decide))).1
      split
      · intro c hc
        rw [List.mem_singleton] at hc
        rw [hc]; exact hd
      · intro c hc
        rcases List.mem_append.mp hc with h | h
        · exact ih _ c h
        · rw [List.mem_singleton] at h
          rw [h]; exact hd

theorem digitsValue_append_singleton (l : List Char) (c : Char) :
    digitsValue (l ++ [c]) = 10 * digitsValue l + (c.toNat - 48) := by
  simp [digitsValue, List.foldl_append]

theorem digitsValue_toDigitsCore (fuel n : Nat) (h : n < fuel) :
    digitsValue (Nat.toDigitsCore 10 fuel n []) = n := by
  induction fuel generalizing n with
  | zero => omega
  | succ fuel ih =>
      rw [toDigitsCore_succ]
      have hv := (digitChar_isDigit (n % 10) (Nat.mod_lt _ (by decide))).2
      split
      · rename_i h0
        simp only [digitsValue, List.foldl]
        rw [hv]; omega
      · rename_i h0
        rw [digitsValue_append_singleton, hv, ih (n / 10) (by omega)]
        omega

theorem toDigits_all_digit (n : Nat) : ∀ c ∈ Nat.toDigits 10 n, c.isDigit = true :=
  toDigitsCore_all_digit _ _

theorem digitsValue_toDigits (n : Nat) : digitsValue (Nat.toDigits 10 n) = n :=
  digitsValue_toDigitsCore _ _ (Nat.lt_succ_self n)

theorem toDigits_ne_nil (n : Nat) : Nat.toDigits 10 n ≠ [] := by
  unfold Nat.toDigits
  rw [toDigitsCore_succ]
  split <;> simp

theorem toDigits_length_le (n e : Nat) (h : n < 10 ^ e) (he : 0 < e) :
    (Nat.toDigits 10 n).length ≤ e :=
  Nat.toDigitsCore_length 10 (by decide) _ n e h he

theorem digitsValue_replicate_zero (k : Nat) (l : List Char) :
    digitsValue (List.replicate k '0' ++ l) = digitsValue l := by
  induction k with
  | zero => rfl
  | succ k ih =>
      have h0 : digitsValue (List.replicate k '0' ++ l) = digitsValue l := ih
      simp only [digitsValue] at h0 ⊢
      simp only [List.replicate_succ, List.cons_append, List.foldl]
      exact h0

theorem takeWhile_append_of_all {p : Char → Bool} (l rest : List Char) (c : Char)
    (hl : ∀ x ∈ l, p x = true) (hc : p c = false) :
    (l ++ c :: rest).takeWhile p = l ∧ (l ++ c :: rest).dropWhile p = c :: rest := by
  induction l with
  | nil => simp [List.takeWhile, List.dropWhile, hc]
  | cons a l ih =>
      have ha := hl a (List.mem_cons_self _ _)
      have := ih (fun x hx => hl x (List.mem_cons_of_mem _ hx))
      simp [List.takeWhile, List.dropWhile, ha, this]

theorem readNat_toDigits (n : Nat) (c : Char) (rest : List Char) (hc : c.isDigit = false) :
    readNat (Nat.toDigits 10 n ++ c :: rest) = some (n, c :: rest) := by
  obtain ⟨h1, h2⟩ := takeWhile_append_of_all (Nat.toDigits 10 n) rest c (toDigits_all_digit n) hc
  unfold readNat
  rw [h1, h2, if_neg (toDigits_ne_nil n), digitsValue_toDigits]

theorem decimal_data (i : Int) :
    (decimal i).data =
      if i < 0 then '-' :: Nat.toDigits 10 i.natAbs else Nat.toDigits 10 i.natAbs := by
  cases i with
  | ofNat m =>
      have : ¬ ((Int.ofNat m) < 0) := by simp
      rw [if_neg this]
      rfl
  | negSucc m =>
      have : (Int.negSucc m) < 0 := Int.negSucc_lt_zero m
      rw [if_pos this]
      rfl

theorem readInt_decimal (i : Int) (c : Char) (rest : List Char) (hc : c.isDigit = false) :
    readInt ((decimal i).data ++ c :: rest) = some (i, c :: rest) := by
  rw [decimal_data]
  split
  · rename_i hneg
    simp only [List.cons_append, readInt, if_true, readNat_toDigits _ _ _ hc]
    congr 2
    omega
  · rename_i hpos
    have hne := toDigits_ne_nil i.natAbs
    cases hd : Nat.toDigits 10 i.natAbs with
    | nil => exact absurd hd hne
    | cons a l =>
        have ha : a.isDigit = true := toDigits_all_digit i.natAbs a (by rw [hd]; exact List.mem_cons_self _ _)
        have hne : a ≠ '-' := by
          intro h; rw [h] at ha; exact absurd ha (by decide)
        have hr := readNat_toDigits i.natAbs c rest hc
        rw [hd] at hr
        simp only [List.cons_append] at hr ⊢
        simp only [readInt, if_neg hne, hr]
        congr 2
        omega

theorem appendInt_nonneg (x : Int) (w : Nat) (h0 : 0 ≤ x) :
    Time.appendInt x w =
      List.replicate (w - (Nat.toDigits 10 x.natAbs).length) '0' ++ Nat.toDigits 10 x.natAbs := by
  unfold Time.appendInt
  rw [if_neg (by omega)]
  rfl

theorem appendInt_spec (x : Int) (w : Nat) (h0 : 0 ≤ x) (h1 : x < 10 ^ w) (hw : 0 < w) :
    (Time.appendInt x w).length = w ∧ (∀ c ∈ Time.appendInt x w, c.isDigit = true) ∧
      digitsValue (Time.appendInt x w) = x.natAbs := by
  have hlen : (Nat.toDigits 10 x.natAbs).length ≤ w := by
    apply toDigits_length_le _ _ _ hw
    have : (x.natAbs : Int) < ((10 ^ w : Nat) : Int) := by
      rw [Int.natAbs_of_nonneg h0]; exact_mod_cast h1
    exact_mod_cast this
  rw [appendInt_nonneg x w h0]
  refine ⟨?_, ?_, ?_⟩
  · rw [List.length_append, List.length_replicate]; omega
  · intro c hc
    rcases List.mem_append.mp hc with h | h
    · rw [List.eq_of_mem_replicate h]; decide
    · exact toDigits_all_digit _ c h
  · rw [digitsValue_replicate_zero, digitsValue_toDigits]

theorem readFixed_of_digits (l rest : List Char) (w : Nat) (hlen : l.length = w)
    (hd : ∀ c ∈ l, c.isDigit = true) :
    readFixed w (l ++ rest) = some (digitsValue l, rest) := by
  unfold readFixed
  have ht : (l ++ rest).take w = l := by
    rw [← hlen]; exact List.take_left' rfl
  have hdr : (l ++ rest).drop w = rest := by
    rw [← hlen]; exact List.drop_left' rfl
  rw [ht, hdr, if_pos]
  exact ⟨hlen, List.all_eq_true.mpr hd⟩

theorem readField_appendInt (lit : List Char) (x : Int) (w : Nat) (rest : List Char)
    (h0 : 0 ≤ x) (h1 : x < 10 ^ w) (hw : 0 < w) :
    readField lit w (lit ++ (Time.appendInt x w ++ rest)) = some (x.natAbs, rest) := by
  obtain ⟨hl, hd, hv⟩ := appendInt_spec x w h0 h1 hw
  unfold readField
  rw [expect_append]
  simp only
  rw [readFixed_of_digits _ _ _ hl hd, hv]

theorem rdropWhile_append_replicate (c : Char) (l : List Char) :
    l.rdropWhile (fun x => decide (x = c)) ++
        List.replicate (l.length - (l.rdropWhile (fun x => decide (x = c))).length) c = l ∧
      (l.rdropWhile (fun x => decide (x = c))).length ≤ l.length := by
  induction l using List.reverseRecOn with
  | nil => simp
  | append_singleton l a ih =>
      rw [List.rdropWhile_concat]
      by_cases h : a = c
      · subst h
        obtain ⟨ih1, ih2⟩ := ih
        simp only [decide_True, if_true, List.length_append, List.length_singleton]
        refine ⟨?_, by omega⟩
        have hk : l.length + 1 - (l.rdropWhile (fun x => decide (x = a))).length =
            (l.length - (l.rdropWhile (fun x => decide (x = a))).length) + 1 := by omega
        rw [hk, List.replicate_succ', ← List.append_assoc, ih1]
      · simp [h]


theorem digitsValue_lt (l : List Char) (hd : ∀ c ∈ l, c.isDigit = true) :
    digitsValue l < 10 ^ l.length := by
  induction l using List.reverseRecOn with
  | nil => simp [digitsValue]
  | append_singleton l a ih =>
      rw [digitsValue_append_singleton, List.length_append, List.length_singleton, pow_succ]
      have h1 := ih (fun c hc => hd c (List.mem_append_left _ hc))
      have h2 : a.isDigit = true := hd a (List.mem_append_right _ (List.mem_singleton.mpr rfl))
      have h3 : a.toNat - 48 ≤ 9 := by
        simp only [Char.isDigit, Bool.and_eq_true, decide_eq_true_eq] at h2
        have := h2.2
        have h4 : a.val ≤ 57 := this
        have h5 : a.toNat = a.val.toNat := rfl
        have h6 : a.val.toNat ≤ 57 := by
          have := UInt32.le_def.mp h4
          simpa using this
        omega
      omega

theorem hexValue_digitChar (k : Nat) (h : k < 16) : hexValue (Nat.digitChar k) = some k := by
  interval_cases k <;> decide

theorem readStringFrom_hex4 (n : Nat) (h : n < 65536) (tail : List Char) :
    readStringFrom (.hex 3 0)
        (Nat.digitChar (n / 4096) :: Nat.digitChar (n / 256 % 16) ::
          Nat.digitChar (n / 16 % 16) :: Nat.digitChar (n % 16) :: tail) =
      consChar (some (Char.ofNat n)) (readStringFrom .plain tail) := by
  simp only [readStringFrom, hexValue_digitChar (n / 4096) (by omega),
    hexValue_digitChar (n / 256 % 16) (by omega), hexValue_digitChar (n / 16 % 16) (by omega),
    hexValue_digitChar (n % 16) (by omega)]
  congr 3
  omega

theorem readStringBody_escape (c : Char) (tail s r : List Char)
    (h : readStringBody tail = some (s, r)) :
    readStringBody (escapeChar c ++ tail) = some (c :: s, r) := by
  unfold readStringBody at *
  unfold escapeChar
  split_ifs with h1 h2 h3 h4 h5 h6 h7 h8
  · subst h1; simp [readStringFrom, unescape, consChar, h]
  · subst h2; simp [readStringFrom, unescape, consChar, h]
  · subst h3; simp [readStringFrom, unescape, consChar, h]
  · subst h4; simp [readStringFrom, unescape, consChar, h]
  · subst h5; simp [readStringFrom, unescape, consChar, h]
  · subst h6; simp [readStringFrom, unescape, consChar, h]
  · subst h7; simp [readStringFrom, unescape, consChar, h]
  · have hlt : c.toNat < 65536 := by
      rcases h8 with h | h | h | h | h | h
      · omega
      all_goals (subst h; decide)
    have step : readStringFrom .plain
        ('\\' :: 'u' :: Nat.digitChar (c.toNat / 4096) :: Nat.digitChar (c.toNat / 256 % 16) ::
          Nat.digitChar (c.toNat / 16 % 16) :: Nat.digitChar (c.toNat % 16) :: tail) =
        readStringFrom (.hex 3 0)
          (Nat.digitChar (c.toNat / 4096) :: Nat.digitChar (c.toNat / 256 % 16) ::
            Nat.digitChar (c.toNat / 16 % 16) :: Nat.digitChar (c.toNat % 16) :: tail) := by
      simp [readStringFrom]
    simp only [List.cons_append, List.nil_append]
    rw [step, readStringFrom_hex4 _ hlt, h, Char.ofNat_toNat]
    rfl
  · have h32 : ¬ c.toNat < 32 := fun hh => h8 (Or.inl hh)
    show readStringFrom .plain (c :: tail) = _
    simp only [readStringFrom]
    rw [if_neg h1, if_neg h2, if_neg h32, h]
    rfl

theorem readStringBody_flatMap (s rest : List Char) :
    readStringBody (s.flatMap escapeChar ++ '"' :: rest) = some (s, rest) := by
  induction s with
  | nil => simp [readStringBody, readStringFrom]
  | cons c s ih =>
      rw [List.flatMap_cons, List.append_assoc]
      exact readStringBody_escape c _ s rest ih


theorem readStringBody_escapeGoChar (c : GoChar) (tail s r : List Char)
    (h : readStringBody tail = some (s, r)) :
    readStringBody (escapeGoChar c ++ tail) =
      some ((match c with
        | .rune c => c
        | .byte _ => '\ufffd') :: s, r) := by
  cases c with
  | rune c => exact readStringBody_escape c tail s r h
  | byte b =>
      unfold readStringBody at *
      simp only [escapeGoChar, List.cons_append, List.nil_append]
      have step : readStringFrom .plain ('\\' :: 'u' :: 'f' :: 'f' :: 'f' :: 'd' :: tail) =
          readStringFrom (.hex 3 0) ('f' :: 'f' :: 'f' :: 'd' :: tail) := by
        simp [readStringFrom]
      have h4 := readStringFrom_hex4 65533 (by decide) tail
      change readStringFrom (.hex 3 0) ('f' :: 'f' :: 'f' :: 'd' :: tail) = _ at h4
      rw [step, h4, h]
      rfl

theorem doy_bounds (a b c d e f g : Int) (h0 : 0 ≤ a) (h1 : a ≤ 146096)
    (he : e = a / 1460) (hf : f = a / 36524) (hg : g = a / 146096)
    (hb : b = (a - e + f - g) / 365) (hc : c = b / 4) (hd : d = b / 100) :
    0 ≤ a - (365 * b + c - d) ∧ a - (365 * b + c - d) ≤ 365 ∧ 0 ≤ b ∧ b ≤ 399 := by
  have hf' : f = 0 ∨ f = 1 ∨ f = 2 ∨ f = 3 ∨ f = 4 := by omega
  have hg' : g = 0 ∨ g = 1 := by omega
  have hd' : d = 0 ∨ d = 1 ∨ d = 2 ∨ d = 3 := by omega
  rcases hf' with h | h | h | h | h <;> rcases hg' with h' | h' <;>
    rcases hd' with h'' | h'' | h'' | h'' <;> subst h h' h'' <;> omega

theorem daysFromCivil_of_parts (era yoe doy mp : Int) (hy0 : 0 ≤ yoe) (hy1 : yoe ≤ 399)
    (hmp0 : 0 ≤ mp) (hmp1 : mp ≤ 11) :
    Time.daysFromCivil
      (if (if mp < 10 then mp + 3 else mp - 9) ≤ 2 then yoe + era * 400 + 1 else yoe + era * 400)
      (if mp < 10 then mp + 3 else mp - 9) (doy - (153 * mp + 2) / 5 + 1) =
    era * 146097 + (yoe * 365 + yoe / 4 - yoe / 100 + doy) - 719468 := by
  have h400 : (yoe + era * 400) / 400 = era := by omega
  by_cases h : mp < 10
  · have h2 : ¬ (mp + 3 ≤ 2) := by omega
    have h3 : mp + 3 > 2 := by omega
    simp only [Time.daysFromCivil, h, if_true, h2, if_false, h3, h400]
    omega
  · have h2 : mp - 9 ≤ 2 := by omega
    have h3 : ¬ (mp - 9 > 2) := by omega
    have h4 : yoe + era * 400 + 1 - 1 = yoe + era * 400 := by omega
    simp only [Time.daysFromCivil, h, if_false, h2, if_true, h3, h4, h400]
    omega

theorem civil_spec (z : Int) :
    1 ≤ (Time.civil z).2.1 ∧ (Time.civil z).2.1 ≤ 12 ∧
    1 ≤ (Time.civil z).2.2 ∧ (Time.civil z).2.2 ≤ 31 ∧
    Time.daysFromCivil (Time.civil z).1 (Time.civil z).2.1 (Time.civil z).2.2 = z := by
  have hdoe : 0 ≤ z + 719468 - (z + 719468) / 146097 * 146097 ∧
      z + 719468 - (z + 719468) / 146097 * 146097 ≤ 146096 := by omega
  obtain ⟨hb1, hb2, hb3, hb4⟩ := doy_bounds (z + 719468 - (z + 719468) / 146097 * 146097)
    _ _ _ _ _ _ hdoe.1 hdoe.2 rfl rfl rfl rfl rfl rfl
  simp only [Time.civil]
  generalize (z + 719468 - (z + 719468) / 146097 * 146097 -
      (z + 719468 - (z + 719468) / 146097 * 146097) / 1460 +
      (z + 719468 - (z + 719468) / 146097 * 146097) / 36524 -
      (z + 719468 - (z + 719468) / 146097 * 146097) / 146096) / 365 = yoe at *
  generalize hera : (z + 719468) / 146097 = era at *
  generalize hdoy : z + 719468 - era * 146097 - (365 * yoe + yoe / 4 - yoe / 100) = doy at *
  have hmp : 0 ≤ (5 * doy + 2) / 153 ∧ (5 * doy + 2) / 153 ≤ 11 := by omega
  refine ⟨?_, ?_, ?_, ?_, ?_⟩
  · split_ifs <;> omega
  · split_ifs <;> omega
  · omega
  · omega
  · rw [daysFromCivil_of_parts era yoe doy _ hb3 hb4 hmp.1 hmp.2]
    omega

theorem readField_char_appendInt (c : Char) (x : Int) (w : Nat) (rest : List Char)
    (h0 : 0 ≤ x) (h1 : x < 10 ^ w) (hw : 0 < w) :
    readField [c] w (c :: (Time.appendInt x w ++ rest)) = some (x.natAbs, rest) :=
  readField_appendInt [c] x w rest h0 h1 hw


end JsonLemmas

section TimeLemmas
open reader

theorem doy_tight (a b c d e f g : Int) (h0 : 0 ≤ a) (h1 : a ≤ 146096)
    (he : e = a / 1460) (hf : f = a / 36524) (hg : g = a / 146096)
    (hb : b = (a - e + f - g) / 365) (hc : c = b / 4) (hd : d = b / 100) :
    a - (365 * b + c - d) ≤ 364 ∨
      (a - (365 * b + c - d) = 365 ∧ (b + 1) % 4 = 0 ∧
        ((b + 1) % 100 ≠ 0 ∨ (b + 1) % 400 = 0)) := by
  have hf' : f = 0 ∨ f = 1 ∨ f = 2 ∨ f = 3 ∨ f = 4 := by omega
  have hg' : g = 0 ∨ g = 1 := by omega
  have hd' : d = 0 ∨ d = 1 ∨ d = 2 ∨ d = 3 := by omega
  have hm : b % 4 = 0 ∨ b % 4 = 1 ∨ b % 4 = 2 ∨ b % 4 = 3 := by omega
  rcases hf' with h | h | h | h | h <;> rcases hg' with h' | h' <;>
    rcases hd' with h'' | h'' | h'' | h'' <;> subst h h' h'' <;>
    rcases hm with hm | hm | hm | hm <;> omega

theorem civil_day_le_daysIn (z : Int) :
    (Time.civil z).2.2 ≤ Time.daysIn (Time.civil z).2.1 (Time.civil z).1 := by
  have hdoe : 0 ≤ z + 719468 - (z + 719468) / 146097 * 146097 ∧
      z + 719468 - (z + 719468) / 146097 * 146097 ≤ 146096 := by omega
  obtain ⟨hb1, hb2, hb3, hb4⟩ := doy_bounds (z + 719468 - (z + 719468) / 146097 * 146097)
    _ _ _ _ _ _ hdoe.1 hdoe.2 rfl rfl rfl rfl rfl rfl
  have ht := doy_tight (z + 719468 - (z + 719468) / 146097 * 146097)
    _ _ _ _ _ _ hdoe.1 hdoe.2 rfl rfl rfl rfl rfl rfl
  simp only [Time.civil]
  generalize (z + 719468 - (z + 719468) / 146097 * 146097 -
      (z + 719468 - (z + 719468) / 146097 * 146097) / 1460 +
      (z + 719468 - (z + 719468) / 146097 * 146097) / 36524 -
      (z + 719468 - (z + 719468) / 146097 * 146097) / 146096) / 365 = yoe at *
  generalize hera : (z + 719468) / 146097 = era at *
  generalize hdoy : z + 719468 - era * 146097 - (365 * yoe + yoe / 4 - yoe / 100) = doy at *
  have hmp : 0 ≤ (5 * doy + 2) / 153 ∧ (5 * doy + 2) / 153 ≤ 11 := by omega
  generalize hmpv : (5 * doy + 2) / 153 = mp at *
  have hcases : mp = 0 ∨ mp = 1 ∨ mp = 2 ∨ mp = 3 ∨ mp = 4 ∨ mp = 5 ∨ mp = 6 ∨ mp = 7 ∨
      mp = 8 ∨ mp = 9 ∨ mp = 10 ∨ mp = 11 := by omega
  unfold Time.daysIn Time.isLeap
  rcases hcases with h | h | h | h | h | h | h | h | h | h | h | h <;> subst h <;>
    simp only [decide_eq_true_eq] <;> norm_num <;> (try split_ifs) <;> omega

theorem getnum_of_readFixed (fixed : Bool) (cs r : List Char) (v : Nat)
    (h : readFixed 2 cs = some (v, r)) : getnum fixed cs = some (v, r) := by
  unfold readFixed at h
  split at h
  · rename_i hc
    obtain ⟨hl, hd⟩ := hc
    match cs, hl, hd, h with
    | a :: b :: rest, _, hd, h =>
        simp only [List.take_succ_cons, List.take_zero, List.all_cons, List.all_nil,
          Bool.and_true, Bool.and_eq_true] at hd
        simp only [List.take_succ_cons, List.take_zero, List.drop_succ_cons, List.drop_zero,
          Option.some.injEq, Prod.mk.injEq, digitsValue, List.foldl] at h
        obtain ⟨hv, hr⟩ := h
        subst hr
        simp only [getnum, hd.1, hd.2, if_true]
        congr 2
        omega
  · exact absurd h (by simp)

theorem appendInt_two (x : Int) (h0 : 0 ≤ x) (h1 : x < 100) :
    ∃ a b : Char, Time.appendInt x 2 = [a, b] ∧ a.isDigit = true ∧ b.isDigit = true := by
  obtain ⟨hl, hd, -⟩ := appendInt_spec x 2 h0 (by norm_num; omega) (by decide)
  match hx : Time.appendInt x 2, hl with
  | [a, b], _ =>
      rw [hx] at hd
      exact ⟨a, b, rfl, hd a (by simp), hd b (by simp)⟩

theorem skipSpace_appendInt (x : Int) (rest : List Char) (h0 : 0 ≤ x) (h1 : x < 100) :
    skipSpace (' ' :: (Time.appendInt x 2 ++ rest)) = some (Time.appendInt x 2 ++ rest) := by
  obtain ⟨a, b, hab, ha, -⟩ := appendInt_two x h0 h1
  rw [hab]
  have hne : ¬ (a = ' ') := by
    intro h; subst h; exact absurd ha (by decide)
  simp [skipSpace, List.dropWhile, hne]

theorem getnum_appendInt (x : Int) (rest : List Char) (h0 : 0 ≤ x) (h1 : x < 100) :
    getnum false (Time.appendInt x 2 ++ rest) = some (x.natAbs, rest) := by
  apply getnum_of_readFixed
  obtain ⟨hl, hd, hv⟩ := appendInt_spec x 2 h0 (by norm_num; omega) (by decide)
  rw [readFixed_of_digits _ _ _ hl hd, hv]

theorem readFixed_appendInt (x : Int) (w : Nat) (rest : List Char)
    (h0 : 0 ≤ x) (h1 : x < 10 ^ w) (hw : 0 < w) :
    readFixed w (Time.appendInt x w ++ rest) = some (x.natAbs, rest) := by
  obtain ⟨hl, hd, hv⟩ := appendInt_spec x w h0 h1 hw
  rw [readFixed_of_digits _ _ _ hl hd, hv]

theorem trimSuffixZ_of_digit (l : List Char) (x : Int) (h0 : 0 ≤ x) (h1 : x < 100) :
    Time.trimSuffixZ (l ++ Time.appendInt x 2) = l ++ Time.appendInt x 2 := by
  obtain ⟨a, b, hab, -, hb⟩ := appendInt_two x h0 h1
  rw [hab]
  have hne : ¬ (b = 'Z') := by
    intro h; subst h; exact absurd hb (by decide)
  have hlast : (l ++ [a, b]).getLast? = some b := by
    simp [List.getLast?_append]
  unfold Time.trimSuffixZ
  rw [hlast, if_neg]
  simpa using hne

/-- The nine-digit form of the nanoseconds, cut after its last non-zero digit. -/
theorem appendNano_digits (nsec : Nat) (h : nsec < 1000000000) (h0 : nsec ≠ 0) :
    ∃ T : List Char, Time.appendNano nsec = '.' :: T ∧ T ≠ [] ∧ T.length ≤ 9 ∧
      (∀ x ∈ T, x.isDigit = true) ∧
      digitsValue (T ++ List.replicate (9 - T.length) '0') = nsec := by
  unfold Time.appendNano
  rw [if_neg h0]
  obtain ⟨hl, hd, hv⟩ := appendInt_spec (nsec : Int) 9 (by omega) (by norm_num; omega) (by decide)
  obtain ⟨hr1, hr2⟩ := rdropWhile_append_replicate '0' (Time.appendInt (nsec : Int) 9)
  generalize hT : (Time.appendInt (nsec : Int) 9).rdropWhile (fun x => decide (x = '0')) = T at *
  have hTd : ∀ x ∈ T, x.isDigit = true := by
    intro x hx
    apply hd
    rw [← hr1]
    exact List.mem_append_left _ hx
  have hTne : T ≠ [] := by
    intro hnil
    rw [hnil] at hr1
    have hv2 := hv
    rw [← hr1, List.nil_append, ← List.append_nil (List.replicate _ _),
      digitsValue_replicate_zero] at hv2
    simp [digitsValue] at hv2
    omega
  refine ⟨T, rfl, hTne, by omega, hTd, ?_⟩
  rw [hl] at hr1
  rw [hr1, hv]
  simp

theorem readNano_appendNano (nsec : Nat) (c : Char) (rest : List Char) (h : nsec < 1000000000)
    (hc : c.isDigit = false) (hc1 : c ≠ '.') (hc2 : c ≠ ',') :
    readNano (Time.appendNano nsec ++ c :: rest) = (nsec, c :: rest) := by
  by_cases h0 : nsec = 0
  · subst h0
    simp [Time.appendNano, readNano, hc1, hc2]
  · obtain ⟨T, hT, hne, hlen, hd, hv⟩ := appendNano_digits nsec h h0
    obtain ⟨t1, t2⟩ := takeWhile_append_of_all T rest c hd hc
    rw [hT]
    simp only [List.cons_append, readNano]
    rw [t1, t2, if_pos ⟨Or.inl trivial, hne⟩, List.take_of_length_le hlen, hv]

theorem json_readNano_appendNano (nsec : Nat) (c : Char) (rest : List Char)
    (h : nsec < 1000000000) (hc : c.isDigit = false) (hc1 : c ≠ '.') :
    json.readNano (Time.appendNano nsec ++ c :: rest) = (nsec, c :: rest) := by
  by_cases h0 : nsec = 0
  · subst h0
    simp [Time.appendNano, json.readNano, hc1]
  · obtain ⟨T, hT, hne, hlen, hd, hv⟩ := appendNano_digits nsec h h0
    obtain ⟨t1, t2⟩ := takeWhile_append_of_all T rest c hd hc
    rw [hT]
    simp only [List.cons_append, json.readNano]
    rw [t1, t2, if_pos ⟨trivial, hne⟩, List.take_of_length_le hlen, hv]

end TimeLemmas

section ParseLemmas
open reader

theorem zone_minutes (o : Int) (hlo : -90000 < o) (hhi : o < 90000) :
    ∃ n : Nat, o.natAbs / 60 = n ∧ n < 1500 ∧
      ((0 ≤ o ∧ (n : Int) * 60 ≤ o ∧ o < (n : Int) * 60 + 60) ∨
        (o < 0 ∧ (n : Int) * 60 ≤ -o ∧ -o < (n : Int) * 60 + 60)) :=
  ⟨_, rfl, by omega, by omega⟩

theorem readZone_appendZone (o : Int) (rest : List Char) (h60 : o % 60 = 0)
    (hlo : -90000 < o) (hhi : o < 90000) :
    readZone ((if o ≤ -60 then '-' else '+') ::
      (Time.appendInt (((o.natAbs / 60 : Nat) : Int) / 60) 2 ++
        (':' :: (Time.appendInt (((o.natAbs / 60 : Nat) : Int) % 60) 2 ++ rest)))) =
      some (o, rest) := by
  obtain ⟨n, hn1, hn2, hn3⟩ := zone_minutes o hlo hhi
  rw [hn1]
  have e1 := fun r => readFixed_appendInt ((n : Int) / 60) 2 r (by omega)
    (by norm_num; omega) (by decide)
  have e2 := fun r => readField_char_appendInt ':' ((n : Int) % 60) 2 r (by omega)
    (by norm_num; omega) (by decide)
  have hr : ¬ (24 < ((n : Int) / 60).natAbs ∨ 60 < ((n : Int) % 60).natAbs) := by omega
  have hval : ((((((n : Int) / 60).natAbs * 60 + ((n : Int) % 60).natAbs) * 60 : Nat)) : Int) =
      (n : Int) * 60 := by omega
  by_cases hneg : o ≤ -60
  · rw [if_pos hneg]
    simp only [readZone, e1, e2, if_neg hr, hval]
    simp
    omega
  · rw [if_neg hneg]
    simp only [readZone, e1, e2, if_neg hr, hval]
    simp
    omega

theorem clock_parts (w : Int) :
    0 ≤ w % 86400 / 3600 ∧ w % 86400 / 3600 < 24 ∧
    0 ≤ w % 86400 % 3600 / 60 ∧ w % 86400 % 3600 / 60 < 60 ∧
    0 ≤ w % 86400 % 60 ∧ w % 86400 % 60 < 60 ∧
    w / 86400 * 86400 + (w % 86400 / 3600 * 3600 + w % 86400 % 3600 / 60 * 60 +
      w % 86400 % 60) = w := by
  omega

theorem parseSQLite_text (w o : Int) (nsec : Nat)
    (hy0 : 0 ≤ (Time.civil (w / 86400)).1) (hy1 : (Time.civil (w / 86400)).1 ≤ 9999)
    (hn : nsec < 1000000000) (h60 : o % 60 = 0) (hlo : -90000 < o) (hhi : o < 90000) :
    Time.parseSQLite (Time.appendDateTime ' ' w ++ (Time.appendNano nsec ++ Time.appendZone o)) =
      some { sec := w - o, nsec := nsec,
             loc := if o = 0 then Location.UTC else Location.fixed o } := by
  obtain ⟨hm1, hm2, hd1, hd2, hday⟩ := civil_spec (w / 86400)
  have hdin := civil_day_le_daysIn (w / 86400)
  obtain ⟨c1, c2, c3, c4, c5, c6, c7⟩ := clock_parts w
  have e1 := fun r => readFixed_appendInt (Time.civil (w / 86400)).1 4 r hy0
    (by norm_num; omega) (by decide)
  have e2 := fun r => readField_char_appendInt '-' (Time.civil (w / 86400)).2.1 2 r
    (by omega) (by norm_num; omega) (by decide)
  have e3 := fun r => readField_char_appendInt '-' (Time.civil (w / 86400)).2.2 2 r
    (by omega) (by norm_num; omega) (by decide)
  have e4 := fun r => skipSpace_appendInt (w % 86400 / 3600) r c1 (by omega)
  have e4b := fun r => getnum_appendInt (w % 86400 / 3600) r c1 (by omega)
  have e5 := fun r => readField_char_appendInt ':' (w % 86400 % 3600 / 60) 2 r
    c3 (by norm_num; omega) (by decide)
  have e6 := fun r => readField_char_appendInt ':' (w % 86400 % 60) 2 r
    c5 (by norm_num; omega) (by decide)
  have e7 : ∀ r : List Char,
      readNano (Time.appendNano nsec ++ (if o ≤ -60 then '-' else '+') :: r) =
        (nsec, (if o ≤ -60 then '-' else '+') :: r) := by
    intro r
    by_cases hneg : o ≤ -60
    · simp only [hneg, if_true]
      exact readNano_appendNano nsec '-' r hn (by decide) (by decide) (by decide)
    · simp only [hneg, if_false]
      exact readNano_appendNano nsec '+' r hn (by decide) (by decide) (by decide)
  have e8 := readZone_appendZone o [] h60 hlo hhi
  rw [← List.append_nil (Time.appendDateTime ' ' w ++ (Time.appendNano nsec ++ Time.appendZone o))]
  simp only [Time.appendDateTime, Time.appendZone, List.cons_append, List.append_assoc,
    List.nil_append, Time.parseSQLite, e1, e2, e3, e4, e4b, e5, e6, e7, e8]
  have hy : (((Time.civil (w / 86400)).1.natAbs : Nat) : Int) = (Time.civil (w / 86400)).1 :=
    Int.natAbs_of_nonneg hy0
  have hm : (((Time.civil (w / 86400)).2.1.natAbs : Nat) : Int) = (Time.civil (w / 86400)).2.1 :=
    Int.natAbs_of_nonneg (by omega)
  have hd : (((Time.civil (w / 86400)).2.2.natAbs : Nat) : Int) = (Time.civil (w / 86400)).2.2 :=
    Int.natAbs_of_nonneg (by omega)
  rw [if_neg]
  · congr 2
    unfold Time.unixOfCivil
    rw [hy, hm, hd, hday, Int.natAbs_of_nonneg c1, Int.natAbs_of_nonneg c3,
      Int.natAbs_of_nonneg c5]
    omega
  · rw [hy, hm, hd]
    simp only [ne_eq, not_true_eq_false, false_or, not_or, not_lt, not_le]
    omega

theorem parseSQLite_sqliteText (tz : Zone) (t : Time)
    (hy0 : 0 ≤ (Time.civil (t.wall tz / 86400)).1)
    (hy1 : (Time.civil (t.wall tz / 86400)).1 ≤ 9999)
    (hn : t.nsec < 1000000000) (h60 : t.offset tz % 60 = 0)
    (hlo : -90000 < t.offset tz) (hhi : t.offset tz < 90000) :
    Time.parseSQLite (Time.sqliteText tz t) =
      some { sec := t.sec, nsec := t.nsec,
             loc := if t.offset tz = 0 then Location.UTC else Location.fixed (t.offset tz) } := by
  unfold Time.sqliteText
  rw [parseSQLite_text _ _ _ hy0 hy1 hn h60 hlo hhi]
  congr 2
  unfold Time.wall
  omega

theorem trimSuffixZ_sqliteText (tz : Zone) (t : Time) :
    Time.trimSuffixZ (Time.sqliteText tz t) = Time.sqliteText tz t := by
  have hmm : 0 ≤ ((((t.offset tz).natAbs / 60 : Nat) : Int) % 60) ∧
      ((((t.offset tz).natAbs / 60 : Nat) : Int) % 60) < 100 := by omega
  have hsplit : Time.sqliteText tz t =
      (Time.appendDateTime ' ' (t.wall tz) ++ (Time.appendNano t.nsec ++
        ((if t.offset tz ≤ -60 then '-' else '+') ::
          (Time.appendInt ((((t.offset tz).natAbs / 60 : Nat) : Int) / 60) 2 ++ [':'])))) ++
        Time.appendInt ((((t.offset tz).natAbs / 60 : Nat) : Int) % 60) 2 := by
    simp [Time.sqliteText, Time.appendZone]
  rw [hsplit]
  exact trimSuffixZ_of_digit _ _ hmm.1 hmm.2

theorem scanText_sqliteText (tz : Zone) (t : Time)
    (hy0 : 0 ≤ (Time.civil (t.wall tz / 86400)).1)
    (hy1 : (Time.civil (t.wall tz / 86400)).1 ≤ 9999)
    (hn : t.nsec < 1000000000) (h60 : t.offset tz % 60 = 0)
    (hlo : -90000 < t.offset tz) (hhi : t.offset tz < 90000) :
    Time.scanText (Time.sqliteText tz t) =
      { sec := t.sec, nsec := t.nsec,
        loc := if t.offset tz = 0 then Location.UTC else Location.fixed (t.offset tz) } := by
  unfold Time.scanText
  rw [trimSuffixZ_sqliteText, parseSQLite_sqliteText tz t hy0 hy1 hn h60 hlo hhi]

end ParseLemmas

section ScanLemmas
open reader

theorem readNano_lt (cs : List Char) : (readNano cs).1 < 1000000000 := by
  cases cs with
  | nil => simp [readNano]
  | cons c rest =>
      simp only [readNano]
      split_ifs with h
      · have hlen : ((rest.takeWhile Char.isDigit).take 9).length ≤ 9 := by
          rw [List.length_take]; omega
        have hd : ∀ x ∈ (rest.takeWhile Char.isDigit).take 9 ++
            List.replicate (9 - ((rest.takeWhile Char.isDigit).take 9).length) '0',
            x.isDigit = true := by
          intro x hx
          rcases List.mem_append.mp hx with h1 | h1
          · exact List.mem_takeWhile_imp (List.mem_of_mem_take h1)
          · rw [List.eq_of_mem_replicate h1]; decide
        have := digitsValue_lt _ hd
        rw [List.length_append, List.length_replicate] at this
        have h9 : ((rest.takeWhile Char.isDigit).take 9).length +
            (9 - ((rest.takeWhile Char.isDigit).take 9).length) = 9 := by omega
        rw [h9] at this
        simpa using this
      · simp

theorem readZone_mod (cs r : List Char) (o : Int) (h : readZone cs = some (o, r)) :
    o % 60 = 0 := by
  cases cs with
  | nil => simp [readZone] at h
  | cons c rest =>
      simp only [readZone] at h
      split at h
      · split at h
        · exact absurd h (by simp)
        · split at h
          · exact absurd h (by simp)
          · split at h
            · exact absurd h (by simp)
            · split at h
              · simp only [Option.some.injEq, Prod.mk.injEq] at h
                obtain ⟨h1, -⟩ := h
                rw [← h1]
                push_cast
                omega
              · simp only [Option.some.injEq, Prod.mk.injEq] at h
                obtain ⟨h1, -⟩ := h
                rw [← h1]
                push_cast
                omega
      · exact absurd h (by simp)

theorem parseSQLite_wf (cs : List Char) (t : Time) (h : Time.parseSQLite cs = some t) :
    t.nsec < 1000000000 ∧ ∀ tz : Zone, t.offset tz % 60 = 0 := by
  unfold Time.parseSQLite at h
  split at h
  · exact absurd h (by simp)
  split at h
  · exact absurd h (by simp)
  split at h
  · exact absurd h (by simp)
  split at h
  · exact absurd h (by simp)
  split at h
  · exact absurd h (by simp)
  split at h
  · exact absurd h (by simp)
  split at h
  · exact absurd h (by simp)
  split at h
  · exact absurd h (by simp)
  rename_i hz
  split at h
  · exact absurd h (by simp)
  have ht := (Option.some.inj h).symm
  subst ht
  refine ⟨readNano_lt _, fun tz => ?_⟩
  have hm := readZone_mod _ _ _ hz
  simp only [Time.offset]
  split_ifs with h0
  · rfl
  · exact hm

theorem scanText_wf (cs : List Char) :
    (Time.scanText cs).nsec < 1000000000 ∧ ∀ tz : Zone, (Time.scanText cs).offset tz % 60 = 0 := by
  unfold Time.scanText
  cases h : Time.parseSQLite (Time.trimSuffixZ cs) with
  | none => exact ⟨by decide, fun _ => rfl⟩
  | some t => exact parseSQLite_wf _ t h

theorem toDigits_length_ge (n : Nat) (h : 10000 ≤ n) : 5 ≤ (Nat.toDigits 10 n).length := by
  by_contra hlt
  have h1 := digitsValue_lt (Nat.toDigits 10 n) (toDigits_all_digit n)
  rw [digitsValue_toDigits] at h1
  have h2 : 10 ^ (Nat.toDigits 10 n).length ≤ 10 ^ 4 :=
    Nat.pow_le_pow_right (by decide) (by omega)
  have h3 : (10 : Nat) ^ 4 = 10000 := by norm_num
  omega

theorem parseSQLite_year_out (y : Int) (rest : List Char) (h : y < 0 ∨ 9999 < y) :
    Time.parseSQLite (Time.appendInt y 4 ++ rest) = none := by
  rcases h with h | h
  · have hx : Time.appendInt y 4 ++ rest = '-' ::
        ((List.replicate (4 - (Nat.toDigits 10 y.natAbs).length) '0' ++
          Nat.toDigits 10 y.natAbs) ++ rest) := by
      simp [Time.appendInt, h]
    rw [hx]
    have hf : readFixed 4 ('-' ::
        ((List.replicate (4 - (Nat.toDigits 10 y.natAbs).length) '0' ++
          Nat.toDigits 10 y.natAbs) ++ rest)) = none := by
      unfold readFixed
      rw [if_neg]
      intro hc
      have := hc.2
      simp [List.take_succ_cons] at this
    simp only [Time.parseSQLite, hf]
  · have hlen := toDigits_length_ge y.natAbs (by omega)
    have hd := toDigits_all_digit y.natAbs
    have hx : Time.appendInt y 4 = Nat.toDigits 10 y.natAbs := by
      rw [appendInt_nonneg y 4 (by omega)]
      have : 4 - (Nat.toDigits 10 y.natAbs).length = 0 := by omega
      rw [this]
      rfl
    rw [hx]
    match hT : Nat.toDigits 10 y.natAbs, hlen, hd with
    | a :: b :: c :: d :: e :: more, _, hd =>
        have hf : readFixed 4 (a :: b :: c :: d :: e :: more ++ rest) =
            some (digitsValue [a, b, c, d], e :: (more ++ rest)) :=
          readFixed_of_digits [a, b, c, d] (e :: (more ++ rest)) 4 rfl
            (fun x hx => hd x (by
              simp only [List.mem_cons, List.mem_singleton, List.not_mem_nil, or_false] at hx
              simp only [List.mem_cons]
              tauto))
        have he : e ≠ '-' := by
          intro h; have := hd e (by simp); rw [h] at this; exact absurd this (by decide)
        have hg : readField ['-'] 2 (e :: (more ++ rest)) = none := by
          simp only [readField, expect]
          rw [if_neg (Ne.symm he)]
        simp only [Time.parseSQLite, hf, hg]

theorem scanText_year_out (tz : Zone) (t : Time)
    (h : (Time.civil (t.wall tz / 86400)).1 < 0 ∨ 9999 < (Time.civil (t.wall tz / 86400)).1) :
    Time.scanText (Time.sqliteText tz t) = Time.zero := by
  unfold Time.scanText
  rw [trimSuffixZ_sqliteText]
  have : Time.sqliteText tz t = Time.appendInt (Time.civil (t.wall tz / 86400)).1 4 ++
      ('-' :: (Time.appendInt (Time.civil (t.wall tz / 86400)).2.1 2 ++
      ('-' :: (Time.appendInt (Time.civil (t.wall tz / 86400)).2.2 2 ++
      (' ' :: (Time.appendInt (t.wall tz % 86400 / 3600) 2 ++
      (':' :: (Time.appendInt (t.wall tz % 86400 % 3600 / 60) 2 ++
      (':' :: Time.appendInt (t.wall tz % 86400 % 60) 2))))))))) ++
      (Time.appendNano t.nsec ++ Time.appendZone (t.offset tz)) := by
    simp [Time.sqliteText, Time.appendDateTime]
  rw [this, List.append_assoc, parseSQLite_year_out _ _ h]

/-! ### The order of the stored texts -/

theorem textLT_irrefl (a : List Char) : Time.textLT a a = false := by
  induction a with
  | nil => rfl
  | cons x a ih => simp [Time.textLT, ih]

theorem textLT_asymm (a b : List Char) (h : Time.textLT a b = true) :
    Time.textLT b a = false := by
  induction a generalizing b with
  | nil => cases b <;> simp [Time.textLT] at h ⊢
  | cons x a ih =>
      cases b with
      | nil => simp [Time.textLT] at h
      | cons y b =>
          simp only [Time.textLT] at h ⊢
          split_ifs at h ⊢ with h1 h2 h3
          all_goals first
            | omega
            | rfl
            | exact ih b h

theorem textLT_negtrans (a b c : List Char) (h : Time.textLT a c = true) :
    Time.textLT a b = true ∨ Time.textLT b c = true := by
  induction a generalizing b c with
  | nil =>
      cases c with
      | nil => simp [Time.textLT] at h
      | cons z c =>
          cases b with
          | nil => right; rfl
          | cons y b => left; rfl
  | cons x a ih =>
      cases c with
      | nil => simp [Time.textLT] at h
      | cons z c =>
          cases b with
          | nil => right; rfl
          | cons y b =>
              simp only [Time.textLT] at h ⊢
              split_ifs at h ⊢ with h1 h2 h3 h4 h5 h6
              all_goals first
                | omega
                | (left; rfl)
                | (right; rfl)
                | exact ih b c h

theorem textLE_total (a b : List Char) : Time.textLE a b = true ∨ Time.textLE b a = true := by
  unfold Time.textLE
  cases h : Time.textLT b a with
  | false => left; rfl
  | true => right; rw [textLT_asymm b a h]; rfl

theorem textLE_trans (a b c : List Char) (h1 : Time.textLE a b = true)
    (h2 : Time.textLE b c = true) : Time.textLE a c = true := by
  unfold Time.textLE at *
  cases h : Time.textLT c a with
  | false => rfl
  | true =>
      rcases textLT_negtrans c b a h with h3 | h3
      · rw [h3] at h2; exact absurd h2 (by simp)
      · rw [h3] at h1; exact absurd h1 (by simp)

theorem storedDesc_total (tz : Zone) : IsTotal database.Event (database.Event.storedDesc tz) :=
  ⟨fun _ _ => textLE_total _ _⟩

theorem storedDesc_trans (tz : Zone) : IsTrans database.Event (database.Event.storedDesc tz) :=
  ⟨fun _ _ _ hab hbc => textLE_trans _ _ _ hbc hab⟩

end ScanLemmas

section RoundTripLemmas
open json reader

theorem readStringBody_goString (s : GoString) (rest : List Char) :
    readStringBody (s.flatMap escapeGoChar ++ '"' :: rest) =
      some (s.map (fun c => match c with
        | .rune c => c
        | .byte _ => '�'), rest) := by
  induction s with
  | nil => simp [readStringBody, readStringFrom]
  | cons c s ih =>
      rw [List.flatMap_cons, List.append_assoc]
      exact readStringBody_escapeGoChar c _ _ rest ih

theorem readStringField_appendString (lit : List Char) (s : GoString) (rest : List Char) :
    readStringField lit (lit ++ (appendString s ++ rest)) = some (replaceInvalid s, rest) := by
  unfold readStringField
  rw [expect_append]
  simp only [appendString, List.cons_append, List.append_assoc, readString, if_true,
    List.singleton_append]
  rw [readStringBody_goString]
  simp only [Option.some.injEq, Prod.mk.injEq, replaceInvalid, List.map_map]
  refine ⟨?_, rfl⟩
  congr 1
  funext c
  cases c <;> rfl

theorem readOffset_Z (rest : List Char) : readOffset ('Z' :: '"' :: rest) = some (none, rest) := by
  simp [readOffset, expect]

theorem readOffset_appendZone (o : Int) (rest : List Char) (h60 : o % 60 = 0)
    (hh : ((o.natAbs / 60 : Nat) : Int) / 60 < 24) :
    readOffset ((if o ≤ -60 then '-' else '+') ::
      (Time.appendInt (((o.natAbs / 60 : Nat) : Int) / 60) 2 ++
        (':' :: (Time.appendInt (((o.natAbs / 60 : Nat) : Int) % 60) 2 ++ '"' :: rest)))) =
      some (some o, rest) := by
  have hlo : -90000 < o := by omega
  have hhi : o < 90000 := by omega
  obtain ⟨n, hn1, hn2, hn3⟩ := zone_minutes o hlo hhi
  rw [hn1] at hh ⊢
  have e1 := fun r => readFixed_appendInt ((n : Int) / 60) 2 r (by omega)
    (by norm_num; omega) (by decide)
  have e2 := fun r => readField_char_appendInt ':' ((n : Int) % 60) 2 r (by omega)
    (by norm_num; omega) (by decide)
  have e3 : ∀ r : List Char, expect ['"'] ('"' :: r) = some r := fun r => expect_append ['"'] r
  have hr : ¬ (24 ≤ ((n : Int) / 60).natAbs ∨ 60 ≤ ((n : Int) % 60).natAbs) := by omega
  have hval : ((((((n : Int) / 60).natAbs * 60 + ((n : Int) % 60).natAbs) * 60 : Nat)) : Int) =
      (n : Int) * 60 := by omega
  by_cases hneg : o ≤ -60
  · rw [if_pos hneg]
    simp only [readOffset, e1, e2, e3, if_neg hr, hval]
    simp
    omega
  · rw [if_neg hneg]
    simp only [readOffset, e1, e2, e3, if_neg hr, hval]
    simp
    omega

theorem readTime_MarshalTime (tz : Zone) (t : Time) (ts rest : List Char)
    (hn : t.nsec < 1000000000) (h60 : t.offset tz % 60 = 0)
    (h : MarshalTime tz t = .ok ts) : readTime tz (ts ++ rest) = some (reread tz t, rest) := by
  unfold MarshalTime at h
  split at h
  · exact absurd h (by simp)
  rename_i hy
  split at h
  · exact absurd h (by simp)
  rename_i hz
  have hts := (Except.ok.inj h).symm
  subst hts
  have hwall : t.wall tz = t.sec + t.offset tz := rfl
  unfold reread
  generalize t.wall tz = w at *
  generalize t.offset tz = o at *
  obtain ⟨hm1, hm2, hd1, hd2, hday⟩ := civil_spec (w / 86400)
  have hdin := civil_day_le_daysIn (w / 86400)
  obtain ⟨c1, c2, c3, c4, c5, c6, c7⟩ := clock_parts w
  have hy0 : 0 ≤ (Time.civil (w / 86400)).1 := by omega
  have e1 := fun r => readField_char_appendInt '"' (Time.civil (w / 86400)).1 4 r hy0
    (by norm_num; omega) (by decide)
  have e2 := fun r => readField_char_appendInt '-' (Time.civil (w / 86400)).2.1 2 r
    (by omega) (by norm_num; omega) (by decide)
  have e3 := fun r => readField_char_appendInt '-' (Time.civil (w / 86400)).2.2 2 r
    (by omega) (by norm_num; omega) (by decide)
  have e4 := fun r => readField_char_appendInt 'T' (w % 86400 / 3600) 2 r
    c1 (by norm_num; omega) (by decide)
  have e5 := fun r => readField_char_appendInt ':' (w % 86400 % 3600 / 60) 2 r
    c3 (by norm_num; omega) (by decide)
  have e6 := fun r => readField_char_appendInt ':' (w % 86400 % 60) 2 r
    c5 (by norm_num; omega) (by decide)
  have hy : (((Time.civil (w / 86400)).1.natAbs : Nat) : Int) = (Time.civil (w / 86400)).1 :=
    Int.natAbs_of_nonneg hy0
  have hm : (((Time.civil (w / 86400)).2.1.natAbs : Nat) : Int) = (Time.civil (w / 86400)).2.1 :=
    Int.natAbs_of_nonneg (by omega)
  have hd : (((Time.civil (w / 86400)).2.2.natAbs : Nat) : Int) = (Time.civil (w / 86400)).2.2 :=
    Int.natAbs_of_nonneg (by omega)
  have hchk : ¬ ((Time.civil (w / 86400)).2.1.natAbs < 1 ∨ 12 < (Time.civil (w / 86400)).2.1.natAbs ∨
      24 ≤ (w % 86400 / 3600).natAbs ∨ 60 ≤ (w % 86400 % 3600 / 60).natAbs ∨
      60 ≤ (w % 86400 % 60).natAbs ∨ (Time.civil (w / 86400)).2.2.natAbs < 1 ∨
      Time.daysIn (((Time.civil (w / 86400)).2.1.natAbs : Nat) : Int)
        (((Time.civil (w / 86400)).1.natAbs : Nat) : Int) <
        (((Time.civil (w / 86400)).2.2.natAbs : Nat) : Int)) := by
    rw [hy, hm, hd]
    omega
  have hunix : Time.unixOfCivil (Time.civil (w / 86400)).1.natAbs
      (Time.civil (w / 86400)).2.1.natAbs (Time.civil (w / 86400)).2.2.natAbs
      (w % 86400 / 3600).natAbs (w % 86400 % 3600 / 60).natAbs (w % 86400 % 60).natAbs = w := by
    unfold Time.unixOfCivil
    rw [hy, hm, hd, hday, Int.natAbs_of_nonneg c1, Int.natAbs_of_nonneg c3,
      Int.natAbs_of_nonneg c5]
    omega
  by_cases ho : o = 0
  · subst ho
    have e7 := fun r => json_readNano_appendNano t.nsec 'Z' r hn (by decide) (by decide)
    simp only [Time.appendDateTime, if_true, List.cons_append, List.append_assoc,
      List.nil_append, readTime, e1, e2, e3, e4, e5, e6, e7, readOffset_Z, if_neg hchk, hunix]
    have hsec : w = t.sec := by omega
    rw [hsec]
  · have hh : ((o.natAbs / 60 : Nat) : Int) / 60 < 24 := by
      by_contra hc
      exact hz ⟨ho, by omega⟩
    have e7 : ∀ r : List Char,
        json.readNano (Time.appendNano t.nsec ++ (if o ≤ -60 then '-' else '+') :: r) =
          (t.nsec, (if o ≤ -60 then '-' else '+') :: r) := by
      intro r
      by_cases hneg : o ≤ -60
      · simp only [hneg, if_true]
        exact json_readNano_appendNano t.nsec '-' r hn (by decide) (by decide)
      · simp only [hneg, if_false]
        exact json_readNano_appendNano t.nsec '+' r hn (by decide) (by decide)
    have e8 := fun r => readOffset_appendZone o r h60 hh
    have hsec : w - o = t.sec := by omega
    simp only [Time.appendDateTime, Time.appendZone, if_neg ho, List.cons_append,
      List.append_assoc, List.nil_append, readTime, e1, e2, e3, e4, e5, e6, e7, e8, if_neg hchk,
      hunix, hsec]

theorem readEvent_marshalEvent (tz : Zone) (e : database.Event) (enc rest : List Char)
    (hn : e.Timestamp.nsec < 1000000000) (h60 : e.Timestamp.offset tz % 60 = 0)
    (h : marshalEvent tz e = .ok enc) :
    readEvent tz (enc ++ rest) = some (rereadEvent tz e, rest) := by
  unfold marshalEvent at h
  cases hts : MarshalTime tz e.Timestamp with
  | error err => rw [hts] at h; exact absurd h (by simp)
  | ok ts =>
      rw [hts] at h
      have henc := (Except.ok.inj h).symm
      subst henc
      have hlit : keyUsername = ',' :: keyUsername.tail := by decide
      have e2 : ∀ r : List Char,
          readInt ((decimal e.ID).data ++ (keyUsername ++ r)) = some (e.ID, keyUsername ++ r) := by
        intro r
        rw [hlit]
        exact readInt_decimal e.ID ',' (keyUsername.tail ++ r) (by decide)
      have e7 := fun r => readTime_MarshalTime tz e.Timestamp ts r hn h60 hts
      unfold readEvent
      simp only [List.append_assoc, expect_append, e2, readStringField_appendString, e7,
        rereadEvent]

theorem marshalMore_cons (tz : Zone) (e : database.Event) (l : List database.Event) :
    marshalMore tz (e :: l) =
      match marshalEvent tz e with
      | .error err => .error err
      | .ok a =>
          match marshalMore tz l with
          | .error err => .error err
          | .ok b => .ok (separator ++ (a ++ b)) := rfl

theorem MarshalIndent_cons (tz : Zone) (e : database.Event) (l : List database.Event) :
    MarshalIndent tz (e :: l) =
      match marshalEvent tz e with
      | .error err => .error err
      | .ok a =>
          match marshalMore tz l with
          | .error err => .error err
          | .ok b => .ok (String.mk (openArray ++ (a ++ (b ++ closeArray)))) := rfl

theorem readEvents_marshalMore (tz : Zone) (l : List database.Event)
    (hn : ∀ e ∈ l, e.Timestamp.nsec < 1000000000 ∧ e.Timestamp.offset tz % 60 = 0)
    (e : database.Event)
    (he : e.Timestamp.nsec < 1000000000 ∧ e.Timestamp.offset tz % 60 = 0) (a b : List Char)
    (ha : marshalEvent tz e = .ok a) (hb : marshalMore tz l = .ok b) (fuel : Nat)
    (hf : l.length < fuel) :
    readEvents tz fuel (a ++ (b ++ closeArray)) = some ((e :: l).map (rereadEvent tz)) := by
  induction l generalizing e a b fuel with
  | nil =>
      cases fuel with
      | zero => omega
      | succ fuel =>
          have hb' : b = [] := (Except.ok.inj hb).symm
          subst hb'
          have hr := readEvent_marshalEvent tz e a closeArray he.1 he.2 ha
          have h1 : expect separator closeArray = none := by decide
          have h2 : expect closeArray closeArray = some [] := by decide
          simp only [readEvents, List.nil_append, hr, h1, h2, List.map_cons, List.map_nil]
  | cons e2 l ih =>
      cases fuel with
      | zero => omega
      | succ fuel =>
          rw [marshalMore_cons] at hb
          cases ha2 : marshalEvent tz e2 with
          | error err => rw [ha2] at hb; exact absurd hb (by simp)
          | ok a2 =>
              cases hb2 : marshalMore tz l with
              | error err => rw [ha2, hb2] at hb; exact absurd hb (by simp)
              | ok b2 =>
                  rw [ha2, hb2] at hb
                  have hbody := (Except.ok.inj hb).symm
                  subst hbody
                  have hr := fun r => readEvent_marshalEvent tz e a r he.1 he.2 ha
                  have ih' := ih (fun x hx => hn x (List.mem_cons_of_mem _ hx)) e2
                    (hn e2 (List.mem_cons_self _ _)) a2 b2 ha2 hb2 fuel
                    (by simp only [List.length_cons] at hf; omega)
                  simp only [readEvents, List.append_assoc, hr, expect_append, ih',
                    List.map_cons]

theorem marshalMore_length (tz : Zone) (l : List database.Event) (b : List Char)
    (h : marshalMore tz l = .ok b) : l.length ≤ b.length := by
  induction l generalizing b with
  | nil => simp
  | cons e l ih =>
      rw [marshalMore_cons] at h
      cases ha : marshalEvent tz e with
      | error err => rw [ha] at h; exact absurd h (by simp)
      | ok a =>
          cases hb : marshalMore tz l with
          | error err => rw [ha, hb] at h; exact absurd h (by simp)
          | ok b2 =>
              rw [ha, hb] at h
              have hbody := (Except.ok.inj h).symm
              subst hbody
              have h2 := ih b2 hb
              have h3 : separator.length = 4 := by decide
              simp only [List.length_append, List.length_cons, h3]
              omega

theorem Unmarshal_MarshalIndent (tz : Zone) (l : List database.Event)
    (hn : ∀ e ∈ l, e.Timestamp.nsec < 1000000000 ∧ e.Timestamp.offset tz % 60 = 0)
    (data : String) (h : MarshalIndent tz l = .ok data) :
    Unmarshal tz data = some (l.map (rereadEvent tz)) := by
  cases l with
  | nil =>
      have hd : data = "null" := (Except.ok.inj h).symm
      subst hd
      rfl
  | cons e l =>
      rw [MarshalIndent_cons] at h
      cases ha : marshalEvent tz e with
      | error err => rw [ha] at h; exact absurd h (by simp)
      | ok a =>
          cases hb : marshalMore tz l with
          | error err => rw [ha, hb] at h; exact absurd h (by simp)
          | ok b =>
              rw [ha, hb] at h
              have hd := (Except.ok.inj h).symm
              subst hd
              have hlen := marshalMore_length tz _ _ hb
              have hnull : (String.mk (openArray ++ (a ++ (b ++ closeArray)))) ≠ "null" := by
                intro hEq
                have h1 := congrArg String.data hEq
                have h2 : openArray = '[' :: openArray.tail := by decide
                have h3 : "null".data = 'n' :: "ull".data := rfl
                rw [h2] at h1
                simp only [List.cons_append, h3] at h1
                exact absurd (List.cons.inj h1).1 (by decide)
              unfold Unmarshal
              rw [if_neg hnull]
              simp only [expect_append]
              apply readEvents_marshalMore tz l (fun x hx => hn x (List.mem_cons_of_mem _ hx)) e
                (hn e (List.mem_cons_self _ _)) a b ha hb
              have h3 : openArray.length = 4 := by decide
              simp only [String.length, List.length_append, h3]
              omega

theorem chars_ofString (s : String) : GoString.chars (GoString.ofString s) = some s.data := by
  unfold GoString.ofString
  induction s.data with
  | nil => rfl
  | cons c cs ih => simp [GoString.chars, ih]

theorem parseSQLite_loc (cs : List Char) (t : Time) (h : Time.parseSQLite cs = some t) :
    t.loc ≠ Location.Local := by
  unfold Time.parseSQLite at h
  split at h
  · exact absurd h (by simp)
  split at h
  · exact absurd h (by simp)
  split at h
  · exact absurd h (by simp)
  split at h
  · exact absurd h (by simp)
  split at h
  · exact absurd h (by simp)
  split at h
  · exact absurd h (by simp)
  split at h
  · exact absurd h (by simp)
  split at h
  · exact absurd h (by simp)
  split at h
  · exact absurd h (by simp)
  have ht := (Option.some.inj h).symm
  subst ht
  simp only
  split_ifs <;> simp

theorem scanText_loc (cs : List Char) : (Time.scanText cs).loc ≠ Location.Local := by
  unfold Time.scanText
  cases h : Time.parseSQLite (Time.trimSuffixZ cs) with
  | none => simp [Time.zero]
  | some t => exact parseSQLite_loc _ t h

theorem offset_eq_of_not_local (t : Time) (h : t.loc ≠ Location.Local) (tz tz2 : Zone) :
    t.offset tz = t.offset tz2 := by
  unfold Time.offset
  cases hl : t.loc with
  | UTC => rfl
  | Local => exact absurd hl h
  | fixed o => rfl

theorem MarshalTime_zone (t : Time) (h : t.loc ≠ Location.Local) (tz tz2 : Zone) :
    MarshalTime tz t = MarshalTime tz2 t := by
  unfold MarshalTime Time.wall
  rw [offset_eq_of_not_local t h tz tz2]

theorem marshalEvent_zone (e : database.Event) (h : e.Timestamp.loc ≠ Location.Local)
    (tz tz2 : Zone) : marshalEvent tz e = marshalEvent tz2 e := by
  unfold marshalEvent
  rw [MarshalTime_zone _ h tz tz2]

theorem marshalMore_zone (l : List database.Event)
    (h : ∀ e ∈ l, e.Timestamp.loc ≠ Location.Local) (tz tz2 : Zone) :
    marshalMore tz l = marshalMore tz2 l := by
  induction l with
  | nil => rfl
  | cons e l ih =>
      rw [marshalMore_cons, marshalMore_cons, marshalEvent_zone e (h e (List.mem_cons_self _ _)) tz tz2,
        ih (fun x hx => h x (List.mem_cons_of_mem _ hx))]

theorem MarshalIndent_zone (l : List database.Event)
    (h : ∀ e ∈ l, e.Timestamp.loc ≠ Location.Local) (tz tz2 : Zone) :
    MarshalIndent tz l = MarshalIndent tz2 l := by
  cases l with
  | nil => rfl
  | cons e l =>
      rw [MarshalIndent_cons, MarshalIndent_cons,
        marshalEvent_zone e (h e (List.mem_cons_self _ _)) tz tz2,
        marshalMore_zone l (fun x hx => h x (List.mem_cons_of_mem _ hx)) tz tz2]

theorem scan_wf (tz tz2 : Zone) (l : List database.Event) :
    ∀ e ∈ l.map (database.Event.scan tz),
      e.Timestamp.nsec < 1000000000 ∧ e.Timestamp.offset tz2 % 60 = 0 := by
  intro e he
  obtain ⟨r, -, rfl⟩ := List.mem_map.mp he
  exact ⟨(scanText_wf _).1, (scanText_wf _).2 tz2⟩

theorem scan_loc (tz : Zone) (l : List database.Event) :
    ∀ e ∈ l.map (database.Event.scan tz), e.Timestamp.loc ≠ Location.Local := by
  intro e he
  obtain ⟨r, -, rfl⟩ := List.mem_map.mp he
  exact scanText_loc _

theorem ReadJSON_ExportToJSON (d : database.DB) (tz tz2 : Zone) (u : GoString) (path : String)
    (fs : database.Files) (hok : (d.ExportToJSON tz none none u path fs).1 = none) :
    ∃ events : List database.Event,
      d.GetEventsByUsername tz none u = .ok events ∧
      (∀ e ∈ events, e.Timestamp.loc ≠ Location.Local) ∧
      database.ReadJSON tz2 (d.ExportToJSON tz none none u path fs).2 path =
        some (events.map (rereadEvent tz2)) := by
  refine ⟨_, rfl, scan_loc tz _, ?_⟩
  unfold database.DB.ExportToJSON at hok ⊢
  simp only [database.DB.GetEventsByUsername] at hok ⊢
  cases hm : json.MarshalIndent tz
      (((d.rows.filter (fun e => e.Username = u)).insertionSort
        (database.Event.storedDesc tz)).map (database.Event.scan tz)) with
  | error err =>
      rw [hm] at hok
      exact absurd hok (by simp)
  | ok data =>
      rw [MarshalIndent_zone _ (scan_loc tz _) tz tz2] at hm
      have hu := Unmarshal_MarshalIndent tz2 _ (scan_wf tz tz2 _) data hm
      simp only [database.WriteFile, database.ReadJSON, if_true, chars_ofString]
      exact hu

end RoundTripLemmas

section TextLemmas

theorem digitChar_ne_newline (k : Nat) (h : k < 10) : Nat.digitChar k ≠ '\n' := by
  interval_cases k <;> decide

theorem toDigitsCore_no_newline (fuel n : Nat) (ds : List Char) (h : '\n' ∉ ds) :
    '\n' ∉ Nat.toDigitsCore 10 fuel n ds := by
  induction fuel generalizing n ds with
  | zero => simpa [Nat.toDigitsCore] using h
  | succ fuel ih =>
      have hd : '\n' ∉ Nat.digitChar (n % 10) :: ds := by
        intro hmem
        rcases List.mem_cons.mp hmem with h1 | h1
        · exact digitChar_ne_newline (n % 10) (Nat.mod_lt _ (by decide)) h1.symm
        · exact h h1
      simp only [Nat.toDigitsCore]
      split
      · exact hd
      · exact ih _ _ hd

theorem appendInt_no_newline (x : Int) (w : Nat) : '\n' ∉ Time.appendInt x w := by
  unfold Time.appendInt
  intro hmem
  rcases List.mem_append.mp hmem with h1 | h1
  · split at h1 <;> simp at h1
  · rcases List.mem_append.mp h1 with h2 | h2
    · have := List.eq_of_mem_replicate h2
      simp at this
    · exact toDigitsCore_no_newline _ _ [] (by simp) h2

theorem appendInt_count_newline (x : Int) (w : Nat) : (Time.appendInt x w).count '\n' = 0 :=
  List.count_eq_zero.mpr (appendInt_no_newline x w)


theorem lineCount_append (a b : GoString) :
    database.lineCount (a ++ b) = database.lineCount a + database.lineCount b := by
  simp [database.lineCount, List.count_append]

theorem lineCount_ofString (s : String) :
    database.lineCount (GoString.ofString s) = s.data.count '\n' := by
  unfold database.lineCount GoString.ofString
  induction s.data with
  | nil => rfl
  | cons c cs ih =>
      simp only [List.map_cons, List.count_cons, ih]
      congr 1
      by_cases h : c = '\n'
      · subst h; rfl
      · have h2 : ¬ (GoChar.rune c = GoChar.rune '\n') := fun hh => h (GoChar.rune.inj hh)
        simp [h, h2]

theorem lineCount_FormatDateTime (tz : Zone) (t : Time) :
    database.lineCount (GoString.ofString (t.FormatDateTime tz)) = 0 := by
  rw [lineCount_ofString]
  unfold Time.FormatDateTime Time.appendDateTime
  simp [List.count_append, List.count_cons, appendInt_count_newline]

theorem lineCount_txtLine (tz : Zone) (e : database.Event) :
    database.lineCount (database.txtLine tz e) =
      1 + (database.lineCount e.Type_ + database.lineCount e.Content) := by
  unfold database.txtLine
  simp only [lineCount_append, lineCount_FormatDateTime]
  have h1 : database.lineCount (GoString.ofString "[") = 0 := by decide
  have h2 : database.lineCount (GoString.ofString "] ") = 0 := by decide
  have h3 : database.lineCount (GoString.ofString ": ") = 0 := by decide
  have h4 : database.lineCount (GoString.ofString "\n") = 1 := by decide
  rw [h1, h2, h3, h4]
  omega

theorem foldl_append_eq_flatMap {α β : Type} (f : α → List β) (l : List α) (acc : List β) :
    l.foldl (fun content a => content ++ f a) acc = acc ++ l.flatMap f := by
  induction l generalizing acc with
  | nil => simp
  | cons a l ih =>
      simp only [List.foldl, List.flatMap_cons]
      rw [ih, List.append_assoc]

theorem lineCount_flatMap_txtLine (tz : Zone) (l : List database.Event) :
    database.lineCount (l.flatMap (database.txtLine tz)) =
      l.length +
        (l.map (fun e => database.lineCount e.Type_ + database.lineCount e.Content)).sum := by
  induction l with
  | nil => rfl
  | cons e l ih =>
      simp only [List.flatMap_cons, List.map, lineCount_append, lineCount_txtLine, ih,
        List.length_cons, List.sum_cons]
      omega

theorem replaceInvalid_of_chars (s : GoString) (h : (GoString.chars s).isSome = true) :
    json.replaceInvalid s = s := by
  induction s with
  | nil => rfl
  | cons c s ih =>
      cases c with
      | rune c =>
          simp only [GoString.chars] at h
          cases hs : GoString.chars s with
          | none => rw [hs] at h; exact absurd h (by simp)
          | some cs =>
              have := ih (by rw [hs]; rfl)
              simp only [json.replaceInvalid, List.map_cons] at this ⊢
              rw [this]
      | byte b => simp [GoString.chars] at h

theorem offset_reread (tz : Zone) (t : Time) :
    (json.reread tz t).offset tz = t.offset tz := by
  generalize ho : t.offset tz = o
  have hr : json.reread tz t =
      { sec := t.sec, nsec := t.nsec,
        loc := if o = 0 then Location.UTC
               else if tz t.sec = o then Location.Local else Location.fixed o } := by
    unfold json.reread
    rw [ho]
  rw [hr]
  by_cases h0 : o = 0
  · rw [if_pos h0, h0]; rfl
  · by_cases h1 : tz t.sec = o
    · rw [if_neg h0, if_pos h1]; exact h1
    · rw [if_neg h0, if_neg h1]; rfl

end TextLemmas

section OrderLemmas
open reader

theorem daysFromCivil_jan1 (y : Int) :
    Time.daysFromCivil y 1 1 =
      365 * (y - 1) + (y - 1) / 4 - (y - 1) / 100 + (y - 1) / 400 - 719162 := by
  simp only [Time.daysFromCivil]
  norm_num
  omega

theorem year_step (y : Int) :
    365 * y + y / 4 - y / 100 + y / 400 =
      365 * (y - 1) + (y - 1) / 4 - (y - 1) / 100 + (y - 1) / 400 + 365 +
        (if y % 4 = 0 ∧ (y % 100 ≠ 0 ∨ y % 400 = 0) then 1 else 0) := by
  split_ifs with h <;> omega

theorem year_mono (a b : Int) (h : a ≤ b) :
    365 * a + a / 4 - a / 100 + a / 400 ≤ 365 * b + b / 4 - b / 100 + b / 400 := by
  omega

theorem month_days (m : Int) (h1 : 1 ≤ m) (h2 : m ≤ 12) :
    (if m > 2 then (153 * (m - 3) + 2) / 5 + 61 else (153 * (m + 9) + 2) / 5 - 306) =
      (367 * m - 362) / 12 := by
  have hc : m = 1 ∨ m = 2 ∨ m = 3 ∨ m = 4 ∨ m = 5 ∨ m = 6 ∨ m = 7 ∨ m = 8 ∨ m = 9 ∨
      m = 10 ∨ m = 11 ∨ m = 12 := by omega
  rcases hc with h | h | h | h | h | h | h | h | h | h | h | h <;> subst h <;> decide

/-- The day number of a date as Go counts it: the days to January 1 of the year,
the days of the months before, one more after February in a leap year, and the
day of the month. -/
theorem daysFromCivil_eq (y m d : Int) (h1 : 1 ≤ m) (h2 : m ≤ 12) :
    Time.daysFromCivil y m d =
      365 * (y - 1) + (y - 1) / 4 - (y - 1) / 100 + (y - 1) / 400 - 719162 +
        ((367 * m - 362) / 12 +
          (if m ≤ 2 then 0 else if Time.isLeap y = true then -1 else -2)) + (d - 1) := by
  have hs := year_step y
  have hm := month_days m h1 h2
  simp only [Time.isLeap, decide_eq_true_eq]
  by_cases h : m ≤ 2
  · have h3 : ¬ (m > 2) := by omega
    simp only [Time.daysFromCivil, h, h3, if_true, if_false] at hm ⊢
    omega
  · have h3 : m > 2 := by omega
    simp only [Time.daysFromCivil, h, h3, if_true, if_false] at hm ⊢
    split_ifs at hs ⊢ <;> omega

theorem rank_succ (m y : Int) (h1 : 1 ≤ m) (h2 : m ≤ 11) :
    (367 * m - 362) / 12 + (if m ≤ 2 then 0 else if Time.isLeap y = true then -1 else -2) +
        Time.daysIn m y =
      (367 * (m + 1) - 362) / 12 +
        (if m + 1 ≤ 2 then 0 else if Time.isLeap y = true then -1 else -2) := by
  have hc : m = 1 ∨ m = 2 ∨ m = 3 ∨ m = 4 ∨ m = 5 ∨ m = 6 ∨ m = 7 ∨ m = 8 ∨ m = 9 ∨
      m = 10 ∨ m = 11 := by omega
  cases hl : Time.isLeap y <;>
    rcases hc with h | h | h | h | h | h | h | h | h | h | h <;> subst h <;>
    simp only [Time.daysIn, hl] <;> decide

theorem rank_mono (m m' y : Int) (h1 : 1 ≤ m) (h2 : m ≤ m') (h3 : m' ≤ 12) :
    (367 * m - 362) / 12 + (if m ≤ 2 then 0 else if Time.isLeap y = true then -1 else -2) ≤
      (367 * m' - 362) / 12 +
        (if m' ≤ 2 then 0 else if Time.isLeap y = true then -1 else -2) := by
  split_ifs <;> omega

theorem rank_bound (m y : Int) (h1 : 1 ≤ m) (h2 : m ≤ 12) :
    (367 * m - 362) / 12 + (if m ≤ 2 then 0 else if Time.isLeap y = true then -1 else -2) +
        Time.daysIn m y ≤
      365 + (if Time.isLeap y = true then 1 else 0) := by
  by_cases h : m = 12
  · subst h
    cases hl : Time.isLeap y <;> simp only [Time.daysIn, hl] <;> decide
  · have hs := rank_succ m y h1 (by omega)
    have hm := rank_mono (m + 1) 12 y (by omega) (by omega) (by omega)
    rw [hs]
    refine le_trans hm ?_
    cases hl : Time.isLeap y <;> decide

theorem daysFromCivil_lex (y m d y' m' d' : Int) (h1 : 1 ≤ m) (h2 : m ≤ 12)
    (h3 : d ≤ Time.daysIn m y) (h1' : 1 ≤ m') (h2' : m' ≤ 12) (h3' : 1 ≤ d')
    (hlex : y < y' ∨ (y = y' ∧ (m < m' ∨ (m = m' ∧ d < d')))) :
    Time.daysFromCivil y m d < Time.daysFromCivil y' m' d' := by
  rw [daysFromCivil_eq y m d h1 h2, daysFromCivil_eq y' m' d' h1' h2']
  have hb := rank_bound m y h1 h2
  rcases hlex with h | ⟨rfl, h | ⟨rfl, h⟩⟩
  · have hs := year_step y
    have hm := year_mono y (y' - 1) (by omega)
    have h0 := rank_mono 1 m' y' (by omega) h1' h2'
    have hleap : (if Time.isLeap y = true then (1 : Int) else 0) =
        (if y % 4 = 0 ∧ (y % 100 ≠ 0 ∨ y % 400 = 0) then 1 else 0) := by
      simp only [Time.isLeap, decide_eq_true_eq]
    rw [hleap] at hb
    simp only [show ((1 : Int) ≤ 2) from by decide, if_true] at h0
    generalize (367 * m - 362) / 12 +
      (if m ≤ 2 then 0 else if Time.isLeap y = true then -1 else -2) = r at *
    generalize (367 * m' - 362) / 12 +
      (if m' ≤ 2 then 0 else if Time.isLeap y' = true then -1 else -2) = r' at *
    generalize (if y % 4 = 0 ∧ (y % 100 ≠ 0 ∨ y % 400 = 0) then (1 : Int) else 0) = l at *
    omega
  · have hs := rank_succ m y h1 (by omega)
    have hm := rank_mono (m + 1) m' y (by omega) (by omega) h2'
    generalize (367 * m - 362) / 12 +
      (if m ≤ 2 then 0 else if Time.isLeap y = true then -1 else -2) = r at *
    generalize (367 * m' - 362) / 12 +
      (if m' ≤ 2 then 0 else if Time.isLeap y = true then -1 else -2) = r' at *
    generalize (367 * (m + 1) - 362) / 12 +
      (if m + 1 ≤ 2 then 0 else if Time.isLeap y = true then -1 else -2) = r1 at *
    omega
  · omega

theorem civil_lt (z1 z2 : Int) (h : z1 < z2) :
    (Time.civil z1).1 < (Time.civil z2).1 ∨
      ((Time.civil z1).1 = (Time.civil z2).1 ∧
        ((Time.civil z1).2.1 < (Time.civil z2).2.1 ∨
          ((Time.civil z1).2.1 = (Time.civil z2).2.1 ∧
            (Time.civil z1).2.2 < (Time.civil z2).2.2))) := by
  obtain ⟨a1, a2, a3, -, a5⟩ := civil_spec z1
  obtain ⟨b1, b2, b3, -, b5⟩ := civil_spec z2
  have a6 := civil_day_le_daysIn z1
  have b6 := civil_day_le_daysIn z2
  by_contra hc
  have hle : Time.daysFromCivil (Time.civil z2).1 (Time.civil z2).2.1 (Time.civil z2).2.2 ≤
      Time.daysFromCivil (Time.civil z1).1 (Time.civil z1).2.1 (Time.civil z1).2.2 := by
    by_cases heq : (Time.civil z2).1 = (Time.civil z1).1 ∧
        (Time.civil z2).2.1 = (Time.civil z1).2.1 ∧ (Time.civil z2).2.2 = (Time.civil z1).2.2
    · rw [heq.1, heq.2.1, heq.2.2]
    · exact le_of_lt (daysFromCivil_lex _ _ _ _ _ _ b1 b2 b6 a1 a2 a3 (by omega))
  rw [a5, b5] at hle
  omega


theorem foldl_digits (acc : Nat) (cs : List Char) :
    cs.foldl (fun a c => 10 * a + (c.toNat - 48)) acc =
      acc * 10 ^ cs.length + cs.foldl (fun a c => 10 * a + (c.toNat - 48)) 0 := by
  induction cs generalizing acc with
  | nil => simp
  | cons c cs ih =>
      simp only [List.foldl, List.length_cons]
      rw [ih (10 * acc + (c.toNat - 48)), ih (10 * 0 + (c.toNat - 48))]
      ring

theorem digitsValue_cons (c : Char) (cs : List Char) :
    digitsValue (c :: cs) = (c.toNat - 48) * 10 ^ cs.length + digitsValue cs := by
  unfold digitsValue
  simp only [List.foldl]
  rw [foldl_digits]
  simp

theorem isDigit_bounds (c : Char) (h : c.isDigit = true) : 48 ≤ c.toNat ∧ c.toNat ≤ 57 := by
  simp only [Char.isDigit, Bool.and_eq_true, decide_eq_true_eq] at h
  have h1 : (48 : UInt32) ≤ c.val := h.1
  have h2 : c.val ≤ 57 := h.2
  have h3 : c.toNat = c.val.toNat := rfl
  have h4 := UInt32.le_def.mp h1
  have h5 := UInt32.le_def.mp h2
  constructor
  · rw [h3]; simpa using h4
  · rw [h3]; simpa using h5

theorem textLT_digits (A B x y : List Char) (hlen : A.length = B.length)
    (hA : ∀ c ∈ A, c.isDigit = true) (hB : ∀ c ∈ B, c.isDigit = true)
    (hv : digitsValue A < digitsValue B) : Time.textLT (A ++ x) (B ++ y) = true := by
  induction A generalizing B with
  | nil =>
      cases B with
      | nil => simp at hv
      | cons b B => simp at hlen
  | cons a A ih =>
      cases B with
      | nil => simp at hlen
      | cons b B =>
          simp only [List.length_cons, Nat.add_right_cancel_iff] at hlen
          rw [digitsValue_cons, digitsValue_cons, hlen] at hv
          have hA' := digitsValue_lt A (fun c hc => hA c (List.mem_cons_of_mem _ hc))
          have hB' := digitsValue_lt B (fun c hc => hB c (List.mem_cons_of_mem _ hc))
          rw [hlen] at hA'
          simp only [List.cons_append, Time.textLT]
          by_cases h1 : a.toNat < b.toNat
          · rw [if_pos h1]
          · rw [if_neg h1]
            by_cases h2 : b.toNat < a.toNat
            · exfalso
              have hb := isDigit_bounds b (hB b (List.mem_cons_self _ _))
              have hmul : (b.toNat - 48 + 1) * 10 ^ B.length ≤ (a.toNat - 48) * 10 ^ B.length :=
                Nat.mul_le_mul_right _ (by omega)
              rw [Nat.succ_mul] at hmul
              omega
            · rw [if_neg h2]
              have he : a.toNat = b.toNat := by omega
              rw [he] at hv
              exact ih B hlen (fun c hc => hA c (List.mem_cons_of_mem _ hc))
                (fun c hc => hB c (List.mem_cons_of_mem _ hc)) (by omega)

theorem textLT_cons_same (c : Char) (x y : List Char) :
    Time.textLT (c :: x) (c :: y) = Time.textLT x y := by
  simp [Time.textLT]

theorem textLT_append_left (A x y : List Char) :
    Time.textLT (A ++ x) (A ++ y) = Time.textLT x y := by
  induction A with
  | nil => rfl
  | cons a A ih => rw [List.cons_append, List.cons_append, textLT_cons_same, ih]

theorem field_lt (v1 v2 : Int) (w : Nat) (x y : List Char) (h0 : 0 ≤ v1) (h : v1 < v2)
    (h2 : v2 < 10 ^ w) (hw : 0 < w) :
    Time.textLT (Time.appendInt v1 w ++ x) (Time.appendInt v2 w ++ y) = true := by
  obtain ⟨l1, d1, e1⟩ := appendInt_spec v1 w h0 (by omega) hw
  obtain ⟨l2, d2, e2⟩ := appendInt_spec v2 w (by omega) h2 hw
  apply textLT_digits _ _ _ _ (by rw [l1, l2]) d1 d2
  rw [e1, e2]
  omega

theorem dateTime_lt (sep : Char) (y1 m1 d1 h1 i1 s1 y2 m2 d2 h2 i2 s2 : Int) (x y : List Char)
    (a1 : 0 ≤ y1) (a2 : 0 ≤ m1) (a3 : 0 ≤ d1) (a4 : 0 ≤ h1) (a5 : 0 ≤ i1) (a6 : 0 ≤ s1)
    (b1 : y2 ≤ 9999) (b2 : m2 < 100) (b3 : d2 < 100) (b4 : h2 < 100) (b5 : i2 < 100)
    (b6 : s2 < 100)
    (hlex : y1 < y2 ∨ (y1 = y2 ∧ (m1 < m2 ∨ (m1 = m2 ∧ (d1 < d2 ∨ (d1 = d2 ∧
      (h1 < h2 ∨ (h1 = h2 ∧ (i1 < i2 ∨ (i1 = i2 ∧ s1 < s2)))))))))) :
    Time.textLT
      (Time.appendInt y1 4 ++ ('-' :: (Time.appendInt m1 2 ++ ('-' :: (Time.appendInt d1 2 ++
        (sep :: (Time.appendInt h1 2 ++ (':' :: (Time.appendInt i1 2 ++
          (':' :: (Time.appendInt s1 2 ++ x)))))))))))
      (Time.appendInt y2 4 ++ ('-' :: (Time.appendInt m2 2 ++ ('-' :: (Time.appendInt d2 2 ++
        (sep :: (Time.appendInt h2 2 ++ (':' :: (Time.appendInt i2 2 ++
          (':' :: (Time.appendInt s2 2 ++ y))))))))))) = true := by
  have p4 : (10 : Int) ^ 4 = 10000 := by norm_num
  have p2 : (10 : Int) ^ 2 = 100 := by norm_num
  rcases hlex with h | ⟨rfl, h | ⟨rfl, h | ⟨rfl, h | ⟨rfl, h | ⟨rfl, h⟩⟩⟩⟩⟩
  · exact field_lt _ _ 4 _ _ a1 h (by omega) (by decide)
  · simp only [textLT_append_left, textLT_cons_same]
    exact field_lt _ _ 2 _ _ a2 h (by omega) (by decide)
  · simp only [textLT_append_left, textLT_cons_same]
    exact field_lt _ _ 2 _ _ a3 h (by omega) (by decide)
  · simp only [textLT_append_left, textLT_cons_same]
    exact field_lt _ _ 2 _ _ a4 h (by omega) (by decide)
  · simp only [textLT_append_left, textLT_cons_same]
    exact field_lt _ _ 2 _ _ a5 h (by omega) (by decide)
  · simp only [textLT_append_left, textLT_cons_same]
    exact field_lt _ _ 2 _ _ a6 h (by omega) (by decide)

theorem appendDateTime_lt (sep : Char) (w1 w2 : Int) (x y : List Char)
    (hy1 : 0 ≤ (Time.civil (w1 / 86400)).1) (hy2 : (Time.civil (w2 / 86400)).1 ≤ 9999)
    (h : w1 < w2) :
    Time.textLT (Time.appendDateTime sep w1 ++ x) (Time.appendDateTime sep w2 ++ y) = true := by
  obtain ⟨m1, -, d1, -, -⟩ := civil_spec (w1 / 86400)
  obtain ⟨-, m2, -, d2, -⟩ := civil_spec (w2 / 86400)
  obtain ⟨c1, -, c3, -, c5, -, c7⟩ := clock_parts w1
  obtain ⟨-, e2, -, e4, -, e6, e7⟩ := clock_parts w2
  simp only [Time.appendDateTime, List.append_assoc, List.cons_append]
  apply dateTime_lt sep _ _ _ _ _ _ _ _ _ _ _ _ x y hy1 (by omega) (by omega) c1 c3 c5 hy2
    (by omega) (by omega) (by omega) (by omega) (by omega)
  by_cases hd : w1 / 86400 < w2 / 86400
  · rcases civil_lt _ _ hd with h1 | ⟨h1, h2 | ⟨h2, h3⟩⟩
    · exact Or.inl h1
    · exact Or.inr ⟨h1, Or.inl h2⟩
    · exact Or.inr ⟨h1, Or.inr ⟨h2, Or.inl h3⟩⟩
  · have he : w1 / 86400 = w2 / 86400 := by omega
    rw [he]
    refine Or.inr ⟨rfl, Or.inr ⟨rfl, Or.inr ⟨rfl, ?_⟩⟩⟩
    omega

theorem dropWhile_append_singleton (p : Char → Bool) (r : List Char) (a : Char) :
    (r ++ [a]).dropWhile p =
      if r.dropWhile p = [] then [a].dropWhile p else r.dropWhile p ++ [a] := by
  induction r with
  | nil => simp
  | cons b r ih =>
      by_cases hb : p b = true
      · have e1 : (b :: (r ++ [a])).dropWhile p = (r ++ [a]).dropWhile p := by
          simp [List.dropWhile_cons, hb]
        have e2 : (b :: r).dropWhile p = r.dropWhile p := by
          simp [List.dropWhile_cons, hb]
        rw [List.cons_append, e1, e2, ih]
      · simp [List.dropWhile_cons, hb]

theorem rdropWhile_cons (p : Char → Bool) (a : Char) (l : List Char) :
    (a :: l).rdropWhile p =
      if l.rdropWhile p = [] then (if p a = true then [] else [a]) else a :: l.rdropWhile p := by
  unfold List.rdropWhile
  rw [List.reverse_cons, dropWhile_append_singleton]
  by_cases h : l.reverse.dropWhile p = []
  · rw [if_pos h, if_pos (by rw [h]; rfl)]
    cases hp : p a <;> simp [List.dropWhile, hp]
  · rw [if_neg h, if_neg (by simpa using h)]
    simp

theorem textLT_strip (s : Char) (Z : List Char) (hs : s.toNat < 48) (P1 P2 : List Char)
    (hlen : P1.length = P2.length) (h1 : ∀ c ∈ P1, c.isDigit = true)
    (h2 : ∀ c ∈ P2, c.isDigit = true) (h : Time.textLT P1 P2 = true) :
    Time.textLT (P1.rdropWhile (fun c => c = '0') ++ s :: Z)
      (P2.rdropWhile (fun c => c = '0') ++ s :: Z) = true := by
  induction P1 generalizing P2 with
  | nil =>
      cases P2 with
      | nil => simp [Time.textLT] at h
      | cons b P2 => simp at hlen
  | cons a P1 ih =>
      cases P2 with
      | nil => simp at hlen
      | cons b P2 =>
          simp only [List.length_cons, Nat.add_right_cancel_iff] at hlen
          have ha := isDigit_bounds a (h1 a (List.mem_cons_self _ _))
          have hb := isDigit_bounds b (h2 b (List.mem_cons_self _ _))
          have hz : ('0' : Char).toNat = 48 := rfl
          simp only [Time.textLT] at h
          rw [rdropWhile_cons, rdropWhile_cons]
          by_cases hab : a.toNat < b.toNat
          · have hb0 : ¬ (b = '0') := by
              intro hb0; rw [hb0, hz] at hab; omega
            have hstrip2 : ∃ T, (if P2.rdropWhile (fun c => decide (c = '0')) = [] then
                (if decide (b = '0') = true then [] else [b])
                else b :: P2.rdropWhile (fun c => decide (c = '0'))) = b :: T := by
              split_ifs with q1 q2
              · exact absurd (of_decide_eq_true q2) hb0
              · exact ⟨[], rfl⟩
              · exact ⟨_, rfl⟩
            obtain ⟨T, hT⟩ := hstrip2
            rw [hT]
            split_ifs
            · simp only [List.nil_append, List.cons_append, Time.textLT]
              rw [if_pos (by omega)]
            · simp only [List.cons_append, List.nil_append, Time.textLT, if_pos hab]
            · simp only [List.cons_append, Time.textLT, if_pos hab]
          · rw [if_neg hab] at h
            by_cases hba : b.toNat < a.toNat
            · rw [if_pos hba] at h; exact absurd h (by simp)
            · rw [if_neg hba] at h
              have ih' := ih P2 hlen (fun c hc => h1 c (List.mem_cons_of_mem _ hc))
                (fun c hc => h2 c (List.mem_cons_of_mem _ hc)) h
              have hne2 : P2.rdropWhile (fun c => decide (c = '0')) ≠ [] := by
                intro hnil
                rw [hnil, List.nil_append] at ih'
                cases hP : P1.rdropWhile (fun c => decide (c = '0')) with
                | nil =>
                    rw [hP, List.nil_append, textLT_irrefl] at ih'
                    exact absurd ih' (by simp)
                | cons c T =>
                    rw [hP] at ih'
                    have hc : c ∈ P1 := by
                      have : c ∈ P1.rdropWhile (fun c => decide (c = '0')) := by
                        rw [hP]; exact List.mem_cons_self _ _
                      exact (List.rdropWhile_prefix _ _).subset this
                    have hcb := isDigit_bounds c (h1 c (List.mem_cons_of_mem _ hc))
                    simp only [List.cons_append, Time.textLT] at ih'
                    rw [if_neg (by omega), if_pos (by omega)] at ih'
                    exact absurd ih' (by simp)
              rw [if_neg hne2]
              split_ifs with q1 q2
              · simp only [List.nil_append, List.cons_append, Time.textLT]
                rw [if_pos (by omega)]
              · rw [q1, List.nil_append] at ih'
                simp only [List.cons_append, List.nil_append, Time.textLT, if_neg hab, if_neg hba]
                exact ih'
              · simp only [List.cons_append, Time.textLT, if_neg hab, if_neg hba]
                exact ih'

theorem appendNano_lt (n1 n2 : Nat) (s : Char) (Z : List Char) (hs : s.toNat < 46)
    (h : n1 < n2) (h2 : n2 < 1000000000) :
    Time.textLT (Time.appendNano n1 ++ s :: Z) (Time.appendNano n2 ++ s :: Z) = true := by
  have hn2 : n2 ≠ 0 := by omega
  by_cases h0 : n1 = 0
  · subst h0
    simp only [Time.appendNano, if_true, if_neg hn2, List.nil_append, List.cons_append,
      Time.textLT]
    have hdot : ('.' : Char).toNat = 46 := rfl
    rw [if_pos (by omega)]
  · simp only [Time.appendNano, if_neg h0, if_neg hn2, List.cons_append, textLT_cons_same]
    obtain ⟨l1, d1, e1⟩ := appendInt_spec (n1 : Int) 9 (by omega) (by norm_num; omega) (by decide)
    obtain ⟨l2, d2, e2⟩ := appendInt_spec (n2 : Int) 9 (by omega) (by norm_num; omega) (by decide)
    apply textLT_strip s Z (by omega) _ _ (by rw [l1, l2]) d1 d2
    have := textLT_digits _ _ [] [] (by rw [l1, l2]) d1 d2 (by rw [e1, e2]; omega)
    simpa using this

theorem sqliteText_lt (tz : Zone) (t1 t2 : Time)
    (hy1 : 0 ≤ t1.year tz) (hy2 : t2.year tz ≤ 9999)
    (hn2 : t2.nsec < 1000000000)
    (ho : t1.offset tz = t2.offset tz) (h : t1.unixNano < t2.unixNano) :
    Time.textLT (Time.sqliteText tz t1) (Time.sqliteText tz t2) = true := by
  unfold Time.sqliteText
  unfold Time.year at hy1 hy2
  unfold Time.unixNano at h
  have hw1 : t1.wall tz = t1.sec + t1.offset tz := rfl
  have hw2 : t2.wall tz = t2.sec + t2.offset tz := rfl
  by_cases hs : t1.sec < t2.sec
  · exact appendDateTime_lt ' ' _ _ _ _ hy1 hy2 (by omega)
  · have he : t1.sec = t2.sec := by omega
    have hw : t1.wall tz = t2.wall tz := by omega
    rw [hw, ho, textLT_append_left]
    unfold Time.appendZone
    apply appendNano_lt
    · split_ifs <;> decide
    · omega
    · exact hn2

theorem sorted_by_instant (tz : Zone) (rs : List database.Event)
    (hs : rs.Pairwise (fun a b => Time.textLE (Time.sqliteText tz b.Timestamp)
      (Time.sqliteText tz a.Timestamp) = true))
    (o : Int)
    (hwf : ∀ e ∈ rs, 0 ≤ e.Timestamp.year tz ∧ e.Timestamp.year tz ≤ 9999 ∧
      e.Timestamp.nsec < 1000000000 ∧ e.Timestamp.offset tz = o) :
    rs.Pairwise (fun a b => b.Timestamp.unixNano ≤ a.Timestamp.unixNano) := by
  induction rs with
  | nil => exact List.Pairwise.nil
  | cons a rs ih =>
      rw [List.pairwise_cons] at hs ⊢
      refine ⟨fun b hb => ?_, ih hs.2 (fun e he => hwf e (List.mem_cons_of_mem _ he))⟩
      have h1 := hs.1 b hb
      obtain ⟨a1, -, -, a4⟩ := hwf a (List.mem_cons_self _ _)
      obtain ⟨-, b2, b3, b4⟩ := hwf b (List.mem_cons_of_mem _ hb)
      by_contra hc
      have hlt := sqliteText_lt tz a.Timestamp b.Timestamp a1 b2 b3 (by rw [a4, b4])
        (by omega)
      unfold Time.textLE at h1
      rw [hlt] at h1
      exact absurd h1 (by simp)

theorem scan_unixNano (tz : Zone) (e : database.Event)
    (hy0 : 0 ≤ e.Timestamp.year tz) (hy1 : e.Timestamp.year tz ≤ 9999)
    (hn : e.Timestamp.nsec < 1000000000) (h60 : e.Timestamp.offset tz % 60 = 0)
    (hlo : -90000 < e.Timestamp.offset tz) (hhi : e.Timestamp.offset tz < 90000) :
    (e.scan tz).Timestamp.unixNano = e.Timestamp.unixNano := by
  have hs := scanText_sqliteText tz e.Timestamp hy0 hy1 hn h60 hlo hhi
  have hts : (e.scan tz).Timestamp = Time.scanText (Time.sqliteText tz e.Timestamp) := rfl
  rw [hts, hs]
  rfl

end OrderLemmas

theorem append_ne_empty_left (a b : String) (h : a ≠ "") : a ++ b ≠ "" := by
  intro hab
  apply h
  have h1 := congrArg String.data hab
  rw [String.data_append] at h1
  have h2 : a.data = [] := (List.append_eq_nil.mp h1).1
  exact String.ext h2

theorem append_ne_empty_right (a b : String) (h : b ≠ "") : a ++ b ≠ "" := by
  intro hab
  apply h
  have h1 := congrArg String.data hab
  rw [String.data_append] at h1
  have h2 : b.data = [] := (List.append_eq_nil.mp h1).2
  exact String.ext h2

theorem canonical_kind_content (now : Time) (raw : gotiktoklive.Event) :
    ∀ ev ∈ cmd.canonical now raw,
      ev.Type_ ∈ ["chat", "gift", "like", "follow", "share", "stats"] ∧ ev.Content ≠ "" := by
  intro ev hev
  cases raw with
  | chat e =>
      simp only [cmd.canonical, tiktok.trackEvent, tiktok.record, List.nil_append,
        List.mem_singleton] at hev
      subst hev
      exact ⟨by simp, append_ne_empty_left _ _ (append_ne_empty_right _ _ (by decide))⟩
  | gift e =>
      simp only [cmd.canonical, tiktok.trackEvent, tiktok.record, List.nil_append,
        List.mem_singleton] at hev
      subst hev
      exact ⟨by simp, append_ne_empty_right _ _ (by decide)⟩
  | like e =>
      simp only [cmd.canonical, tiktok.trackEvent, tiktok.record, List.nil_append,
        List.mem_singleton] at hev
      subst hev
      exact ⟨by simp, append_ne_empty_right _ _ (by decide)⟩
  | user e =>
      obtain ⟨k, u⟩ := e
      cases k
      · simp [cmd.canonical, tiktok.trackEvent] at hev
      · simp only [cmd.canonical, tiktok.trackEvent, tiktok.record, List.nil_append,
          List.mem_singleton] at hev
        subst hev
        exact ⟨by simp, append_ne_empty_right _ _ (by decide)⟩
      · simp only [cmd.canonical, tiktok.trackEvent, tiktok.record, List.nil_append,
          List.mem_singleton] at hev
        subst hev
        exact ⟨by simp, append_ne_empty_right _ _ (by decide)⟩
  | viewers e =>
      simp only [cmd.canonical, tiktok.trackEvent, tiktok.record, List.nil_append,
        List.mem_singleton] at hev
      subst hev
      exact ⟨by simp, append_ne_empty_left _ _ (by decide)⟩
  | other t => simp [cmd.canonical, tiktok.trackEvent] at hev

theorem formatEvents_eq_join (m : ui.model) :
    m.formatEvents = String.join (m.events.map (fun e => e ++ "\n")) := by
  unfold ui.model.formatEvents
  rw [foldl_append_eq_join (fun e : String => e ++ "\n") m.events ""]
  simp

theorem join_append (l1 l2 : List String) :
    String.join (l1 ++ l2) = String.join l1 ++ String.join l2 := by
  induction l1 with
  | nil => simp [String.join]
  | cons a l1 ih => rw [List.cons_append, join_cons, join_cons, ih, String.append_assoc]

theorem Update_err {Cmd : Type} (tk : ui.Toolkit Cmd) (m : ui.model) (msg : ui.Msg) :
    (m.Update tk msg).1.err =
      match msg with
      | .error err => some err
      | _ => m.err := by
  cases msg with
  | key k =>
      cases k
      · rfl
      · rfl
      · simp only [ui.model.Update, ui.model.handle]
        split_ifs <;> rfl
  | stats st =>
      simp only [ui.model.Update, ui.model.handle, ui.model.updateStats]
      split_ifs <;> rfl
  | _ =>
      simp only [ui.model.Update, ui.model.handle]
      split_ifs <;> rfl

theorem Updates_err_isSome {Cmd : Type} (tk : ui.Toolkit Cmd) (msgs : List ui.Msg)
    (m : ui.model) (h : m.err.isSome = true) : (ui.model.Updates tk m msgs).err.isSome = true := by
  induction msgs generalizing m with
  | nil => exact h
  | cons msg rest ih =>
      simp only [ui.model.Updates]
      apply ih
      rw [Update_err]
      cases msg <;> simp [h]

end Lemmas

section Claims

/-- C1: for every recognized raw event the loop body of `TrackUser` is exactly one
call of the handler, whatever the handler and its state, and the event passed
has the kind and the content of the template: chat, gift, like, follow, share,
stats.  The two closing conjuncts are the examples of the specification, read
off the recording handler. -/
theorem trackEvent_recognized_calls_handler_once :
    (∀ (σ : Type) (onEvent : tiktok.Event → σ → σ) (now : Time) (e : ChatEvent) (s : σ),
      tiktok.trackEvent onEvent now (.chat e) s =
        onEvent
          { Type_ := "chat", Content := e.User.Nickname ++ ": " ++ e.Comment,
            Timestamp := Time.Unix e.Timestamp 0 } s) ∧
    (∀ (σ : Type) (onEvent : tiktok.Event → σ → σ) (now : Time) (e : GiftEvent) (s : σ),
      tiktok.trackEvent onEvent now (.gift e) s =
        onEvent
          { Type_ := "gift",
            Content := e.User.Nickname ++ " sent " ++ e.Name ++ " (x" ++
              decimal e.RepeatCount ++ ")",
            Timestamp := Time.Unix e.Timestamp 0 } s) ∧
    (∀ (σ : Type) (onEvent : tiktok.Event → σ → σ) (now : Time) (e : LikeEvent) (s : σ),
      tiktok.trackEvent onEvent now (.like e) s =
        onEvent
          { Type_ := "like",
            Content := e.User.Nickname ++ " sent " ++ decimal e.Likes ++ " likes",
            Timestamp := now } s) ∧
    (∀ (σ : Type) (onEvent : tiktok.Event → σ → σ) (now : Time) (u : User) (s : σ),
      tiktok.trackEvent onEvent now (.user { Event := .USER_FOLLOW, User := u }) s =
        onEvent
          { Type_ := "follow", Content := u.Nickname ++ " followed the streamer",
            Timestamp := now } s) ∧
    (∀ (σ : Type) (onEvent : tiktok.Event → σ → σ) (now : Time) (u : User) (s : σ),
      tiktok.trackEvent onEvent now (.user { Event := .USER_SHARE, User := u }) s =
        onEvent
          { Type_ := "share", Content := u.Nickname ++ " shared the stream",
            Timestamp := now } s) ∧
    (∀ (σ : Type) (onEvent : tiktok.Event → σ → σ) (now : Time) (e : ViewersEvent) (s : σ),
      tiktok.trackEvent onEvent now (.viewers e) s =
        onEvent
          { Type_ := "stats", Content := "Viewer count: " ++ decimal e.Viewers,
            Timestamp := now } s) ∧
    (tiktok.trackEvent tiktok.record { sec := 5, nsec := 7 }
        (.chat { Comment := "hi", User := { Nickname := "alice" }, Timestamp := 1000 }) []).map
      (fun ev => (ev.Type_, ev.Content)) = [("chat", "alice: hi")] ∧
    (tiktok.trackEvent tiktok.record { sec := 5, nsec := 7 }
        (.gift { Name := "rose", RepeatCount := 3, Timestamp := 1001,
                 User := { Nickname := "bob" } }) []).map
      (fun ev => (ev.Type_, ev.Content)) = [("gift", "bob sent rose (x3)")] := by
  refine ⟨fun _ _ _ _ _ => rfl, fun _ _ _ _ _ => rfl, fun _ _ _ _ _ => rfl,
    fun _ _ _ _ _ => rfl, fun _ _ _ _ _ => rfl, fun _ _ _ _ _ => rfl, by decide, by decide⟩

/-- C2: when `TrackUser` feeds `N` recognized raw events to the handler of the
log command, the display gains exactly the `N` contents in order, `SaveEvent` is
called exactly `N` more times with (kind, content, timestamp, session username)
in order, and the deliveries are, event by event, the display append followed by
the persistence call.  The outcomes of the `SaveEvent` calls (`s.driver`) are
arbitrary. -/
theorem TrackUser_onEvent_delivers_in_order (evs : List (Time × gotiktoklive.Event))
    (s : cmd.Session) (hrec : ∀ x ∈ evs, recognized x.2 = true) :
    (cmd.dispatched evs).length = evs.length ∧
    (tiktok.TrackUser cmd.onEvent evs s).model.events =
      s.model.events ++ (cmd.dispatched evs).map (fun e => e.Content) ∧
    cmd.addCalls (tiktok.TrackUser cmd.onEvent evs s).calls =
      cmd.addCalls s.calls ++ (cmd.dispatched evs).map (fun e => e.Content) ∧
    cmd.saveCalls (tiktok.TrackUser cmd.onEvent evs s).calls =
      cmd.saveCalls s.calls ++
        (cmd.dispatched evs).map (fun e => (e.Type_, e.Content, e.Timestamp, s.username)) ∧
    (tiktok.TrackUser cmd.onEvent evs s).saves = s.saves + evs.length ∧
    (tiktok.TrackUser cmd.onEvent evs s).calls.filter cmd.SinkCall.isDelivery =
      s.calls.filter cmd.SinkCall.isDelivery ++
        (cmd.dispatched evs).flatMap (cmd.deliveries s.username) := by
  have hlen := dispatched_length_of_recognized evs hrec
  obtain ⟨-, -, h3, h4, -, -, h7⟩ := onEvents_fields (cmd.dispatched evs) s
  rw [TrackUser_onEvent]
  refine ⟨hlen, h4, ?_, ?_, by rw [h3, hlen], h7⟩
  · rw [← addCalls_filter, h7, addCalls_append, addCalls_filter, addCalls_deliveries]
  · rw [← saveCalls_filter, h7, saveCalls_append, saveCalls_filter, saveCalls_deliveries]

/-- Witness of C2: a chat event then a gift event, the first save failing. -/
theorem TrackUser_onEvent_delivers_in_order_witness :
    (tiktok.TrackUser cmd.onEvent
        [ ({ sec := 50, nsec := 1 },
            .chat { Comment := "hi", User := { Nickname := "alice" }, Timestamp := 1000 }),
          ({ sec := 51, nsec := 2 },
            .gift { Name := "rose", RepeatCount := 3, Timestamp := 1001,
                    User := { Nickname := "bob" } }) ]
        (cmd.Session.start "host" database.DB.empty
          (fun n => if n = 0 then some "disk I/O error" else none))).calls =
      [ .AddEvent "alice: hi",
        .SaveEvent "chat" "alice: hi" { sec := 1000, nsec := 0 } "host",
        .SetError "failed to save event: disk I/O error",
        .AddEvent "bob sent rose (x3)",
        .SaveEvent "gift" "bob sent rose (x3)" { sec := 1001, nsec := 0 } "host" ] ∧
    (tiktok.TrackUser cmd.onEvent
        [ ({ sec := 50, nsec := 1 },
            .chat { Comment := "hi", User := { Nickname := "alice" }, Timestamp := 1000 }),
          ({ sec := 51, nsec := 2 },
            .gift { Name := "rose", RepeatCount := 3, Timestamp := 1001,
                    User := { Nickname := "bob" } }) ]
        (cmd.Session.start "host" database.DB.empty
          (fun n => if n = 0 then some "disk I/O error" else none))).model.events =
      (cmd.Session.start "host" database.DB.empty
          (fun n => if n = 0 then some "disk I/O error" else none)).model.events ++
        ["alice: hi", "bob sent rose (x3)"] :=
  ⟨by decide,
   (TrackUser_onEvent_delivers_in_order
      [ ({ sec := 50, nsec := 1 },
          .chat { Comment := "hi", User := { Nickname := "alice" }, Timestamp := 1000 }),
        ({ sec := 51, nsec := 2 },
          .gift { Name := "rose", RepeatCount := 3, Timestamp := 1001,
                  User := { Nickname := "bob" } }) ]
      (cmd.Session.start "host" database.DB.empty
        (fun n => if n = 0 then some "disk I/O error" else none))
      (by decide)).2.1⟩

/-- C3: with a store that fails on every call, after `k` events have gone through
the handler of the log command the display holds its former entries and the `k`
new contents (so `k` entries from a fresh session, 5 for 5 events), every one of
the `k` events reached the store (`k` more `SaveEvent` calls), and as soon as
one event was dispatched the model's `err` is non-nil. -/
theorem onEvents_failing_store (evs : List tiktok.Event) (s : cmd.Session)
    (hfail : ∀ n, (s.driver n).isSome = true) :
    (cmd.onEvents evs s).model.events = s.model.events ++ evs.map (fun e => e.Content) ∧
    (cmd.onEvents evs s).model.events.length = s.model.events.length + evs.length ∧
    (s.model.events = [] → (cmd.onEvents evs s).model.events.length = evs.length) ∧
    (cmd.saveCalls (cmd.onEvents evs s).calls).length =
      (cmd.saveCalls s.calls).length + evs.length ∧
    (evs ≠ [] → (cmd.onEvents evs s).model.err ≠ none) := by
  obtain ⟨-, -, -, h4, -, -, h7⟩ := onEvents_fields evs s
  have hlen : (cmd.onEvents evs s).model.events.length = s.model.events.length + evs.length := by
    rw [h4]; simp
  refine ⟨h4, hlen, ?_, ?_, ?_⟩
  · intro h0
    rw [hlen, h0]; simp
  · rw [← saveCalls_filter, h7, saveCalls_append, saveCalls_filter, saveCalls_deliveries]
    simp
  · intro hne
    have := onEvents_err_of_failing evs s hfail (Or.inr hne)
    intro hnone
    rw [hnone] at this
    simp at this

/-- Witness of C3: five events from a fresh session, every save failing. -/
theorem onEvents_failing_store_witness :
    (cmd.onEvents
        [ { Type_ := "chat", Content := "a: 1", Timestamp := { sec := 1, nsec := 0 } },
          { Type_ := "like", Content := "b sent 2 likes", Timestamp := { sec := 2, nsec := 5 } },
          { Type_ := "follow", Content := "c followed the streamer",
            Timestamp := { sec := 3, nsec := 0 } },
          { Type_ := "stats", Content := "Viewer count: 4", Timestamp := { sec := 4, nsec := 9 } },
          { Type_ := "gift", Content := "e sent rose (x5)", Timestamp := { sec := 5, nsec := 0 } } ]
        (cmd.Session.start "host" database.DB.empty (fun _ => some "database is locked"))
      ).model.events.length = 5 ∧
    (cmd.onEvents
        [ { Type_ := "chat", Content := "a: 1", Timestamp := { sec := 1, nsec := 0 } },
          { Type_ := "like", Content := "b sent 2 likes", Timestamp := { sec := 2, nsec := 5 } },
          { Type_ := "follow", Content := "c followed the streamer",
            Timestamp := { sec := 3, nsec := 0 } },
          { Type_ := "stats", Content := "Viewer count: 4", Timestamp := { sec := 4, nsec := 9 } },
          { Type_ := "gift", Content := "e sent rose (x5)", Timestamp := { sec := 5, nsec := 0 } } ]
        (cmd.Session.start "host" database.DB.empty (fun _ => some "database is locked"))
      ).model.err ≠ none :=
  ⟨(onEvents_failing_store _
      (cmd.Session.start "host" database.DB.empty (fun _ => some "database is locked"))
      (fun _ => rfl)).2.2.1 rfl,
   (onEvents_failing_store _
      (cmd.Session.start "host" database.DB.empty (fun _ => some "database is locked"))
      (fun _ => rfl)).2.2.2.2 (by simp)⟩

/-- C4: for a raw event that is not a recognized variant (a user action that is
neither follow nor share, or a type the switch has no case for) the loop body of
`TrackUser` returns the state it was given, whatever the handler: the handler
is not called, no canonical event is produced, and with the handler of the log
command the session (display and store) is unchanged. -/
theorem trackEvent_unrecognized_skips (raw : gotiktoklive.Event)
    (hun : recognized raw = false) :
    (∀ (σ : Type) (onEvent : tiktok.Event → σ → σ) (now : Time) (s : σ),
      tiktok.trackEvent onEvent now raw s = s) ∧
    (∀ now : Time, cmd.canonical now raw = []) ∧
    (∀ (now : Time) (s : cmd.Session), tiktok.TrackUser cmd.onEvent [(now, raw)] s = s) := by
  have key : ∀ (σ : Type) (onEvent : tiktok.Event → σ → σ) (now : Time) (s : σ),
      tiktok.trackEvent onEvent now raw s = s := by
    intro σ onEvent now s
    cases raw with
    | user e =>
        obtain ⟨k, u⟩ := e
        cases k <;> simp_all [recognized, tiktok.trackEvent]
    | other t => rfl
    | _ => simp [recognized] at hun
  refine ⟨key, fun now => key _ _ now [], fun now s => ?_⟩
  simp only [tiktok.TrackUser]
  exact key _ _ now s

/-- Witness of C4: a user joining the stream leaves a fresh session as it was. -/
theorem trackEvent_unrecognized_skips_witness :
    recognized (.user { Event := .USER_JOIN, User := { Nickname := "carol" } }) = false ∧
    tiktok.TrackUser cmd.onEvent
        [({ sec := 9, nsec := 0 }, .user { Event := .USER_JOIN, User := { Nickname := "carol" } })]
        (cmd.Session.start "host" database.DB.empty (fun _ => none)) =
      cmd.Session.start "host" database.DB.empty (fun _ => none) :=
  ⟨by decide,
   (trackEvent_unrecognized_skips
      (.user { Event := .USER_JOIN, User := { Nickname := "carol" } }) (by decide)).2.2
      { sec := 9, nsec := 0 } (cmd.Session.start "host" database.DB.empty (fun _ => none))⟩

/-- C5: the canonical event of a chat or gift event carries the source timestamp
(that many seconds since the epoch, zero nanoseconds) whatever the clock reads;
the canonical event of a like, follow, share or viewer-count event carries the
clock reading of its iteration whatever the fields of the raw event. -/
theorem canonical_timestamp :
    (∀ (now : Time) (e : ChatEvent),
      (cmd.canonical now (.chat e)).map (fun ev => ev.Timestamp) =
        [{ sec := e.Timestamp, nsec := 0 }]) ∧
    (∀ (now : Time) (e : GiftEvent),
      (cmd.canonical now (.gift e)).map (fun ev => ev.Timestamp) =
        [{ sec := e.Timestamp, nsec := 0 }]) ∧
    (∀ (now : Time) (e : LikeEvent),
      (cmd.canonical now (.like e)).map (fun ev => ev.Timestamp) = [now]) ∧
    (∀ (now : Time) (u : User),
      (cmd.canonical now (.user { Event := .USER_FOLLOW, User := u })).map
        (fun ev => ev.Timestamp) = [now]) ∧
    (∀ (now : Time) (u : User),
      (cmd.canonical now (.user { Event := .USER_SHARE, User := u })).map
        (fun ev => ev.Timestamp) = [now]) ∧
    (∀ (now : Time) (e : ViewersEvent),
      (cmd.canonical now (.viewers e)).map (fun ev => ev.Timestamp) = [now]) := by
  refine ⟨?_, ?_, ?_, ?_, ?_, ?_⟩ <;> intro now e <;>
    simp [cmd.canonical, tiktok.trackEvent, tiktok.record, unix_zero]

/-- C7, as stated, fails: a viewer-count update of 42 dispatched through the
handler of the log command, from a fresh session with a working store, is
shown as an entry and saved, but the summary mapping still has no `viewers`
entry (it reads 0) and the summary table has no rows. -/
theorem stats_event_leaves_summary_counterexample :
    (tiktok.TrackUser cmd.onEvent
        [({ sec := 7, nsec := 0 }, .viewers { Viewers := 42 })]
        (cmd.Session.start "host" database.DB.empty (fun _ => none))).model.events =
      ["Viewer count: 42"] ∧
    ui.Stats.get
      (tiktok.TrackUser cmd.onEvent
        [({ sec := 7, nsec := 0 }, .viewers { Viewers := 42 })]
        (cmd.Session.start "host" database.DB.empty (fun _ => none))).model.stats
      "viewers" = 0 ∧
    ui.Stats.get
      (tiktok.TrackUser cmd.onEvent
        [({ sec := 7, nsec := 0 }, .viewers { Viewers := 42 })]
        (cmd.Session.start "host" database.DB.empty (fun _ => none))).model.stats
      "viewers" ≠ 42 ∧
    (tiktok.TrackUser cmd.onEvent
        [({ sec := 7, nsec := 0 }, .viewers { Viewers := 42 })]
        (cmd.Session.start "host" database.DB.empty (fun _ => none))).model.table.rows = [] := by
  decide

/-- C7, amended: a viewer-count update dispatched through the handler of the log
command leaves the summary mapping and the summary table of the display as
they were; the handler appends the content `Viewer count: <n>` to the entries
of the display and calls `SaveEvent` once, with the kind `stats`, that content,
the time of the event and the subject.  After any sequence of raw events the
summary mapping and the summary table are still those of the start. -/
theorem stats_event_leaves_summary_unchanged :
    (∀ (now : Time) (e : ViewersEvent) (s : cmd.Session),
      (tiktok.trackEvent cmd.onEvent now (.viewers e) s).model.stats = s.model.stats ∧
      (tiktok.trackEvent cmd.onEvent now (.viewers e) s).model.table = s.model.table ∧
      (tiktok.trackEvent cmd.onEvent now (.viewers e) s).model.events =
        s.model.events ++ ["Viewer count: " ++ decimal e.Viewers] ∧
      cmd.saveCalls (tiktok.trackEvent cmd.onEvent now (.viewers e) s).calls =
        cmd.saveCalls s.calls ++
          [("stats", "Viewer count: " ++ decimal e.Viewers, now, s.username)]) ∧
    (∀ (evs : List (Time × gotiktoklive.Event)) (s : cmd.Session),
      (tiktok.TrackUser cmd.onEvent evs s).model.stats = s.model.stats ∧
      (tiktok.TrackUser cmd.onEvent evs s).model.table = s.model.table) := by
  refine ⟨fun now e s => ?_, fun evs s => ?_⟩
  · obtain ⟨-, -, -, h4, h5, h6, h7⟩ := onEvent_fields
      { Type_ := "stats", Content := "Viewer count: " ++ decimal e.Viewers, Timestamp := now } s
    refine ⟨h5, h6, h4, ?_⟩
    have h8 := congrArg cmd.saveCalls h7
    rw [saveCalls_filter, saveCalls_append, saveCalls_filter] at h8
    exact h8
  · rw [TrackUser_onEvent]
    obtain ⟨-, -, -, -, h5, h6, -⟩ := onEvents_fields (cmd.dispatched evs) s
    exact ⟨h5, h6⟩

set_option maxRecDepth 100000 in
/-- C6 (the code differs from the claim): `DeleteOldEvents` does not compare
instants.  The cutoff and the stored timestamps are texts in the layout
`2006-01-02 15:04:05.999999999-07:00`, and the statement deletes the rows whose
text sorts before the text of the cutoff; it returns their number, and a second
run with the same clock reading deletes nothing.  Two stores on which that is
not the set of rows older than the cutoff: a record of the year 10000 is
deleted by a cutoff in 2026 (`1` sorts before `2`), and in New York, on the
night when daylight saving time ends, the records written at 01:05 EST are
deleted by the cutoff 01:10 EDT, which is 55 minutes before them. -/
theorem DeleteOldEvents_compares_stored_text :
    (∀ (d : database.DB) (tz : Zone) (now : Time) (days : Int),
      (d.DeleteOldEvents tz none now days).2.rows =
        d.rows.filter (fun e => !(Time.textLT (e.stored tz)
          (Time.sqliteText tz (Time.AddDate tz now 0 0 (-days))))) ∧
      (d.DeleteOldEvents tz none now days).1 =
        (((d.rows.filter (fun e => Time.textLT (e.stored tz)
          (Time.sqliteText tz (Time.AddDate tz now 0 0 (-days))))).length : Int), none) ∧
      (d.DeleteOldEvents tz none now days).1.1 +
        ((d.DeleteOldEvents tz none now days).2.rows.length : Int) = (d.rows.length : Int) ∧
      (d.DeleteOldEvents tz none now days).2.DeleteOldEvents tz none now days =
        ((0, none), (d.DeleteOldEvents tz none now days).2)) ∧
    (Time.AddDate sample.utc (Time.Unix 1793836800 0) 0 0 (-30) = Time.Unix 1791244800 0 ∧
      ¬ (Time.Unix 253402300800 0).Before (Time.Unix 1791244800 0) ∧
      (sample.one "a: x" (Time.Unix 253402300800 0)).DeleteOldEvents sample.utc none
          (Time.Unix 1793836800 0) 30 =
        ((1, none), { rows := [], seq := 1 })) ∧
    (Time.AddDate sample.newYork (Time.Unix 1699251000 0) 0 0 (-1) = Time.Unix 1699161000 0 ∧
      ¬ (Time.Unix 1699164300 0).Before (Time.Unix 1699161000 0) ∧
      (sample.two (Time.Unix 1699162200 0) (Time.Unix 1699164300 0)).DeleteOldEvents
          sample.newYork none (Time.Unix 1699251000 0) 1 =
        ((2, none),
          { rows := [ { ID := 1, Username := "host", Type_ := "chat", Content := "a: <x>",
                        Timestamp := Time.Unix 1699162200 0 } ],
            seq := 3 })) := by
  refine ⟨fun d tz now days => ⟨rfl, rfl, ?_, ?_⟩, by decide, by decide⟩
  · have h := filter_not_filter_length
      (fun e : database.Event => Time.textLT (e.stored tz)
        (Time.sqliteText tz (Time.AddDate tz now 0 0 (-days)))) d.rows
    simp only [database.DB.DeleteOldEvents]
    exact_mod_cast h
  · simp only [database.DB.DeleteOldEvents, List.filter_filter]
    have h1 : (d.rows.filter (fun a =>
        (Time.textLT (a.stored tz) (Time.sqliteText tz (Time.AddDate tz now 0 0 (-days))) &&
          !(Time.textLT (a.stored tz)
            (Time.sqliteText tz (Time.AddDate tz now 0 0 (-days))))))) = [] := by
      rw [List.filter_eq_nil_iff]
      intro a _
      simp
    have h2 : (d.rows.filter (fun a =>
        (!(Time.textLT (a.stored tz) (Time.sqliteText tz (Time.AddDate tz now 0 0 (-days)))) &&
          !(Time.textLT (a.stored tz)
            (Time.sqliteText tz (Time.AddDate tz now 0 0 (-days))))))) =
        d.rows.filter (fun a => !(Time.textLT (a.stored tz)
          (Time.sqliteText tz (Time.AddDate tz now 0 0 (-days))))) := by
      congr 1; funext a; simp
    rw [h1, h2]
    rfl

set_option maxRecDepth 100000 in
/-- C10, as stated, fails.  In New York, a record written at 01:30 EDT and one
written forty minutes later, at 01:10 EST, are listed in that order, the older
one first, because the stored text of the first sorts after that of the
second; and a record whose year has five digits comes back with the zero time
(January 1 of year 1) in place of its stored timestamp. -/
theorem GetEventsByUsername_order_counterexample :
    (sample.two (Time.Unix 1699162200 0) (Time.Unix 1699164600 0)).GetEventsByUsername
        sample.newYork none "host" =
      .ok [ { ID := 1, Username := "host", Type_ := "chat", Content := "a: <x>",
              Timestamp := { sec := 1699162200, nsec := 0, loc := Location.fixed (-14400) } },
            { ID := 2, Username := "host", Type_ := "gift", Content := "b sent rose (x3)",
              Timestamp := { sec := 1699164600, nsec := 0, loc := Location.fixed (-18000) } } ] ∧
    Time.Before { sec := 1699162200, nsec := 0, loc := Location.fixed (-14400) }
      { sec := 1699164600, nsec := 0, loc := Location.fixed (-18000) } ∧
    (sample.one "a: x" (Time.Unix 1699164600000 0)).GetEventsByUsername sample.utc none "host" =
      .ok [ { ID := 1, Username := "host", Type_ := "chat", Content := "a: x",
              Timestamp := Time.zero } ] ∧
    Time.zero.sec ≠ (Time.Unix 1699164600000 0).sec := by
  decide

/-- C10, amended: `GetEventsByUsername u` returns one record for each stored row
whose subject is `u` (as often as it is stored) and none for another subject,
in the descending order of the stored texts of the timestamps (byte by byte,
not by instant).  Each record has the id, subject, kind and content of its row.
Its timestamp is parsed back from the stored text: for a stored `time.Time`
whose year has at most four digits and whose zone offset is a whole number of
minutes below 25 hours, it is the same instant with the same offset; for a
year outside 0 to 9999 it is the zero time.  When all rows of the subject were
stored with such timestamps and with one and the same zone offset, the records
are in the descending order of their timestamps: each is at or after all later
ones. -/
theorem GetEventsByUsername_lists_subject (d : database.DB) (tz : Zone) (u : GoString) :
    ∃ rs : List database.Event,
      d.GetEventsByUsername tz none u = .ok (rs.map (database.Event.scan tz)) ∧
      rs.Perm (d.rows.filter (fun e => e.Username = u)) ∧
      (∀ e : database.Event, e ∈ rs ↔ e ∈ d.rows ∧ e.Username = u) ∧
      rs.Pairwise (fun a b => Time.textLE (Time.sqliteText tz b.Timestamp)
        (Time.sqliteText tz a.Timestamp) = true) ∧
      (∀ e ∈ rs,
        (e.scan tz).ID = e.ID ∧ (e.scan tz).Username = u ∧ (e.scan tz).Type_ = e.Type_ ∧
        (e.scan tz).Content = e.Content ∧
        (0 ≤ e.Timestamp.year tz → e.Timestamp.year tz ≤ 9999 →
          e.Timestamp.nsec < 1000000000 → e.Timestamp.offset tz % 60 = 0 →
          -90000 < e.Timestamp.offset tz → e.Timestamp.offset tz < 90000 →
          (e.scan tz).Timestamp.sec = e.Timestamp.sec ∧
          (e.scan tz).Timestamp.nsec = e.Timestamp.nsec ∧
          (e.scan tz).Timestamp.offset tz = e.Timestamp.offset tz) ∧
        (e.Timestamp.year tz < 0 ∨ 9999 < e.Timestamp.year tz →
          (e.scan tz).Timestamp = Time.zero)) ∧
      (∀ o : Int, o % 60 = 0 → -90000 < o → o < 90000 →
        (∀ e ∈ rs, 0 ≤ e.Timestamp.year tz ∧ e.Timestamp.year tz ≤ 9999 ∧
          e.Timestamp.nsec < 1000000000 ∧ e.Timestamp.offset tz = o) →
        (rs.map (database.Event.scan tz)).Pairwise
          (fun a b => b.Timestamp.unixNano ≤ a.Timestamp.unixNano)) := by
  have hmem : ∀ e : database.Event,
      e ∈ (d.rows.filter (fun e => e.Username = u)).insertionSort (database.Event.storedDesc tz) ↔
        e ∈ d.rows ∧ e.Username = u := by
    intro e
    rw [List.mem_insertionSort]
    simp [List.mem_filter]
  haveI := storedDesc_total tz
  haveI := storedDesc_trans tz
  have hsorted := List.sorted_insertionSort (database.Event.storedDesc tz)
    (d.rows.filter (fun e => e.Username = u))
  refine ⟨_, rfl, List.perm_insertionSort _ _, hmem, hsorted, ?_, ?_⟩
  · intro e he
    refine ⟨rfl, ((hmem e).mp he).2, rfl, rfl, ?_, ?_⟩
    · intro hy0 hy1 hn h60 hlo hhi
      have hs := scanText_sqliteText tz e.Timestamp hy0 hy1 hn h60 hlo hhi
      have hts : (e.scan tz).Timestamp = Time.scanText (Time.sqliteText tz e.Timestamp) := rfl
      rw [hts, hs]
      refine ⟨rfl, rfl, ?_⟩
      by_cases h0 : e.Timestamp.offset tz = 0
      · rw [if_pos h0, h0]; rfl
      · rw [if_neg h0]; rfl
    · intro hy
      exact scanText_year_out tz e.Timestamp hy
  · intro o h60 hlo hhi hwf
    rw [List.pairwise_map]
    refine List.Pairwise.imp_of_mem ?_ (sorted_by_instant tz _ hsorted o hwf)
    intro a b ha hb hab
    obtain ⟨a1, a2, a3, a4⟩ := hwf a ha
    obtain ⟨b1, b2, b3, b4⟩ := hwf b hb
    rw [scan_unixNano tz a a1 a2 a3 (by rw [a4]; exact h60) (by rw [a4]; exact hlo)
        (by rw [a4]; exact hhi),
      scan_unixNano tz b b1 b2 b3 (by rw [b4]; exact h60) (by rw [b4]; exact hlo)
        (by rw [b4]; exact hhi)]
    exact hab

set_option maxRecDepth 100000 in
/-- Witness of C10 (amended): two records written in Tokyo, five seconds apart,
are listed with the instants they were stored with, the later one first. -/
theorem GetEventsByUsername_lists_subject_witness :
    ∃ rs : List database.Event,
      (sample.two (Time.Unix 1700000000 0) (Time.Unix 1700000005 0)).GetEventsByUsername
          sample.tokyo none "host" = .ok (rs.map (database.Event.scan sample.tokyo)) ∧
      rs.length = 2 ∧
      (∀ e ∈ rs, (e.scan sample.tokyo).Timestamp.sec = e.Timestamp.sec) ∧
      (rs.map (database.Event.scan sample.tokyo)).Pairwise
        (fun a b => b.Timestamp.unixNano ≤ a.Timestamp.unixNano) := by
  obtain ⟨rs, h1, h2, h3, -, h5, h6⟩ := GetEventsByUsername_lists_subject
    (sample.two (Time.Unix 1700000000 0) (Time.Unix 1700000005 0)) sample.tokyo "host"
  have hcases : ∀ x ∈ (sample.two (Time.Unix 1700000000 0) (Time.Unix 1700000005 0)).rows,
      0 ≤ x.Timestamp.year sample.tokyo ∧ x.Timestamp.year sample.tokyo ≤ 9999 ∧
      x.Timestamp.nsec < 1000000000 ∧ x.Timestamp.offset sample.tokyo = 32400 := by decide
  refine ⟨rs, h1, ?_, ?_, ?_⟩
  · rw [h2.length_eq]; decide
  · intro e he
    obtain ⟨a1, a2, a3, a4⟩ := hcases e ((h3 e).mp he).1
    exact ((h5 e he).2.2.2.2.1 a1 a2 a3 (by rw [a4]; decide) (by rw [a4]; decide)
      (by rw [a4]; decide)).1
  · exact h6 32400 (by decide) (by decide) (by decide)
      (fun e he => hcases e ((h3 e).mp he).1)

set_option maxRecDepth 100000 in
/-- C8, as stated, fails: a stored content holding a byte that is not valid UTF-8
is written as `\\ufffd`, so the record read back from the exported file has the
character U+FFFD in its content where the listed record has that byte. -/
theorem ExportToJSON_read_back_counterexample :
    (sample.one [.rune 'a', .byte 255] (Time.Unix 1700000000 0)).GetEventsByUsername
        sample.utc none "host" =
      .ok [ { ID := 1, Username := "host", Type_ := "chat", Content := [.rune 'a', .byte 255],
              Timestamp := { sec := 1700000000, nsec := 0, loc := Location.UTC } } ] ∧
    ((sample.one [.rune 'a', .byte 255] (Time.Unix 1700000000 0)).ExportToJSON
        sample.utc none none "host" "out.json" (fun _ => none)).1 = none ∧
    database.ReadJSON sample.utc
        ((sample.one [.rune 'a', .byte 255] (Time.Unix 1700000000 0)).ExportToJSON
          sample.utc none none "host" "out.json" (fun _ => none)).2 "out.json" =
      some [ { ID := 1, Username := "host", Type_ := "chat",
               Content := [.rune 'a', .rune '�'],
               Timestamp := { sec := 1700000000, nsec := 0, loc := Location.UTC } } ] ∧
    ([.rune 'a', .rune '�'] : GoString) ≠ [.rune 'a', .byte 255] := by
  decide

/-- C8, amended: when `ExportToJSON` returns nil, reading the file it wrote back
(read the file, decode the JSON array; `tz2` is the zone of the process that
reads) yields one record for each record that `GetEventsByUsername` returns
for the subject at the time of the export, in the same order, with the same id
and with a timestamp of the same instant and the same zone offset (its location
is UTC for the offset zero, `time.Local` when the offset is that of the zone of
the reading process, and a zone of that fixed offset otherwise).  Subject, kind
and content come back with every byte that is not valid UTF-8 replaced by the
character U+FFFD; they are the same when they are valid UTF-8. -/
theorem ExportToJSON_read_back (d : database.DB) (tz tz2 : Zone) (u : GoString) (path : String)
    (fs : database.Files) (hok : (d.ExportToJSON tz none none u path fs).1 = none) :
    ∃ events : List database.Event,
      d.GetEventsByUsername tz none u = .ok events ∧
      database.ReadJSON tz2 (d.ExportToJSON tz none none u path fs).2 path =
        some (events.map (json.rereadEvent tz2)) ∧
      (∀ e ∈ events,
        (json.rereadEvent tz2 e).ID = e.ID ∧
        (json.rereadEvent tz2 e).Username = json.replaceInvalid e.Username ∧
        (json.rereadEvent tz2 e).Type_ = json.replaceInvalid e.Type_ ∧
        (json.rereadEvent tz2 e).Content = json.replaceInvalid e.Content ∧
        (json.rereadEvent tz2 e).Timestamp.sec = e.Timestamp.sec ∧
        (json.rereadEvent tz2 e).Timestamp.nsec = e.Timestamp.nsec ∧
        (json.rereadEvent tz2 e).Timestamp.offset tz2 = e.Timestamp.offset tz ∧
        ((GoString.chars e.Username).isSome = true → (GoString.chars e.Type_).isSome = true →
          (GoString.chars e.Content).isSome = true →
          (json.rereadEvent tz2 e).Username = e.Username ∧
          (json.rereadEvent tz2 e).Type_ = e.Type_ ∧
          (json.rereadEvent tz2 e).Content = e.Content)) := by
  obtain ⟨events, h1, hloc, h2⟩ := ReadJSON_ExportToJSON d tz tz2 u path fs hok
  refine ⟨events, h1, h2, fun e he => ⟨rfl, rfl, rfl, rfl, rfl, rfl, ?_, ?_⟩⟩
  · have h3 : (json.rereadEvent tz2 e).Timestamp = json.reread tz2 e.Timestamp := rfl
    rw [h3, offset_reread, offset_eq_of_not_local _ (hloc e he) tz2 tz]
  · intro hu ht hc
    exact ⟨replaceInvalid_of_chars _ hu, replaceInvalid_of_chars _ ht,
      replaceInvalid_of_chars _ hc⟩

set_option maxRecDepth 100000 in
/-- Witness of C8 (amended): two records written in New York, one with
characters that JSON escapes and a fraction of a second, are exported there and
read back in Tokyo in the order of the listing, with their ids, contents and
instants. -/
theorem ExportToJSON_read_back_witness :
    ∃ events : List database.Event,
      (sample.two { sec := 1699162200, nsec := 120000000 }
          (Time.Unix 1699164600 0)).GetEventsByUsername sample.newYork none "host" =
        .ok events ∧
      events.map (fun e => e.ID) = [1, 2] ∧
      (database.ReadJSON sample.tokyo
        ((sample.two { sec := 1699162200, nsec := 120000000 }
          (Time.Unix 1699164600 0)).ExportToJSON sample.newYork none none "host" "out.json"
            (fun _ => none)).2 "out.json").map
          (fun l => l.map (fun e => (e.ID, e.Content, e.Timestamp.sec, e.Timestamp.nsec))) =
        some [ ((1 : Int), GoString.ofString "a: <x>", (1699162200 : Int), 120000000),
               (2, GoString.ofString "b sent rose (x3)", 1699164600, 0) ] := by
  obtain ⟨events, h1, h2, -⟩ := ExportToJSON_read_back
    (sample.two { sec := 1699162200, nsec := 120000000 } (Time.Unix 1699164600 0))
    sample.newYork sample.tokyo "host" "out.json" (fun _ => none) (by decide)
  have hev : database.DB.GetEventsByUsername
      (sample.two { sec := 1699162200, nsec := 120000000 } (Time.Unix 1699164600 0))
      sample.newYork none "host" =
      .ok [ { ID := 1, Username := "host", Type_ := "chat", Content := "a: <x>",
              Timestamp := { sec := 1699162200, nsec := 120000000,
                             loc := Location.fixed (-14400) } },
            { ID := 2, Username := "host", Type_ := "gift", Content := "b sent rose (x3)",
              Timestamp := { sec := 1699164600, nsec := 0,
                             loc := Location.fixed (-18000) } } ] := by decide
  rw [hev] at h1
  have he := (Except.ok.inj h1).symm
  subst he
  refine ⟨_, hev, by decide, ?_⟩
  rw [h2]
  decide

set_option maxRecDepth 100000 in
/-- C9, as stated, fails in its last part: a single stored record whose content
holds a newline (written in Tokyo) is exported as two lines of text, so the
number of lines (2) is not the number of records (1). -/
theorem ExportToTXT_line_count_counterexample :
    (sample.one "a: x\ny" (Time.Unix 1700000000 0)).GetEventsByUsername sample.tokyo none
        "host" =
      .ok [ { ID := 1, Username := "host", Type_ := "chat", Content := "a: x\ny",
              Timestamp := { sec := 1700000000, nsec := 0, loc := Location.fixed 32400 } } ] ∧
    ((sample.one "a: x\ny" (Time.Unix 1700000000 0)).ExportToTXT sample.tokyo none none
        "host" "out.txt" (fun _ => none)).2 "out.txt" =
      some (GoString.ofString "[2023-11-15 07:13:20] chat: a: x\ny\n") ∧
    database.lineCount (GoString.ofString "[2023-11-15 07:13:20] chat: a: x\ny\n") = 2 ∧
    database.lineCount (GoString.ofString "[2023-11-15 07:13:20] chat: a: x\ny\n") ≠
      [ ({ ID := 1, Username := "host", Type_ := "chat", Content := "a: x\ny",
           Timestamp := { sec := 1700000000, nsec := 0, loc := Location.fixed 32400 } } :
          database.Event) ].length := by
  decide

/-- C9, amended: `ExportToTXT` writes, under the output path, the concatenation
over the records of the by-subject listing, in the order of the listing, of
`[` timestamp `] ` kind `: ` content and a newline (the timestamp of the listed
record laid out as YYYY-MM-DD HH:MM:SS on the clock of its zone); every other
file is untouched.  The text has one newline per record plus the newlines that
the kinds and contents themselves hold, so the number of lines equals the
number of records when no kind and no content of the subject holds a newline. -/
theorem ExportToTXT_writes_one_entry_per_record (d : database.DB) (tz : Zone) (u : GoString)
    (path : String) (fs : database.Files) :
    ∃ (events : List database.Event) (content : GoString),
      d.GetEventsByUsername tz none u = .ok events ∧
      content =
        events.flatMap (fun e =>
          GoString.ofString "[" ++ GoString.ofString (e.Timestamp.FormatDateTime tz) ++
            GoString.ofString "] " ++ e.Type_ ++ GoString.ofString ": " ++ e.Content ++
            GoString.ofString "\n") ∧
      (d.ExportToTXT tz none none u path fs).1 = none ∧
      (d.ExportToTXT tz none none u path fs).2 path = some content ∧
      (∀ p : String, p ≠ path → (d.ExportToTXT tz none none u path fs).2 p = fs p) ∧
      database.lineCount content =
        events.length +
          (events.map (fun e =>
            database.lineCount e.Type_ + database.lineCount e.Content)).sum ∧
      ((∀ e ∈ events, database.lineCount e.Type_ = 0 ∧ database.lineCount e.Content = 0) →
        database.lineCount content = events.length) := by
  refine ⟨_, _, rfl, rfl, rfl, ?_, ?_, ?_, ?_⟩
  · simp only [database.DB.ExportToTXT, database.DB.GetEventsByUsername, database.WriteFile,
      if_true]
    rw [foldl_append_eq_flatMap]
    rfl
  · intro p hp
    simp [database.DB.ExportToTXT, database.DB.GetEventsByUsername, database.WriteFile, hp]
  · exact lineCount_flatMap_txtLine tz _
  · intro h
    have hsum := lineCount_flatMap_txtLine tz
      (((d.rows.filter (fun e => e.Username = u)).insertionSort
        (database.Event.storedDesc tz)).map (database.Event.scan tz))
    have hz : ((((d.rows.filter (fun e => e.Username = u)).insertionSort
        (database.Event.storedDesc tz)).map (database.Event.scan tz)).map
          (fun e => database.lineCount e.Type_ + database.lineCount e.Content)).sum = 0 := by
      apply List.sum_eq_zero
      intro x hx
      obtain ⟨e, he, rfl⟩ := List.mem_map.mp hx
      obtain ⟨h1, h2⟩ := h e he
      omega
    rw [hz] at hsum
    exact hsum

set_option maxRecDepth 100000 in
/-- Witness of C9 (amended): two records without newlines, written in Tokyo, give
two lines, with the clock of Tokyo. -/
theorem ExportToTXT_writes_one_entry_per_record_witness :
    ∃ (events : List database.Event) (content : GoString),
      (sample.two (Time.Unix 1700000000 0) (Time.Unix 1700000005 0)).GetEventsByUsername
          sample.tokyo none "host" = .ok events ∧
      events.length = 2 ∧
      ((sample.two (Time.Unix 1700000000 0) (Time.Unix 1700000005 0)).ExportToTXT
          sample.tokyo none none "host" "out.txt" (fun _ => none)).2 "out.txt" =
        some content ∧
      content = GoString.ofString
        "[2023-11-15 07:13:25] gift: b sent rose (x3)\n[2023-11-15 07:13:20] chat: a: <x>\n" ∧
      database.lineCount content = events.length := by
  obtain ⟨events, content, h1, h2, -, h4, -, -, h7⟩ :=
    ExportToTXT_writes_one_entry_per_record
      (sample.two (Time.Unix 1700000000 0) (Time.Unix 1700000005 0)) sample.tokyo "host"
      "out.txt" (fun _ => none)
  have hev : database.DB.GetEventsByUsername
      (sample.two (Time.Unix 1700000000 0) (Time.Unix 1700000005 0)) sample.tokyo none "host" =
      .ok [ { ID := 2, Username := "host", Type_ := "gift", Content := "b sent rose (x3)",
              Timestamp := { sec := 1700000005, nsec := 0, loc := Location.fixed 32400 } },
            { ID := 1, Username := "host", Type_ := "chat", Content := "a: <x>",
              Timestamp := { sec := 1700000000, nsec := 0, loc := Location.fixed 32400 } } ] := by
    decide
  rw [hev] at h1
  have he := (Except.ok.inj h1).symm
  subst he
  refine ⟨_, content, hev, rfl, h4, ?_, h7 (by decide)⟩
  rw [h2]
  decide

/-- C11: appending `s` to any display model, by `AddEvent` or by `Update` with an
event message, gives the former entries followed by `s` (same entries, same
order, one more); and the text handed to the viewport, `formatEvents`, is the
concatenation of every entry followed by a newline, in order, so that it is
the former text followed by `s` and a newline, with the viewport scrolled to
the bottom. -/
theorem AddEvent_appends_and_formats (m : ui.model) (s : String) :
    (m.AddEvent s).events = m.events ++ [s] ∧
    (m.AddEvent s).events.length = m.events.length + 1 ∧
    (m.AddEvent s).events.take m.events.length = m.events ∧
    (m.AddEvent s).events.getLast? = some s ∧
    m.formatEvents = String.join (m.events.map (fun e => e ++ "\n")) ∧
    (m.AddEvent s).viewport.content =
      String.join ((m.events ++ [s]).map (fun e => e ++ "\n")) ∧
    (m.AddEvent s).viewport.content = m.formatEvents ++ (s ++ "\n") ∧
    (m.AddEvent s).viewport.atBottom = true ∧
    (∀ (Cmd : Type) (tk : ui.Toolkit Cmd),
      m.handle tk (.event s) = m.AddEvent s ∧
      (m.Update tk (.event s)).1.events = m.events ++ [s] ∧
      (m.Update tk (.event s)).1.viewport =
        if m.showViewer = true then
          (tk.viewportUpdate (m.AddEvent s).viewport (.event s)).1
        else (m.AddEvent s).viewport) := by
  have hfmt : (m.AddEvent s).viewport.content =
      String.join ((m.events ++ [s]).map (fun e => e ++ "\n")) := by
    show ui.model.formatEvents { m with events := m.events ++ [s] } = _
    rw [formatEvents_eq_join]
  refine ⟨rfl, ?_, ?_, ?_, formatEvents_eq_join m, hfmt, ?_, rfl, ?_⟩
  · simp [ui.model.AddEvent]
  · simp [ui.model.AddEvent]
  · simp [ui.model.AddEvent]
  · rw [hfmt, formatEvents_eq_join, List.map_append, join_append]
    simp [String.join]
  · intro Cmd tk
    refine ⟨rfl, ?_, ?_⟩
    · simp only [ui.model.Update, ui.model.handle]
      split_ifs <;> rfl
    · simp only [ui.model.Update, ui.model.handle, ui.model.AddEvent]
      split_ifs <;> rfl

/-- C12: every canonical event that `TrackUser` passes to the handler, for every
sequence of raw events and every clock, has a kind among chat, gift, like,
follow, share, stats and a content that is not the empty string, whatever the
nicknames, texts and counts. -/
theorem dispatched_kind_and_content (evs : List (Time × gotiktoklive.Event)) :
    ∀ ev ∈ cmd.dispatched evs,
      ev.Type_ ∈ ["chat", "gift", "like", "follow", "share", "stats"] ∧ ev.Content ≠ "" := by
  induction evs with
  | nil => intro ev hev; simp [cmd.dispatched, tiktok.TrackUser] at hev
  | cons x rest ih =>
      intro ev hev
      rw [dispatched_cons] at hev
      rcases List.mem_append.mp hev with h | h
      · exact canonical_kind_content x.1 x.2 ev h
      · exact ih ev h

/-- Witness of C12: a chat event with an empty nickname and an empty text, and a
like event with an empty nickname and zero likes. -/
theorem dispatched_kind_and_content_witness :
    cmd.dispatched
        [ ({ sec := 3, nsec := 0 },
            .chat { Comment := "", User := { Nickname := "" }, Timestamp := 0 }),
          ({ sec := 4, nsec := 0 }, .like { Likes := 0, User := { Nickname := "" } }) ] =
      [ { Type_ := "chat", Content := ": ", Timestamp := { sec := 0, nsec := 0 } },
        { Type_ := "like", Content := " sent 0 likes", Timestamp := { sec := 4, nsec := 0 } } ] ∧
    (": " : String) ≠ "" ∧ (" sent 0 likes" : String) ≠ "" :=
  ⟨by decide,
   (dispatched_kind_and_content
      [ ({ sec := 3, nsec := 0 },
          .chat { Comment := "", User := { Nickname := "" }, Timestamp := 0 }),
        ({ sec := 4, nsec := 0 }, .like { Likes := 0, User := { Nickname := "" } }) ]
      { Type_ := "chat", Content := ": ", Timestamp := { sec := 0, nsec := 0 } }
      (by decide)).2,
   (dispatched_kind_and_content
      [ ({ sec := 3, nsec := 0 },
          .chat { Comment := "", User := { Nickname := "" }, Timestamp := 0 }),
        ({ sec := 4, nsec := 0 }, .like { Likes := 0, User := { Nickname := "" } }) ]
      { Type_ := "like", Content := " sent 0 likes", Timestamp := { sec := 4, nsec := 0 } }
      (by decide)).2⟩

/-- C13: `SetError` is last-write-wins (after `SetError e1` then `SetError e2` the
model's `err` is `e2`); it changes `err` and `loading` and nothing else (the
model is the former one with these two fields set, so entries, summary,
username and the widgets are as before); and `AddEvent` appends the same entry
and hands the same text to the viewport whether `err` is set or not (the two
calls commute), as does the handler of the log command for display and store. -/
theorem SetError_last_write_wins_and_frame (m : ui.model) (e1 e2 : Option Error) (s : String) :
    ((m.SetError e1).SetError e2).err = e2 ∧
    (m.SetError e1).SetError e2 = m.SetError e2 ∧
    m.SetError e1 = { m with err := e1, loading := false } ∧
    (m.SetError e1).events = m.events ∧
    (m.SetError e1).stats = m.stats ∧
    (m.SetError e1).username = m.username ∧
    (m.SetError e1).table = m.table ∧
    (m.SetError e1).viewport = m.viewport ∧
    ((m.SetError e1).AddEvent s).events = m.events ++ [s] ∧
    ((m.SetError e1).AddEvent s).events = (m.AddEvent s).events ∧
    ((m.SetError e1).AddEvent s).viewport = (m.AddEvent s).viewport ∧
    (m.SetError e1).AddEvent s = (m.AddEvent s).SetError e1 ∧
    (∀ (ev : tiktok.Event) (ss : cmd.Session),
      (cmd.onEvent ev { ss with model := ss.model.SetError e1 }).model.events =
        (cmd.onEvent ev ss).model.events ∧
      (cmd.onEvent ev { ss with model := ss.model.SetError e1 }).db = (cmd.onEvent ev ss).db ∧
      (cmd.onEvent ev { ss with model := ss.model.SetError e1 }).calls =
        (cmd.onEvent ev ss).calls) := by
  refine ⟨rfl, rfl, rfl, rfl, rfl, rfl, rfl, rfl, rfl, rfl, rfl, rfl, ?_⟩
  intro ev ss
  unfold cmd.onEvent
  cases h : ss.driver ss.saves <;>
    simp [cmd.Session.AddEvent, cmd.Session.SaveEvent, cmd.Session.SetError,
      database.DB.SaveEvent, ui.model.AddEvent, ui.model.SetError, h]

/-- C14: when `err` is non-nil, `View` is the error style applied to `Error: `
followed by the error text, and nothing else; it is the same for any two models
with that error, whatever their entries, summary and view mode.  `Update`
leaves `err` as it is for every message that is not an error message, and an
error message sets another non-nil error, so after any sequence of messages the
view is still an error text and the entries are not rendered. -/
theorem View_of_error_and_Update_keeps_err {Cmd : Type} (tk : ui.Toolkit Cmd)
    (m m2 : ui.model) (e : Error) (hm : m.err = some e) (hm2 : m2.err = some e) :
    m.View tk = tk.errorStyleRender ("Error: " ++ e) ∧
    m.View tk = m2.View tk ∧
    (∀ (events : List String) (stats : ui.Stats) (showList showViewer : Bool),
      ui.model.View tk
          { m with events := events, stats := stats, showList := showList,
                   showViewer := showViewer } =
        m.View tk) ∧
    (∀ msg : ui.Msg, (∀ err : Error, msg ≠ .error err) → (m.Update tk msg).1.err = m.err) ∧
    (∀ err : Error, (m.Update tk (.error err)).1.err = some err) ∧
    (∀ msgs : List ui.Msg,
      ∃ e2 : Error,
        (ui.model.Updates tk m msgs).err = some e2 ∧
        (ui.model.Updates tk m msgs).View tk = tk.errorStyleRender ("Error: " ++ e2)) := by
  have hview : ∀ (x : ui.model) (e0 : Error), x.err = some e0 →
      x.View tk = tk.errorStyleRender ("Error: " ++ e0) := by
    intro x e0 hx
    simp only [ui.model.View, hx]
  refine ⟨hview m e hm, ?_, ?_, ?_, ?_, ?_⟩
  · rw [hview m e hm, hview m2 e hm2]
  · intro events stats showList showViewer
    rw [hview m e hm]
    exact hview _ e hm
  · intro msg hmsg
    rw [Update_err]
    cases msg with
    | error err => exact absurd rfl (hmsg err)
    | _ => rfl
  · intro err
    rw [Update_err]
  · intro msgs
    have hs := Updates_err_isSome tk msgs m (by rw [hm]; rfl)
    cases hx : (ui.model.Updates tk m msgs).err with
    | none => rw [hx] at hs; exact absurd hs (by simp)
    | some e2 => exact ⟨e2, rfl, hview _ e2 hx⟩

/-- Witness of C14: a model with entries and a recorded failure, before and after
a further event message. -/
theorem View_of_error_and_Update_keeps_err_witness :
    ui.model.View ui.plainToolkit
        (((ui.NewModel "host").AddEvent "alice: hi").SetError
          (some "failed to save event: disk I/O error")) =
      "Error: failed to save event: disk I/O error" ∧
    ui.model.View ui.plainToolkit
        (ui.model.Updates ui.plainToolkit
          (((ui.NewModel "host").AddEvent "alice: hi").SetError
            (some "failed to save event: disk I/O error"))
          [.event "bob: yo", .windowSize 100 40]) =
      "Error: failed to save event: disk I/O error" :=
  ⟨(View_of_error_and_Update_keeps_err ui.plainToolkit
      (((ui.NewModel "host").AddEvent "alice: hi").SetError
        (some "failed to save event: disk I/O error"))
      ((ui.NewModel "host").SetError (some "failed to save event: disk I/O error"))
      "failed to save event: disk I/O error" rfl rfl).1,
   by decide⟩

end Claims

end TiktokLiveLogger
